import Mathlib

/-!
# H5MicReader (DREAM3DReview, HEDM): a shallow embedding

The reader of `src/DREAM3DReviewFilters/HEDM/H5MicReader.cpp` is embedded as
state-passing functions over

* `H5MicReader` : the members of the reader object, and
* `World`       : the hierarchical store behind the HDF5 calls, the table of
  open identifiers, the record of every call made on the store, and the heap
  on which the column arrays live.

Every HDF5 call of the source is one call of a primitive below, made in the
order of the source, so that the sequence of opens and closes of a run can be
read off `World.trace`.
-/

namespace H5Mic

/-! ## The hierarchical store -/

/-- A C `float`, kept as its raw 32-bit pattern; the pattern `0` is `+0.0f`. -/
abbrev F32 := Nat

/-- An object of the store: a group with named links, or a dataset. -/
inductive H5Obj where
  | group (links : List (String × H5Obj))
  | intScalar (v : Int)
  | floatScalar (v : F32)
  | string (s : String)
  | floatArray (vs : List F32)
  | intArray (vs : List Int)

/-- The object a link name resolves to inside a group (first match). -/
def lookupLink : List (String × H5Obj) → String → Option H5Obj
  | [], _ => none
  | (k, o) :: rest, n => if k = n then some o else lookupLink rest n

/-- Whether a link name resolves to a group. -/
def isGroupLink (links : List (String × H5Obj)) (n : String) : Bool :=
  match lookupLink links n with
  | some (.group _) => true
  | _ => false

/-- An identifier of the C type `hid_t`; a negative value is no identifier. -/
abbrev Hid := Int

/-- One call made on the store. -/
inductive H5Event where
  | fileOpened (name : String) (id : Hid)
  | fileOpenFailed (name : String)
  | groupOpened (loc : Hid) (name : String) (id : Hid)
  | groupOpenFailed (loc : Hid) (name : String)
  | groupClosed (id : Hid) (ok : Bool)
  | fileClosed (id : Hid) (ok : Bool)
  | groupListed (loc : Hid)
  | datasetRead (loc : Hid) (name : String) (ok : Bool)
  deriving DecidableEq, Repr

/-- The seven data columns of a `.mic` file. -/
inductive Column where
  | Euler1 | Euler2 | Euler3 | Confidence | Phase | X | Y
  deriving DecidableEq, Repr

/-- All seven columns, in the order in which `readData` treats them. -/
def Column.all : List Column :=
  [.Euler1, .Euler2, .Euler3, .Confidence, .Phase, .X, .Y]

/-- One call made on the heap for a column array. -/
inductive HeapEvent where
  | allocated (c : Column) (n : Nat)
  | freed (c : Column)
  deriving DecidableEq, Repr

/-- An array owned by the reader: `float*` or `int*` with its elements. -/
inductive Buffer where
  | floats (vs : List F32)
  | ints (vs : List Int)
  deriving DecidableEq, Repr

/-- Number of elements of an array. -/
def Buffer.length : Buffer → Nat
  | .floats vs => vs.length
  | .ints vs => vs.length

/-- Whether every element of an array is zero. -/
def Buffer.allZero : Buffer → Bool
  | .floats vs => vs.all (fun v => v == 0)
  | .ints vs => vs.all (fun v => v == 0)

/-- An open identifier: its number, whether it names a file, and its object. -/
structure Handle where
  id : Hid
  isFile : Bool
  obj : H5Obj

/-- Everything outside the reader object.

* `files` : the content (root group) of each file that can be opened;
* `allocOk c n` : whether `allocateArray` hands out an array of `n` elements
  for column `c` (the template lives in `MicReader.h`, outside `src/`, and is
  taken as a parameter);
* `junk` : the content of freshly allocated, not yet initialised, memory;
* `nextId`, `handles` : the identifier table of the HDF5 library;
* `trace`, `heapTrace` : the calls made so far. -/
structure World where
  files : String → Option H5Obj
  allocOk : Column → Nat → Bool
  junk : Nat
  nextId : Nat
  handles : List Handle
  trace : List H5Event
  heapTrace : List HeapEvent

/-- The open identifier with number `id`, if any. -/
def World.find (w : World) (id : Hid) : Option Handle :=
  w.handles.find? (fun h => h.id == id)

/-- The links of the group (or file root) an identifier names. -/
def World.linksOf (w : World) (loc : Hid) : Option (List (String × H5Obj)) :=
  match w.find loc with
  | some h =>
    match h.obj with
    | .group links => some links
    | _ => none
  | none => none

/-- Append one store call to the record. -/
def World.log (w : World) (e : H5Event) : World :=
  { w with trace := w.trace ++ [e] }

/-- Register a fresh identifier for an object. -/
def World.register (w : World) (isFile : Bool) (o : H5Obj) : Hid × World :=
  ((w.nextId : Int),
   { w with nextId := w.nextId + 1,
            handles := ⟨(w.nextId : Int), isFile, o⟩ :: w.handles })

/-- Remove an identifier from the table. -/
def World.release (w : World) (id : Hid) : World :=
  { w with handles := w.handles.filter (fun h => !(h.id == id)) }

/-! ## The HDF5 primitives the reader calls -/

/-- Model of `H5Utilities::openFile(name, true)`: a fresh identifier, or `-1`. -/
def H5Utilities.openFile (w : World) (name : String) : Hid × World :=
  match w.files name with
  | some root =>
    let (id, w1) := w.register true root
    (id, w1.log (.fileOpened name id))
  | none => (-1, w.log (.fileOpenFailed name))

/-- Model of `H5Gopen(loc, name, H5P_DEFAULT)`: a fresh identifier for the group the
name resolves to below `loc`, or `-1`. -/
def H5Gopen (w : World) (loc : Hid) (name : String) : Hid × World :=
  match w.linksOf loc with
  | some links =>
    match lookupLink links name with
    | some (.group ls) =>
      let (id, w1) := w.register false (.group ls)
      (id, w1.log (.groupOpened loc name id))
    | _ => (-1, w.log (.groupOpenFailed loc name))
  | none => (-1, w.log (.groupOpenFailed loc name))

/-- Model of `H5Gclose(id)`: `0` when `id` is an open group identifier, else `-1`; the
call is recorded with its outcome. -/
def H5Gclose (w : World) (id : Hid) : Int × World :=
  match w.find id with
  | some h =>
    if h.isFile then (-1, w.log (.groupClosed id false))
    else (0, (w.release id).log (.groupClosed id true))
  | none => (-1, w.log (.groupClosed id false))

/-- Model of `H5Utilities::closeFile(id)`: `0` when `id` is an open file identifier,
else `-1`. Only the call of the reader on the file identifier is recorded,
with its outcome. -/
def H5Utilities.closeFile (w : World) (id : Hid) : Int × World :=
  match w.find id with
  | some h =>
    if h.isFile then (0, (w.release id).log (.fileClosed id true))
    else (-1, w.log (.fileClosed id false))
  | none => (-1, w.log (.fileClosed id false))

/-- Model of `H5Utilities::getGroupObjects(loc, Group, names)`: the names below `loc`
that resolve to groups, in the order of the store. -/
def H5Utilities.getGroupObjects (w : World) (loc : Hid) : (Int × List String) × World :=
  match w.linksOf loc with
  | some links =>
    ((0, (links.filter (fun p => isGroupLink links p.1)).map (fun p => p.1)),
     w.log (.groupListed loc))
  | none => ((-1, []), w.log (.groupListed loc))

/-- Whether `name` resolves to a group below the open identifier `loc`. -/
def World.hasGroup (w : World) (loc : Hid) (name : String) : Bool :=
  match w.linksOf loc with
  | some links => isGroupLink links name
  | none => false

/-- The dataset a name resolves to below `loc`. -/
def World.dataset (w : World) (loc : Hid) (name : String) : Option H5Obj :=
  match w.linksOf loc with
  | some links => lookupLink links name
  | none => none

/-- Model of `H5Lite::readScalarDataset<int>`. -/
def H5Lite.readScalarInt (w : World) (loc : Hid) (name : String) : (Int × Int) × World :=
  match w.dataset loc name with
  | some (.intScalar v) => ((0, v), w.log (.datasetRead loc name true))
  | _ => ((-1, 0), w.log (.datasetRead loc name false))

/-- Model of `H5Lite::readScalarDataset<float>`. -/
def H5Lite.readScalarFloat (w : World) (loc : Hid) (name : String) : (Int × F32) × World :=
  match w.dataset loc name with
  | some (.floatScalar v) => ((0, v), w.log (.datasetRead loc name true))
  | _ => ((-1, 0), w.log (.datasetRead loc name false))

/-- Model of `H5Lite::readStringDataset`: on failure the string is left as it was. -/
def H5Lite.readStringDataset (w : World) (loc : Hid) (name : String) (s : String) :
    (Int × String) × World :=
  match w.dataset loc name with
  | some (.string v) => ((0, v), w.log (.datasetRead loc name true))
  | _ => ((-1, s), w.log (.datasetRead loc name false))

/-- Model of `H5Lite::readVectorDataset<float>`. -/
def H5Lite.readVectorFloat (w : World) (loc : Hid) (name : String) :
    (Int × List F32) × World :=
  match w.dataset loc name with
  | some (.floatArray vs) => ((0, vs), w.log (.datasetRead loc name true))
  | _ => ((-1, []), w.log (.datasetRead loc name false))

/-- Write `data` over the front of `buf`, never past its end. -/
def overlay {α : Type} (data buf : List α) : List α :=
  data.take buf.length ++ buf.drop data.length

/-- Model of `H5Lite::readPointerDataset(loc, name, ptr)`: the dataset of the element
type of the array is copied into the array; on failure the array is left as
it was and the result is negative. -/
def H5Lite.readPointerDataset (w : World) (loc : Hid) (name : String) (buf : Buffer) :
    (Int × Buffer) × World :=
  match w.dataset loc name, buf with
  | some (.floatArray vs), .floats old =>
    ((0, .floats (overlay vs old)), w.log (.datasetRead loc name true))
  | some (.intArray vs), .ints old =>
    ((0, .ints (overlay vs old)), w.log (.datasetRead loc name true))
  | _, _ => ((-1, buf), w.log (.datasetRead loc name false))

/-! ## Constants of the file format -/

/-- Modelled from the spec: the group and dataset names of `MicConstants.h`
(not under `src/`), as listed in the description of the input file format. -/
def Mic.H5Mic.Header : String := "Header"

/-- Modelled from the spec: name of the phases group (`MicConstants.h`). -/
def Mic.H5Mic.Phases : String := "Phases"

/-- Modelled from the spec: name of the data group (`MicConstants.h`). -/
def Mic.H5Mic.Data : String := "Data"

/-- Modelled from the spec: name of the free-text header dataset. -/
def Mic.H5Mic.OriginalHeader : String := "OriginalHeader"

/-- Modelled from the spec: names of the four scalar header entries. -/
def Mic.XRes : String := "XRes"

/-- Modelled from the spec: name of the y-resolution entry. -/
def Mic.YRes : String := "YRes"

/-- Modelled from the spec: name of the x-dimension entry. -/
def Mic.XDim : String := "XDim"

/-- Modelled from the spec: name of the y-dimension entry. -/
def Mic.YDim : String := "YDim"

/-- Modelled from the spec: names of the datasets of a phase group. -/
def Mic.Phase : String := "Phase"

/-- Modelled from the spec: name of the lattice-constants dataset. -/
def Mic.LatticeConstants : String := "LatticeConstants"

/-- Modelled from the spec: name of the basis-atoms dataset. -/
def Mic.BasisAtoms : String := "BasisAtoms"

/-- Modelled from the spec: name of the symmetry dataset. -/
def Mic.Symmetry : String := "Symmetry"

/-- Modelled from the spec: the dataset name `Mic::<column>` of each column
(`MicConstants.h`); the column `Phase` shares the name `Mic::Phase`. -/
def Column.name : Column → String
  | .Euler1 => "Euler1"
  | .Euler2 => "Euler2"
  | .Euler3 => "Euler3"
  | .Confidence => "Confidence"
  | .Phase => Mic.Phase
  | .X => "X"
  | .Y => "Y"

/-- Whether the column is declared `int` (only `Phase`); the others are `float`. -/
def Column.isInt : Column → Bool
  | .Phase => true
  | _ => false

/-! ## The reader object -/

/-- One record of the phase collection (`MicPhase`). -/
structure MicPhase where
  phaseIndex : Int
  latticeConstants : List F32
  basisAtoms : String
  symmetry : String
  deriving DecidableEq, Repr

/-- Modelled from the spec: `MicPhase::New()` (`MicPhase.h`, not under
`src/`) yields a record whose fields hold their defaults. -/
def MicPhase.New : MicPhase :=
  { phaseIndex := 0, latticeConstants := [], basisAtoms := "", symmetry := "" }

/-- The members of `H5MicReader` (with those inherited from `MicReader` and
`EbsdReader`) that the four operations read or write. `xDim` and `yDim` are
the header entries `XDim` and `YDim`, which `getXDimension()` and
`getYDimension()` return as C `int`. -/
structure H5MicReader where
  fileName : String
  hdf5Path : String
  readAllArrays : Bool
  arrayNames : List String
  errorCode : Int
  errorMessage : String
  xRes : F32
  yRes : F32
  xDim : Int
  yDim : Int
  originalHeader : String
  phases : List MicPhase
  numberOfElements : Nat
  cols : Column → Option Buffer

/-- A reader as the default constructor leaves it, configured for a file, an
internal path and a column selection. -/
def H5MicReader.fresh (fileName hdf5Path : String) ( readAll : Bool) (names : List String) :
    H5MicReader :=
  { fileName := fileName, hdf5Path := hdf5Path, readAllArrays := readAll,
    arrayNames := names, errorCode := 0, errorMessage := "", xRes := 0, yRes := 0,
    xDim := 0, yDim := 0, originalHeader := "", phases := [], numberOfElements := 0,
    cols := fun _ => none }

/-- Setter `setErrorCode`. -/
def H5MicReader.setErrorCode (r : H5MicReader) (c : Int) : H5MicReader :=
  { r with errorCode := c }

/-- Setter `setErrorMessage`. -/
def H5MicReader.setErrorMessage (r : H5MicReader) (m : String) : H5MicReader :=
  { r with errorMessage := m }

/-- Setter `set<Column>Pointer(p)`: the column member takes the pointer, null or not. -/
def H5MicReader.setPointer (r : H5MicReader) (c : Column) (p : Option Buffer) : H5MicReader :=
  { r with cols := fun c2 => if c2 = c then p else r.cols c2 }

/-- Whether a column member is non-null. -/
def H5MicReader.isSet (r : H5MicReader) (c : Column) : Bool :=
  (r.cols c).isSome

/-- The columns whose member is non-null. -/
def H5MicReader.setColumns (r : H5MicReader) : List Column :=
  Column.all.filter (fun c => r.isSet c)

/-- Conversion of a C `int` to `size_t` (64 bits): reduction modulo 2^64. -/
def toSizeT (v : Int) : Nat := (v % 2 ^ 64).toNat

/-- The values a C `int` (32 bits) can hold. -/
def IsInt32 (v : Int) : Prop := -2 ^ 31 ≤ v ∧ v < 2 ^ 31

instance (v : Int) : Decidable (IsInt32 v) := by
  unfold IsInt32; exact inferInstance

/-- Modelled from the spec: `deletePointers()` (`MicReader.cpp`, not under
`src/`) releases every array the reader owns and leaves all seven column
members null. -/
def H5MicReader.deletePointers (r : H5MicReader) (w : World) : H5MicReader × World :=
  ({ r with cols := fun _ => none },
   { w with heapTrace := w.heapTrace ++ (r.setColumns.map (fun c => HeapEvent.freed c)) })

/-- Whether an array of `n` 4-byte elements can be handed out for column `c`:
the allocator agrees and the array fits the 64-bit address space. -/
def World.canAllocate (w : World) (c : Column) (n : Nat) : Bool :=
  w.allocOk c n && decide (n * 4 < 2 ^ 64)

/-- The template `allocateArray<type>(n)` of `MicReader.h` (not under `src/`),
taken as a parameter of the world: when `w.canAllocate c n` holds, an array of `n` elements of the type of the column,
with the content of fresh memory; a null pointer otherwise. -/
def allocateArray (w : World) (c : Column) (n : Nat) : Option Buffer × World :=
  if w.canAllocate c n = true then
    (some (if c.isInt then .ints (List.replicate n (w.junk : Int))
           else .floats (List.replicate n w.junk)),
     { w with heapTrace := w.heapTrace ++ [.allocated c n] })
  else (none, w)

/-- Model of `::memset(p, 0, numBytes)` on an array of 4-byte elements: the first
`numBytes / 4` elements become zero. -/
def memsetZero (b : Buffer) (numBytes : Nat) : Buffer :=
  match b with
  | .floats vs => .floats (List.replicate (min (numBytes / 4) vs.length) 0 ++ vs.drop (numBytes / 4))
  | .ints vs => .ints (List.replicate (min (numBytes / 4) vs.length) 0 ++ vs.drop (numBytes / 4))

/-! ## The field readers of `EbsdMacros.h` -/

/-- The running state of an operation: the local `err`, the reader, the world. -/
abbrev St := Int × H5MicReader × World

/-- Modelled from the spec: `READ_EBSD_HEADER_DATA` (`EbsdMacros.h`, outside
`src/`) for a `float` entry. The scalar is read by its key; a missing scalar
is tolerated: the entry keeps its value and the operation goes on. -/
def readEbsdHeaderFloat (set : H5MicReader → F32 → H5MicReader) (key : String) (gid : Hid)
    (s : St) : St :=
  let res := H5Lite.readScalarFloat s.2.2 gid key
  if res.1.1 < 0 then (res.1.1, s.2.1, res.2)
  else (res.1.1, set s.2.1 res.1.2, res.2)

/-- Modelled from the spec: `READ_EBSD_HEADER_DATA` for an `int` entry. -/
def readEbsdHeaderInt (set : H5MicReader → Int → H5MicReader) (key : String) (gid : Hid)
    (s : St) : St :=
  let res := H5Lite.readScalarInt s.2.2 gid key
  if res.1.1 < 0 then (res.1.1, s.2.1, res.2)
  else (res.1.1, set s.2.1 res.1.2, res.2)

/-- Modelled from the spec: `READ_PHASE_HEADER_DATA` (`EbsdMacros.h`): the
`int` field of the phase record is read; a missing field keeps its default. -/
def readPhaseHeaderData (w : World) (pid : Hid) (key : String) (ph : MicPhase) :
    Int × MicPhase × World :=
  let res := H5Lite.readScalarInt w pid key
  if res.1.1 < 0 then (res.1.1, ph, res.2)
  else (res.1.1, { ph with phaseIndex := res.1.2 }, res.2)

/-- Modelled from the spec: `READ_PHASE_HEADER_ARRAY` (`EbsdMacros.h`): the
lattice constants are read; missing ones keep their default. -/
def readPhaseHeaderArray (w : World) (pid : Hid) (key : String) (ph : MicPhase) :
    Int × MicPhase × World :=
  let res := H5Lite.readVectorFloat w pid key
  if res.1.1 < 0 then (res.1.1, ph, res.2)
  else (res.1.1, { ph with latticeConstants := res.1.2 }, res.2)

/-- Modelled from the spec: `READ_PHASE_STRING_DATA` (`EbsdMacros.h`): a
string field of the phase record is read; a missing one keeps its default. -/
def readPhaseStringData (set : MicPhase → String → MicPhase) (w : World) (pid : Hid)
    (key : String) (ph : MicPhase) : Int × MicPhase × World :=
  let res := H5Lite.readStringDataset w pid key ""
  if res.1.1 < 0 then (res.1.1, ph, res.2)
  else (res.1.1, set ph res.1.2, res.2)

/-! ## `H5MicReader::readHeader` -/

/-- One turn of the loop over the phase group names (source lines 197-206). -/
def readPhase (phasesGid : Hid) (phaseGroupName : String) (s : St) : St :=
  let o := H5Gopen s.2.2 phasesGid phaseGroupName
  let pid := o.1
  let currentPhase := MicPhase.New
  let a := readPhaseHeaderData o.2 pid Mic.Phase currentPhase
  let b := readPhaseHeaderArray a.2.2 pid Mic.LatticeConstants a.2.1
  let c := readPhaseStringData (fun ph v => { ph with basisAtoms := v }) b.2.2 pid
    Mic.BasisAtoms b.2.1
  let d := readPhaseStringData (fun ph v => { ph with symmetry := v }) c.2.2 pid
    Mic.Symmetry c.2.1
  let r := { s.2.1 with phases := s.2.1.phases ++ [d.2.1] }
  let cl := H5Gclose d.2.2 pid
  (cl.1, r, cl.2)

/-- The loop `for(const auto& phaseGroupName : names)`. -/
def readPhases (phasesGid : Hid) : List String → St → St
  | [], s => s
  | n :: rest, s => readPhases phasesGid rest (readPhase phasesGid n s)

/-! `readHeader` is written in three parts, in the order of the source. -/

/-- The four `READ_EBSD_HEADER_DATA` lines of `readHeader` (source lines
172-175), started with `err = -1` in the world in which `Header` was opened. -/
def readHeaderScalars (r : H5MicReader) (w : World) (gid : Hid) : St :=
  readEbsdHeaderInt (fun r v => { r with yDim := v }) Mic.YDim gid
    (readEbsdHeaderInt (fun r v => { r with xDim := v }) Mic.XDim gid
      (readEbsdHeaderFloat (fun r v => { r with yRes := v }) Mic.YRes gid
        (readEbsdHeaderFloat (fun r v => { r with xRes := v }) Mic.XRes gid (-1, r, w))))

/-- The part of `readHeader` that follows the successful open of `Phases`
(source lines 185-214). -/
def readHeaderPhases (r4 : H5MicReader) (w : World) (gid phasesGid : Hid) : St :=
  let l := H5Utilities.getGroupObjects w phasesGid
  let names := l.1.2
  if l.1.1 < 0 ∨ names = [] then
    let c1 := H5Gclose l.2 phasesGid
    let c2 := H5Gclose c1.2 gid
    (-1, r4, c2.2)
  else
    let s5 := readPhases phasesGid names (l.1.1, { r4 with phases := [] }, l.2)
    let h := H5Lite.readStringDataset s5.2.2 gid Mic.H5Mic.OriginalHeader ""
    let r6 := { s5.2.1 with originalHeader := h.1.2 }
    let c1 := H5Gclose h.2 phasesGid
    let c2 := H5Gclose c1.2 gid
    (c2.1, r6, c2.2)

/-- The part of `readHeader` that follows the successful open of `Header`
(source lines 172-214). -/
def readHeaderBody (r : H5MicReader) (w : World) (gid : Hid) : St :=
  let s4 := readHeaderScalars r w gid
  let p := H5Gopen s4.2.2 gid Mic.H5Mic.Phases
  if p.1 < 0 then
    let c := H5Gclose p.2 gid
    (-1, s4.2.1, c.2)
  else readHeaderPhases s4.2.1 p.2 gid p.1

/-- Embedding of `int H5MicReader::readHeader(hid_t parId)`: the open of `Header` and its
failure exit (source lines 161-170), then the body above. -/
def H5MicReader.readHeader (r : H5MicReader) (w : World) (parId : Hid) : St :=
  let o := H5Gopen w parId Mic.H5Mic.Header
  let gid := o.1
  if gid < 0 then
    (-105,
     (r.setErrorMessage ("H5MicReader Error: Could not open \x27Header\x27 Group" ++
        r.hdf5Path)).setErrorCode (-105),
     o.2)
  else readHeaderBody r o.2 gid

/-! ## `H5MicReader::readData` -/

/-- The test `m_ReadAllArrays == true || m_ArrayNames.find(Mic::name) !=
m_ArrayNames.end()` that guards each column. -/
def H5MicReader.wanted (r : H5MicReader) (c : Column) : Prop :=
  r.readAllArrays = true ∨ c.name ∈ r.arrayNames

instance (r : H5MicReader) (c : Column) : Decidable (r.wanted c) := by
  unfold H5MicReader.wanted; exact inferInstance

/-- Embedding of `MIC_READER_ALLOCATE_AND_READ(name, type)` (source lines 217-227). -/
def allocateAndRead (c : Column) (totalDataRows numBytes : Nat) (gid : Hid) (s : St) : St :=
  if s.2.1.wanted c then
    let a := allocateArray s.2.2 c totalDataRows
    match a.1 with
    | some buf =>
      let z := memsetZero buf numBytes
      let rd := H5Lite.readPointerDataset a.2 gid c.name z
      (rd.1.1, s.2.1.setPointer c (some rd.1.2), rd.2)
    | none => (s.1, s.2.1.setPointer c none, a.2)
  else s

/-- The column steps for a list of columns, one after the other. -/
def readColumns (totalDataRows numBytes : Nat) (gid : Hid) (cs : List Column) (s : St) : St :=
  cs.foldl (fun s c => allocateAndRead c totalDataRows numBytes gid s) s

/-- The number of rows `readData` computes: `xDim * yDim` in `size_t`. -/
def H5MicReader.totalDataRows (r : H5MicReader) : Nat :=
  (toSizeT r.xDim * toSizeT r.yDim) % 2 ^ 64

/-- Embedding of `int H5MicReader::readData(hid_t parId)`. -/
def H5MicReader.readData (r : H5MicReader) (w : World) (parId : Hid) : St :=
  let err : Int := -1
  let d := r.deletePointers w
  let xDim : Nat := toSizeT d.1.xDim
  let yDim : Nat := toSizeT d.1.yDim
  if yDim < 1 then (-200, d.1, d.2)
  else
    let totalDataRows : Nat := (xDim * yDim) % 2 ^ 64
    let o := H5Gopen d.2 parId Mic.H5Mic.Data
    let gid := o.1
    if gid < 0 then (-1, d.1, o.2)
    else
      let r1 := { d.1 with numberOfElements := totalDataRows }
      let numBytes : Nat := (totalDataRows * 4) % 2 ^ 64
      let s1 := allocateAndRead .Euler1 totalDataRows numBytes gid (err, r1, o.2)
      let s2 := allocateAndRead .Euler2 totalDataRows numBytes gid s1
      let s3 := allocateAndRead .Euler3 totalDataRows numBytes gid s2
      let s4 := allocateAndRead .Confidence totalDataRows numBytes gid s3
      let s5 := allocateAndRead .Phase totalDataRows numBytes gid s4
      let s6 := allocateAndRead .X totalDataRows numBytes gid s5
      let s7 := allocateAndRead .Y totalDataRows numBytes gid s6
      let c := H5Gclose s7.2.2 gid
      (c.1, s7.2.1, c.2)

/-! ## `H5MicReader::readFile` and `H5MicReader::readHeaderOnly` -/

/-- Embedding of `int H5MicReader::readFile()`. -/
def H5MicReader.readFile (r : H5MicReader) (w : World) : St :=
  if r.hdf5Path = "" then (-1, r, w)
  else
    let f := H5Utilities.openFile w r.fileName
    let fileId := f.1
    if fileId < 0 then
      (-100,
       (r.setErrorMessage ("H5MicReader Error: Could not open HDF5 file " ++
          r.fileName)).setErrorCode (-100),
       f.2)
    else
      let g := H5Gopen f.2 fileId r.hdf5Path
      let gid := g.1
      if gid < 0 then
        let c := H5Utilities.closeFile g.2 fileId
        (-101,
         (r.setErrorMessage ("H5MicReader Error: Could not open path: " ++
            r.hdf5Path)).setErrorCode (-101),
         c.2)
      else
        let h := r.readHeader g.2 gid
        let d := h.2.1.readData h.2.2 gid
        let c1 := H5Gclose d.2.2 gid
        let c2 := H5Utilities.closeFile c1.2 fileId
        (c2.1, d.2.1, c2.2)

/-- Embedding of `int H5MicReader::readHeaderOnly()`. -/
def H5MicReader.readHeaderOnly (r : H5MicReader) (w : World) : St :=
  if r.hdf5Path = "" then
    (-102,
     (r.setErrorMessage "H5MicReader Error: HDF5 Path is empty.").setErrorCode (-102),
     w)
  else
    let f := H5Utilities.openFile w r.fileName
    let fileId := f.1
    if fileId < 0 then
      (-100,
       (r.setErrorMessage ("H5MicReader Error: Could not open HDF5 file " ++
          r.fileName)).setErrorCode (-100),
       f.2)
    else
      let g := H5Gopen f.2 fileId r.hdf5Path
      let gid := g.1
      if gid < 0 then
        let c := H5Utilities.closeFile g.2 fileId
        (-101,
         (r.setErrorMessage ("H5MicReader Error: Could not open path " ++
            r.hdf5Path)).setErrorCode (-101),
         c.2)
      else
        let h := r.readHeader g.2 gid
        let c := H5Utilities.closeFile h.2.2 fileId
        (c.1, h.2.1, c.2)

/-- The state of `readData` just before the `Data` group is closed. -/
def readDataColumns (r : H5MicReader) (w : World) (parId : Hid) : St :=
  readColumns r.totalDataRows ((r.totalDataRows * 4) % 2 ^ 64)
    (H5Gopen (r.deletePointers w).2 parId Mic.H5Mic.Data).1 Column.all
    (-1, { (r.deletePointers w).1 with numberOfElements := r.totalDataRows },
     (H5Gopen (r.deletePointers w).2 parId Mic.H5Mic.Data).2)

/-! ## Sample stores and readers -/

/-- A phase group with all four datasets. -/
def samplePhase (i : Int) : H5Obj :=
  .group [("Phase", .intScalar i), ("LatticeConstants", .floatArray [1, 2, 3, 4, 5, 6]),
          ("BasisAtoms", .string "Cu"), ("Symmetry", .string "cubic")]

/-- A `Header` group with the four scalars, the free-text header and the given
links below `Phases`. -/
def sampleHeader (x y : Int) (phases : List (String × H5Obj)) : H5Obj :=
  .group [("XRes", .floatScalar 7), ("YRes", .floatScalar 8), ("XDim", .intScalar x),
          ("YDim", .intScalar y), ("Phases", .group phases),
          ("OriginalHeader", .string "hdr")]

/-- A `Header` group that lacks the `Phases` group. -/
def sampleHeaderNoPhases (x y : Int) : H5Obj :=
  .group [("XRes", .floatScalar 7), ("YRes", .floatScalar 8), ("XDim", .intScalar x),
          ("YDim", .intScalar y), ("OriginalHeader", .string "hdr")]

/-- A `Data` group holding three of the seven columns, `n` rows each. -/
def sampleData (n : Nat) : H5Obj :=
  .group [("Euler1", .floatArray (List.replicate n 5)),
          ("Confidence", .floatArray (List.replicate n 9)),
          ("Phase", .intArray (List.replicate n 1))]

/-- A world in which the file `a.h5` has the given root and nothing is open. -/
def sampleWorld (root : H5Obj) : World :=
  { files := fun n => if n = "a.h5" then some root else none,
    allocOk := fun _ _ => true, junk := 77, nextId := 0, handles := [],
    trace := [], heapTrace := [] }

/-- A world in which identifier `1` is an open group with the given links. -/
def sampleOpenWorld (links : List (String × H5Obj)) : World :=
  { files := fun _ => none, allocOk := fun _ _ => true, junk := 77, nextId := 2,
    handles := [⟨1, false, .group links⟩], trace := [], heapTrace := [] }

/-- A well-formed file: internal group `Scan`, a 4 x 3 grid, two phases. -/
def sampleRoot : H5Obj :=
  .group [("Scan", .group [("Header", sampleHeader 4 3 [("1", samplePhase 1), ("2", samplePhase 2)]),
                           ("Data", sampleData 12)])]

/-- A reader with dimensions already in place. -/
def sampleReader (x y : Int) ( readAll : Bool) (names : List String) : H5MicReader :=
  { H5MicReader.fresh "a.h5" "Scan" readAll names with xDim := x, yDim := y }

/-! ## Reading opens and closes off the record of calls -/

/-- The identifier a call opened, if it is a successful open. -/
def H5Event.openedId : H5Event → Option Hid
  | .fileOpened _ id => some id
  | .groupOpened _ _ id => some id
  | _ => none

/-- The identifier a close call was made on. -/
def H5Event.closeCallId : H5Event → Option Hid
  | .groupClosed id _ => some id
  | .fileClosed id _ => some id
  | _ => none

/-- The identifier a call closed, if it is a successful close. -/
def H5Event.closedId : H5Event → Option Hid
  | .groupClosed id true => some id
  | .fileClosed id true => some id
  | _ => none

/-- A call that neither opens nor closes. -/
def H5Event.quiet (e : H5Event) : Prop :=
  e.openedId = none ∧ e.closeCallId = none ∧ e.closedId = none

/-- The identifiers opened by a list of calls, in order. -/
def openedIds (es : List H5Event) : List Hid := es.filterMap H5Event.openedId

/-- The identifiers on which a list of calls made a close call, in order. -/
def closeCalls (es : List H5Event) : List Hid := es.filterMap H5Event.closeCallId

/-- The identifiers a list of calls closed with success, in order. -/
def closedIds (es : List H5Event) : List Hid := es.filterMap H5Event.closedId

/-- The identifiers `lo`, ..., `hi - 1` the library hands out between two
states of its counter. -/
def freshIds (lo hi : Nat) : List Hid := (List.range' lo (hi - lo)).map Int.ofNat

/-- The valid (non-negative) identifiers of a list. -/
def validIds (ids : List Hid) : List Hid := ids.filter (fun i => decide (0 ≤ i))

/-- A list of calls, made while the counter of identifiers goes from `lo` to
`hi`, is scoped: it opens exactly the fresh identifiers, and its close calls
on valid identifiers, and its successful closes, are those identifiers again,
each once. -/
def Scoped (lo hi : Nat) (es : List H5Event) : Prop :=
  lo ≤ hi ∧ openedIds es = freshIds lo hi ∧
  (validIds (closeCalls es)).Perm (freshIds lo hi) ∧
  (validIds (closedIds es)).Perm (freshIds lo hi)

/-- A step from world `w` to world `w2` is balanced: the calls it adds are
scoped, and the identifiers that were handed out before are as they were. -/
def Balanced (w w2 : World) : Prop :=
  (∀ k : Nat, k < w.nextId → w2.find (k : Int) = w.find (k : Int)) ∧
  ∃ es, w2.trace = w.trace ++ es ∧ Scoped w.nextId w2.nextId es

/-- The part of the reader that the four scalar reads never write. -/
def H5MicReader.beyondScalars (r : H5MicReader) :
    List MicPhase × (Column → Option Buffer) × Nat × Bool × List String × String × String ×
      String × Int × String :=
  (r.phases, r.cols, r.numberOfElements, r.readAllArrays, r.arrayNames, r.fileName,
   r.hdf5Path, r.originalHeader, r.errorCode, r.errorMessage)

/-- A step from world `w` to world `w2` is quiet: it opens and closes nothing,
and only adds calls that neither open nor close to the record. -/
def Quiet (w w2 : World) : Prop :=
  w2.handles = w.handles ∧ w2.nextId = w.nextId ∧
  ∃ es, w2.trace = w.trace ++ es ∧ ∀ e ∈ es, H5Event.quiet e

/-! ## The failure kinds and the codes returned for them -/

/-- The failure kinds of the error taxonomy. -/
inductive FailureKind where
  | CannotOpenFile | MissingInternalPath | EmptyConfiguredPath | MissingHeaderGroup
  | MissingPhasesGroup | NoPhasesFound | MissingDataGroup | InvalidDimensions
  deriving DecidableEq, Repr

/-- Relation `Returns k c`: in some run in which the failure `k` is the one that occurs,
the operation that detects it returns the code `c`. Each rule names the
operation and the condition on the configuration, the store or the reader
under which the source takes the failure exit. -/
inductive Returns : FailureKind → Int → Prop where
  | emptyPath_readFile (r : H5MicReader) (w : World) :
      r.hdf5Path = "" → Returns .EmptyConfiguredPath (r.readFile w).1
  | emptyPath_readHeaderOnly (r : H5MicReader) (w : World) :
      r.hdf5Path = "" → Returns .EmptyConfiguredPath (r.readHeaderOnly w).1
  | noFile_readFile (r : H5MicReader) (w : World) :
      r.hdf5Path ≠ "" → w.files r.fileName = none →
      Returns .CannotOpenFile (r.readFile w).1
  | noFile_readHeaderOnly (r : H5MicReader) (w : World) :
      r.hdf5Path ≠ "" → w.files r.fileName = none →
      Returns .CannotOpenFile (r.readHeaderOnly w).1
  | noPath_readFile (r : H5MicReader) (w : World) (root : H5Obj) :
      r.hdf5Path ≠ "" → w.files r.fileName = some root →
      (H5Utilities.openFile w r.fileName).2.hasGroup (H5Utilities.openFile w r.fileName).1
        r.hdf5Path = false →
      Returns .MissingInternalPath (r.readFile w).1
  | noPath_readHeaderOnly (r : H5MicReader) (w : World) (root : H5Obj) :
      r.hdf5Path ≠ "" → w.files r.fileName = some root →
      (H5Utilities.openFile w r.fileName).2.hasGroup (H5Utilities.openFile w r.fileName).1
        r.hdf5Path = false →
      Returns .MissingInternalPath (r.readHeaderOnly w).1
  | noHeader (r : H5MicReader) (w : World) (parId : Hid) :
      w.hasGroup parId Mic.H5Mic.Header = false →
      Returns .MissingHeaderGroup (r.readHeader w parId).1
  | noPhasesGroup (r : H5MicReader) (w : World) (parId : Hid)
      (links ls : List (String × H5Obj)) :
      w.linksOf parId = some links →
      lookupLink links Mic.H5Mic.Header = some (.group ls) →
      isGroupLink ls Mic.H5Mic.Phases = false →
      Returns .MissingPhasesGroup (r.readHeader w parId).1
  | noPhases (r : H5MicReader) (w : World) (parId : Hid)
      (links ls pl : List (String × H5Obj)) :
      w.linksOf parId = some links →
      lookupLink links Mic.H5Mic.Header = some (.group ls) →
      lookupLink ls Mic.H5Mic.Phases = some (.group pl) →
      pl.filter (fun p => isGroupLink pl p.1) = [] →
      Returns .NoPhasesFound (r.readHeader w parId).1
  | noData (r : H5MicReader) (w : World) (parId : Hid) :
      ¬ toSizeT r.yDim < 1 → w.hasGroup parId Mic.H5Mic.Data = false →
      Returns .MissingDataGroup (r.readData w parId).1
  | badDimensions (r : H5MicReader) (w : World) (parId : Hid) :
      toSizeT r.yDim < 1 → Returns .InvalidDimensions (r.readData w parId).1

/-- The literal the source returns at the exit of each failure kind: `-100`
(line 84), `-101` (line 95), `-1` or `-102` (lines 74 and 125), `-105` (line
169), `-1` (lines 182, 192 and 255), `-200` (line 246). -/
def FailureKind.sourceCode (k : FailureKind) (c : Int) : Prop :=
  match k with
  | .CannotOpenFile => c = -100
  | .MissingInternalPath => c = -101
  | .EmptyConfiguredPath => c = -1 ∨ c = -102
  | .MissingHeaderGroup => c = -105
  | .MissingPhasesGroup => c = -1
  | .NoPhasesFound => c = -1
  | .MissingDataGroup => c = -1
  | .InvalidDimensions => c = -200

/-- The failure kinds for which the source returns a code of their own. -/
def FailureKind.hasOwnCode : FailureKind → Bool
  | .CannotOpenFile | .MissingInternalPath | .MissingHeaderGroup | .InvalidDimensions => true
  | _ => false


/-! ## The phase list a store describes -/

/-- The record the four field readers of one turn of the phase loop produce
from a phase group with links `gl`: each field that is present with its type
is taken, each other field keeps the default of `MicPhase::New()`. -/
def specPhaseRecord (gl : List (String × H5Obj)) : MicPhase :=
  let p1 : MicPhase :=
    match lookupLink gl Mic.Phase with
    | some (.intScalar v) => { MicPhase.New with phaseIndex := v }
    | _ => MicPhase.New
  let p2 : MicPhase :=
    match lookupLink gl Mic.LatticeConstants with
    | some (.floatArray vs) => { p1 with latticeConstants := vs }
    | _ => p1
  let p3 : MicPhase :=
    match lookupLink gl Mic.BasisAtoms with
    | some (.string v) => { p2 with basisAtoms := v }
    | _ => p2
  match lookupLink gl Mic.Symmetry with
  | some (.string v) => { p3 with symmetry := v }
  | _ => p3

/-- The child groups `g_1, ..., g_N` a `Phases` group with links `pl`
enumerates, each with its name and its links, in the order of the store. -/
def childGroups (pl : List (String × H5Obj)) : List (String × List (String × H5Obj)) :=
  pl.filterMap (fun p =>
    match lookupLink pl p.1 with
    | some (.group gl) => some (p.1, gl)
    | _ => none)

/-- The phase list the spec asks for: one record per enumerated child group,
in enumeration order. -/
def specPhaseList (pl : List (String × H5Obj)) : List MicPhase :=
  (childGroups pl).map (fun g => specPhaseRecord g.2)

/-! ## Counting live arrays off the record of heap calls -/

/-- The change one heap call makes to the number of live arrays. -/
def HeapEvent.delta : HeapEvent → Int
  | .allocated _ _ => 1
  | .freed _ => -1

/-- The number of live arrays after a list of heap calls: allocations minus
releases. -/
def liveArrays (h : List HeapEvent) : Int := (h.map HeapEvent.delta).sum

/-! ## Where a call is made -/

/-- The identifier below which a call works: the location of an open attempt,
of a listing or of a dataset read. Opening a file and closing have none. -/
def H5Event.loc : H5Event → Option Hid
  | .groupOpened l _ _ => some l
  | .groupOpenFailed l _ => some l
  | .groupListed l => some l
  | .datasetRead l _ _ => some l
  | _ => none

/-- A step from `w` to `w2` works above `lo`: every call it adds is made below
an identifier that is invalid or not smaller than `lo`. -/
def Above (lo : Int) (w w2 : World) : Prop :=
  ∃ es, w2.trace = w.trace ++ es ∧
    ∀ e ∈ es, ∀ l, H5Event.loc e = some l → l < 0 ∨ lo ≤ l

/-! ## What a column holds after its step -/

/-- The array a column holds after `MIC_READER_ALLOCATE_AND_READ` on a `Data`
group with links `dl`, when its allocation of `n` elements succeeded: zeros,
overwritten from the front by the dataset of the column when that dataset is
present with the element type of the column. -/
def columnContent (dl : List (String × H5Obj)) (c : Column) (n : Nat) : Buffer :=
  match lookupLink dl c.name, c.isInt with
  | some (.floatArray vs), false => .floats (overlay vs (List.replicate n 0))
  | some (.intArray vs), true => .ints (overlay vs (List.replicate n 0))
  | _, true => .ints (List.replicate n 0)
  | _, false => .floats (List.replicate n 0)

/-- Whether the dataset read of a column succeeds on a `Data` group with links
`dl`: the dataset is present and is an array of the element type of the
column. -/
def columnReadable (dl : List (String × H5Obj)) (c : Column) : Bool :=
  match lookupLink dl c.name, c.isInt with
  | some (.floatArray _), false => true
  | some (.intArray _), true => true
  | _, _ => false

/-- The links of the sample `Data` group. -/
def sampleDataLinks (n : Nat) : List (String × H5Obj) :=
  [("Euler1", .floatArray (List.replicate n 5)),
   ("Confidence", .floatArray (List.replicate n 9)),
   ("Phase", .intArray (List.replicate n 1))]

end H5Mic

/-!
# FindSurfaceRoughness: the regression line, over exact arithmetic

The lambda `linear_regression_slope` of `FindSurfaceRoughness::execute`
(`src/DREAM3DReviewFilters/FindSurfaceRoughness.cpp`, lines 149-175), with
`double` replaced by the rationals.
-/

namespace FindSurfaceRoughness

/-- Model of `std::accumulate(begin, end, init)`: the left fold with `+`. -/
def accumulate (l : List ℚ) (init : ℚ) : ℚ := l.foldl (fun acc v => acc + v) init

/-- Model of the binary `std::transform(..., std::multiplies<double>())` into a
back inserter: the element-wise products. -/
def transformMultiplies (l1 l2 : List ℚ) : List ℚ := List.zipWith (fun u v => u * v) l1 l2

/-- The lambda `linear_regression_slope` (source lines 149-171): the pair
`(a, b)` of intercept and slope it returns for the vectors `xs` and `ys`. -/
def linear_regression_slope (xs ys : List ℚ) : ℚ × ℚ :=
  let xmean0 := accumulate xs 0
  let ymean0 := accumulate ys 0
  let xmean := xmean0 / (xs.length : ℚ)
  let ymean := ymean0 / (ys.length : ℚ)
  let xx := transformMultiplies xs xs
  let sumxx := accumulate xx 0
  let ssxx := sumxx - ((xx.length : ℚ) * xmean * xmean)
  let xy := transformMultiplies xs ys
  let sumxy := accumulate xy 0
  let ssxy := sumxy - ((xy.length : ℚ) * xmean * ymean)
  let b := ssxy / ssxx
  let a := ymean - (b * xmean)
  (a, b)

/-- The x-coordinates pushed for a list of selected points (source line 140). -/
def xsOf (pts : List (ℚ × ℚ)) : List ℚ := pts.map (fun p => p.1)

/-- The y-coordinates pushed for a list of selected points (source line 141). -/
def ysOf (pts : List (ℚ × ℚ)) : List ℚ := pts.map (fun p => p.2)

/-- The sum of the squared residuals of the points about the line
`y = a + b * x`. -/
def sumSquaredResiduals (pts : List (ℚ × ℚ)) (a b : ℚ) : ℚ :=
  (pts.map (fun p => (p.2 - a - b * p.1) ^ 2)).sum

/-- The mean of a list of rationals. -/
def mean (l : List ℚ) : ℚ := l.sum / (l.length : ℚ)

/-! ## The selection of the boundary points and the divisors -/

/-- Model of `SizeVec3Type`: the three `size_t` dimensions `dims[0]`, `dims[1]`
and `dims[2]` of the image (source line 124). -/
structure SizeVec3Type where
  d0 : Nat
  d1 : Nat
  d2 : Nat
  deriving DecidableEq, Repr

/-- The linear index of the cell `(x, y, z)` (source lines 132, 135 and 138):
`zStride + yStride + x`, every product and sum in `size_t` arithmetic. -/
def cellIndex (dims : SizeVec3Type) (z y x : Nat) : Nat :=
  let zStride := ((z * dims.d1) % 2 ^ 64 * dims.d0) % 2 ^ 64
  let yStride := (y * dims.d0) % 2 ^ 64
  ((zStride + yStride) % 2 ^ 64 + x) % 2 ^ 64

/-- The body of the innermost loop (source lines 139-144): a cell whose flag
`m_BoundaryCells[index]` is greater than zero has the first two coordinates that
`getCoords` returns for it pushed onto `xs` and `ys`. The state is the pair
`(xs, ys)`. -/
def visitCell (boundaryCells : Nat → Int) (getCoords : Nat → ℚ × ℚ × ℚ) (index : Nat)
    (st : List ℚ × List ℚ) : List ℚ × List ℚ :=
  if boundaryCells index > 0 then
    let coords := getCoords index
    (st.1 ++ [coords.1], st.2 ++ [coords.2.1])
  else st

/-- The three nested loops of `FindSurfaceRoughness::execute` (source lines
130-147): the vectors `(xs, ys)` they build. The flag array `m_BoundaryCells` and
`ImageGeom::getCoords` are parameters. -/
def collectBoundaryPoints (dims : SizeVec3Type) (boundaryCells : Nat → Int)
    (getCoords : Nat → ℚ × ℚ × ℚ) : List ℚ × List ℚ :=
  (List.range dims.d2).foldl (fun st z =>
    (List.range dims.d1).foldl (fun st y =>
      (List.range dims.d0).foldl (fun st x =>
        visitCell boundaryCells getCoords (cellIndex dims z y x) st) st) st) ([], [])

/-- The values the local `index` takes, in the order in which the three loops
of `FindSurfaceRoughness::execute` produce them (source lines 130-138). -/
def visitedIndices (dims : SizeVec3Type) : List Nat :=
  (List.range dims.d2).flatMap (fun z => (List.range dims.d1).flatMap (fun y =>
    (List.range dims.d0).map (fun x => cellIndex dims z y x)))

/-- The local `ssxx` of the lambda `linear_regression_slope` (source lines
151-159): the divisor of the slope. -/
def ssxx (xs : List ℚ) : ℚ :=
  let xmean0 := accumulate xs 0
  let xmean := xmean0 / (xs.length : ℚ)
  let xx := transformMultiplies xs xs
  let sumxx := accumulate xx 0
  sumxx - ((xx.length : ℚ) * xmean * xmean)

/-- The local `ssxy` of the lambda `linear_regression_slope` (source lines
151-166): the dividend of the slope. -/
def ssxy (xs ys : List ℚ) : ℚ :=
  let xmean0 := accumulate xs 0
  let ymean0 := accumulate ys 0
  let xmean := xmean0 / (xs.length : ℚ)
  let ymean := ymean0 / (ys.length : ℚ)
  let xy := transformMultiplies xs ys
  let sumxy := accumulate xy 0
  sumxy - ((xy.length : ℚ) * xmean * ymean)

/-- The average distance of the points from the line (source lines 177-187);
`std::sqrt` is a parameter. -/
def averageDistance (sqrt : ℚ → ℚ) (xs ys : List ℚ) (line : ℚ × ℚ) : ℚ :=
  let distance := (List.range xs.length).foldl (fun distance i =>
    let numerator := |ys.getD i 0 - (line.1 + (line.2 * xs.getD i 0))|
    let denominator := sqrt (1 + (line.2 * line.2))
    distance + (numerator / denominator)) 0
  distance / (xs.length : ℚ)

/-- The three values `FindSurfaceRoughness::execute` stores in
`m_RoughnessParams` (source lines 130-189): the average distance, the intercept
and the slope. -/
def execute (sqrt : ℚ → ℚ) (dims : SizeVec3Type) (boundaryCells : Nat → Int)
    (getCoords : Nat → ℚ × ℚ × ℚ) : ℚ × ℚ × ℚ :=
  let sel := collectBoundaryPoints dims boundaryCells getCoords
  let line := linear_regression_slope sel.1 sel.2
  let distance := averageDistance sqrt sel.1 sel.2 line
  (distance, line.1, line.2)

/-- A sample image of two by two by one cells. -/
def sampleDims : SizeVec3Type := ⟨2, 2, 1⟩

/-- Sample flags: the cells 0, 1 and 3 are boundary cells. -/
def sampleBoundaryCells : Nat → Int := fun i => if i = 2 then 0 else 1

/-- Sample coordinates: unit spacing, origin at zero, cell centres. -/
def sampleGetCoords : Nat → ℚ × ℚ × ℚ :=
  fun i => ((i % 2 : Nat) + 1 / 2, (i / 2 : Nat) + 1 / 2, 1 / 2)

end FindSurfaceRoughness

/-!
# FindNorm: the p-space value

The test of the p-space value in `FindNorm::dataCheck`, the kernel `findPthNorm`
and `FindNorm::execute` (`src/DREAM3DReviewFilters/FindNorm.cpp`, lines 106-175).
A `float` is kept as its IEEE 754 bit pattern, so that NaN, the infinities and
the two zeros are there; the arithmetic on it (`std::pow`, `+`, `/`) is a
parameter.
-/

namespace FindNorm

/-- A C `float` as its IEEE 754 binary32 bit pattern, read modulo `2 ^ 32`:
bit 31 is the sign, bits 30 to 23 the exponent, bits 22 to 0 the fraction. -/
structure Float32 where
  bits : Nat
  deriving DecidableEq, Repr

/-- The sign bit. -/
def Float32.signBit (a : Float32) : Nat := a.bits / 2 ^ 31 % 2

/-- The biased exponent. -/
def Float32.exponent (a : Float32) : Nat := a.bits / 2 ^ 23 % 256

/-- The fraction. -/
def Float32.fraction (a : Float32) : Nat := a.bits % 2 ^ 23

/-- Whether the pattern is a NaN: exponent 255 and a fraction other than zero. -/
def Float32.isNaN (a : Float32) : Bool :=
  decide (a.exponent = 255) && decide (a.fraction ≠ 0)

/-- Whether the pattern is plus infinity. -/
def Float32.isPosInf (a : Float32) : Bool :=
  decide (a.exponent = 255) && decide (a.fraction = 0) && decide (a.signBit = 0)

/-- Whether the pattern is a zero, `+0.0f` or `-0.0f`. -/
def Float32.isZero (a : Float32) : Bool :=
  decide (a.exponent = 0) && decide (a.fraction = 0)

/-- The rational a finite pattern stands for; none for NaN and the
infinities. -/
def Float32.toRat (a : Float32) : Option ℚ :=
  if a.exponent = 255 then none
  else
    let m : ℚ :=
      if a.exponent = 0 then (a.fraction : ℚ) / 2 ^ 149
      else ((2 ^ 23 + a.fraction : Nat) : ℚ) * 2 ^ a.exponent / 2 ^ 150
    some (if a.signBit = 0 then m else -m)

/-- The patterns other than NaN in their order: the exponent and fraction as
one number, with the sign of the sign bit. Both zeros give 0. -/
def Float32.key (a : Float32) : Int :=
  if a.signBit = 0 then ((a.exponent * 2 ^ 23 + a.fraction : Nat) : Int)
  else -((a.exponent * 2 ^ 23 + a.fraction : Nat) : Int)

/-- The comparison `a < b` of two `float`s: false when either is NaN. -/
def Float32.lt (a b : Float32) : Bool :=
  !a.isNaN && !b.isNaN && decide (a.key < b.key)

/-- The `float` that the literal `0` converts to, `+0.0f`. -/
def Float32.zero : Float32 := ⟨0⟩

/-- The `float` that the literal `1` converts to, `1.0f`. -/
def Float32.one : Float32 := ⟨1065353216⟩

/-- The part of the filter that `FindNorm` touches: the error code and warning
code of `AbstractFilter`, the error conditions recorded so far (code and
message, oldest first), and the member `m_PSpace`. -/
structure Filter where
  errorCode : Int
  warningCode : Int
  errors : List (Int × String)
  pSpace : Float32
  deriving DecidableEq

/-- Operation `clearErrorCode`. -/
def Filter.clearErrorCode (f : Filter) : Filter := { f with errorCode := 0 }

/-- Operation `clearWarningCode`. -/
def Filter.clearWarningCode (f : Filter) : Filter := { f with warningCode := 0 }

/-- Operation `setErrorCondition(code, message)`: the code becomes the error
code and the condition is recorded. -/
def Filter.setErrorCondition (f : Filter) (code : Int) (ss : String) : Filter :=
  { f with errorCode := code, errors := f.errors ++ [(code, ss)] }

/-- Getter `getPSpace` (source lines 309-312). -/
def Filter.getPSpace (f : Filter) : Float32 := f.pSpace

/-- Getter `getErrorCode`. -/
def Filter.getErrorCode (f : Filter) : Int := f.errorCode

/-- A call into the data container array (`getPrereqIDataArrayFromPath`,
`createNonPrereqArrayFromPath`): it records an error condition on the filter,
or none. What it records is a parameter. -/
def containerCall (e : Option (Int × String)) (f : Filter) : Filter :=
  match e with
  | none => f
  | some (code, ss) => f.setErrorCondition code ss

/-- Embedding of `FindNorm::dataCheck` (source lines 106-136). The local
`dataArrayPaths` is dropped: nothing reads it. `inArray` and `normArray` are
what the two calls into the data container array record. -/
def dataCheck (inArray normArray : Option (Int × String)) (f : Filter) : Filter :=
  let f1 := f.clearErrorCode
  let f2 := f1.clearWarningCode
  let f3 :=
    if Float32.lt f2.getPSpace Float32.zero then
      f2.setErrorCondition (-11002) "p-space value must be greater than or equal to 0"
    else f2
  let f4 := containerCall inArray f3
  let f5 := containerCall normArray f4
  f5

/-- The error conditions that one run of `dataCheck` records. -/
def recordedBy (inArray normArray : Option (Int × String)) (f : Filter) : List (Int × String) :=
  (dataCheck inArray normArray f).errors.drop f.errors.length

/-- Acceptance of the p-space value: `dataCheck` records no error -11002. -/
def accepts (inArray normArray : Option (Int × String)) (f : Filter) : Prop :=
  (-11002 : Int) ∉ (recordedBy inArray normArray f).map (fun e => e.1)

instance acceptsDecidable (inArray normArray : Option (Int × String)) (f : Filter) :
    Decidable (accepts inArray normArray f) := by
  unfold accepts
  infer_instance

/-- The inner loop of `findPthNorm` (source lines 153-158): from `0.0f`, the
sum of the `p`-th powers of the `nDims` components of tuple `i`. -/
def innerSum (pow add : Float32 → Float32 → Float32) (inData : Nat → Float32) (nDims : Nat)
    (i : Nat) (p : Float32) : Float32 :=
  (List.range nDims).foldl
    (fun normTmp j => add normTmp (pow (inData (((nDims * i) % 2 ^ 64 + j) % 2 ^ 64)) p))
    Float32.zero

/-- Embedding of `findPthNorm` (source lines 141-161): the norm array it
writes, `norm[i] = pow(normTmp, 1 / p)` for each tuple, and with it the divisor
of every quotient `1 / p` it takes, in order. `std::pow` and the `float`
operations `+` and `/` are parameters; `inData` holds the input already cast to
`float`. -/
def findPthNorm (pow add div : Float32 → Float32 → Float32) (inData : Nat → Float32)
    (nDims : Nat) (nTuples : Nat) (p : Float32) : List Float32 × List Float32 :=
  (List.range nTuples).foldl
    (fun st i =>
      let normTmp := innerSum pow add inData nDims i p
      (st.1 ++ [pow normTmp (div Float32.one p)], st.2 ++ [p]))
    ([], [])

/-- The ways `FindNorm::execute` ends: it returned after `dataCheck`, or it ran
`findPthNorm`, which wrote `norm` and divided by `divisors`. -/
inductive Outcome where
  | stopped (f : Filter)
  | done (f : Filter) (norm : List Float32) (divisors : List Float32)
  deriving DecidableEq

/-- Embedding of `FindNorm::execute` (source lines 166-175): it runs
`dataCheck`, returns when the error code is negative, and otherwise runs
`findPthNorm` with `m_PSpace`; the dispatch on the element type of the input
array is taken as done, `inData` being the elements cast to `float`. -/
def execute (pow add div : Float32 → Float32 → Float32)
    (inArray normArray : Option (Int × String)) (inData : Nat → Float32)
    (nDims nTuples : Nat) (f : Filter) : Outcome :=
  let f1 := dataCheck inArray normArray f
  if f1.getErrorCode < 0 then Outcome.stopped f1
  else
    let r := findPthNorm pow add div inData nDims nTuples f1.pSpace
    Outcome.done f1 r.1 r.2

/-- A filter with the p-space value `p` and nothing recorded. -/
def sampleFilter (p : Float32) : Filter := ⟨0, 0, [], p⟩

/-- The pattern of `2.0f`. -/
def sampleTwo : Float32 := ⟨1073741824⟩

/-- The pattern of `-1.0f`. -/
def sampleMinusOne : Float32 := ⟨3212836864⟩

/-- The pattern of a quiet NaN. -/
def sampleNaN : Float32 := ⟨2143289344⟩

/-- A stand-in for the `float` operations on the samples: it returns its first
argument. -/
def sampleOp : Float32 → Float32 → Float32 := fun a _ => a

/-- Sample input data: `2.0f` in every entry. -/
def sampleInData : Nat → Float32 := fun _ => ⟨1073741824⟩

end FindNorm

namespace H5Mic

/-! ## Basic facts about the primitives -/

theorem overlay_length {α : Type} (data buf : List α) :
    (overlay data buf).length = buf.length := by
  simp only [overlay, List.length_append, List.length_take, List.length_drop]
  omega

theorem memsetZero_length (b : Buffer) (nb : Nat) : (memsetZero b nb).length = b.length := by
  cases b <;> simp only [memsetZero, Buffer.length, List.length_append, List.length_replicate,
    List.length_drop] <;> omega

theorem readPointerDataset_length (w : World) (loc : Hid) (name : String) (buf : Buffer) :
    (H5Lite.readPointerDataset w loc name buf).1.2.length = buf.length := by
  unfold H5Lite.readPointerDataset
  split <;> simp [Buffer.length, overlay_length]

theorem allocateArray_some (w : World) (c : Column) (n : Nat) (h : w.canAllocate c n = true) :
    ∃ buf, (allocateArray w c n).1 = some buf ∧ buf.length = n := by
  unfold allocateArray
  rw [if_pos h]
  cases hc : c.isInt <;> simp [Buffer.length]

theorem allocateArray_none (w : World) (c : Column) (n : Nat) (h : w.canAllocate c n = false) :
    (allocateArray w c n).1 = none := by
  unfold allocateArray
  simp [h]


/-! ## One column step -/

@[simp] theorem log_allocOk (w : World) (e : H5Event) : (w.log e).allocOk = w.allocOk := rfl

@[simp] theorem log_handles (w : World) (e : H5Event) : (w.log e).handles = w.handles := rfl

@[simp] theorem log_heapTrace (w : World) (e : H5Event) : (w.log e).heapTrace = w.heapTrace := rfl

theorem readPointerDataset_allocOk (w : World) (loc : Hid) (name : String) (buf : Buffer) :
    (H5Lite.readPointerDataset w loc name buf).2.allocOk = w.allocOk := by
  unfold H5Lite.readPointerDataset
  split <;> rfl

theorem allocateArray_allocOk (w : World) (c : Column) (n : Nat) :
    (allocateArray w c n).2.allocOk = w.allocOk := by
  unfold allocateArray
  split <;> rfl

/-- A column step leaves the configuration and the header of the reader alone. -/
theorem allocateAndRead_frame (c : Column) (n nb : Nat) (gid : Hid) (s : St) :
    (allocateAndRead c n nb gid s).2.1.readAllArrays = s.2.1.readAllArrays ∧
    (allocateAndRead c n nb gid s).2.1.arrayNames = s.2.1.arrayNames ∧
    (allocateAndRead c n nb gid s).2.1.numberOfElements = s.2.1.numberOfElements ∧
    (allocateAndRead c n nb gid s).2.1.xDim = s.2.1.xDim ∧
    (allocateAndRead c n nb gid s).2.1.yDim = s.2.1.yDim ∧
    (allocateAndRead c n nb gid s).2.1.phases = s.2.1.phases ∧
    (allocateAndRead c n nb gid s).2.2.allocOk = s.2.2.allocOk := by
  unfold allocateAndRead
  split
  · cases hA : (allocateArray s.2.2 c n).1 <;>
      simp [hA, H5MicReader.setPointer, readPointerDataset_allocOk, allocateArray_allocOk]
  · simp

theorem allocateAndRead_wanted (c c2 : Column) (n nb : Nat) (gid : Hid) (s : St) :
    (allocateAndRead c n nb gid s).2.1.wanted c2 ↔ s.2.1.wanted c2 := by
  have h := allocateAndRead_frame c n nb gid s
  simp only [H5MicReader.wanted, h.1, h.2.1]

theorem allocateAndRead_canAllocate (c c2 : Column) (n nb m : Nat) (gid : Hid) (s : St) :
    (allocateAndRead c n nb gid s).2.2.canAllocate c2 m = s.2.2.canAllocate c2 m := by
  have h := allocateAndRead_frame c n nb gid s
  simp only [World.canAllocate, h.2.2.2.2.2.2]

/-- A column step does not touch the other columns. -/
theorem allocateAndRead_cols_ne (c c2 : Column) (n nb : Nat) (gid : Hid) (s : St)
    (h : c2 ≠ c) : (allocateAndRead c n nb gid s).2.1.cols c2 = s.2.1.cols c2 := by
  unfold allocateAndRead
  split
  · cases hA : (allocateArray s.2.2 c n).1 <;> simp [hA, H5MicReader.setPointer, h]
  · rfl

/-- A column that is not wanted keeps its member. -/
theorem allocateAndRead_cols_unwanted (c : Column) (n nb : Nat) (gid : Hid) (s : St)
    (h : ¬ s.2.1.wanted c) : (allocateAndRead c n nb gid s).2.1.cols c = s.2.1.cols c := by
  unfold allocateAndRead
  rw [if_neg h]

/-- A wanted column whose array is handed out is installed with `n` elements. -/
theorem allocateAndRead_cols_wanted (c : Column) (n nb : Nat) (gid : Hid) (s : St)
    (h : s.2.1.wanted c) (ha : s.2.2.canAllocate c n = true) :
    ∃ buf, (allocateAndRead c n nb gid s).2.1.cols c = some buf ∧ buf.length = n := by
  obtain ⟨buf, hb, hl⟩ := allocateArray_some s.2.2 c n ha
  unfold allocateAndRead
  rw [if_pos h]
  simp only [hb, H5MicReader.setPointer, if_true]
  exact ⟨_, rfl, by rw [readPointerDataset_length, memsetZero_length, hl]⟩

/-- A wanted column whose allocation fails is left null. -/
theorem allocateAndRead_cols_noalloc (c : Column) (n nb : Nat) (gid : Hid) (s : St)
    (h : s.2.1.wanted c) (ha : s.2.2.canAllocate c n = false) :
    (allocateAndRead c n nb gid s).2.1.cols c = none := by
  have hb := allocateArray_none s.2.2 c n ha
  unfold allocateAndRead
  rw [if_pos h]
  simp only [hb, H5MicReader.setPointer, if_true]


/-! ## The seven column steps together -/

theorem readColumns_cons (n nb : Nat) (gid : Hid) (c : Column) (cs : List Column) (s : St) :
    readColumns n nb gid (c :: cs) s = readColumns n nb gid cs (allocateAndRead c n nb gid s) :=
  rfl

theorem readColumns_frame (n nb : Nat) (gid : Hid) (cs : List Column) (s : St) :
    (readColumns n nb gid cs s).2.1.numberOfElements = s.2.1.numberOfElements ∧
    (readColumns n nb gid cs s).2.1.xDim = s.2.1.xDim ∧
    (readColumns n nb gid cs s).2.1.yDim = s.2.1.yDim ∧
    (readColumns n nb gid cs s).2.1.phases = s.2.1.phases := by
  induction cs generalizing s with
  | nil => exact ⟨rfl, rfl, rfl, rfl⟩
  | cons c cs ih =>
    rw [readColumns_cons]
    have h := allocateAndRead_frame c n nb gid s
    have h2 := ih (allocateAndRead c n nb gid s)
    exact ⟨h2.1.trans h.2.2.1, h2.2.1.trans h.2.2.2.1, h2.2.2.1.trans h.2.2.2.2.1,
      h2.2.2.2.trans h.2.2.2.2.2.1⟩

theorem readColumns_wanted (n nb : Nat) (gid : Hid) (cs : List Column) (s : St) (c2 : Column) :
    (readColumns n nb gid cs s).2.1.wanted c2 ↔ s.2.1.wanted c2 := by
  induction cs generalizing s with
  | nil => exact Iff.rfl
  | cons c cs ih =>
    rw [readColumns_cons]
    exact (ih _).trans (allocateAndRead_wanted c c2 n nb gid s)

theorem readColumns_canAllocate (n nb m : Nat) (gid : Hid) (cs : List Column) (s : St)
    (c2 : Column) :
    (readColumns n nb gid cs s).2.2.canAllocate c2 m = s.2.2.canAllocate c2 m := by
  induction cs generalizing s with
  | nil => rfl
  | cons c cs ih =>
    rw [readColumns_cons]
    exact (ih _).trans (allocateAndRead_canAllocate c c2 n nb m gid s)

/-- Columns outside the list, and columns that are not wanted, keep their member. -/
theorem readColumns_cols_keep (n nb : Nat) (gid : Hid) (cs : List Column) (s : St)
    (c2 : Column) (h : c2 ∉ cs ∨ ¬ s.2.1.wanted c2) :
    (readColumns n nb gid cs s).2.1.cols c2 = s.2.1.cols c2 := by
  induction cs generalizing s with
  | nil => rfl
  | cons c cs ih =>
    rw [readColumns_cons]
    have hstep : (allocateAndRead c n nb gid s).2.1.cols c2 = s.2.1.cols c2 := by
      by_cases hc : c2 = c
      · subst hc
        rcases h with h | h
        · exact absurd (List.mem_cons_self _ _) h
        · exact allocateAndRead_cols_unwanted c2 n nb gid s h
      · exact allocateAndRead_cols_ne c c2 n nb gid s hc
    rw [← hstep]
    apply ih
    rcases h with h | h
    · exact Or.inl (fun hm => h (List.mem_cons_of_mem _ hm))
    · exact Or.inr (fun hw => h ((allocateAndRead_wanted c c2 n nb gid s).1 hw))

/-- A wanted column of the list whose array is handed out ends up installed
with `n` elements. -/
theorem readColumns_cols_wanted (n nb : Nat) (gid : Hid) (cs : List Column) (hnd : cs.Nodup)
    (s : St) (c2 : Column) (hm : c2 ∈ cs) (hw : s.2.1.wanted c2)
    (ha : s.2.2.canAllocate c2 n = true) :
    ∃ buf, (readColumns n nb gid cs s).2.1.cols c2 = some buf ∧ buf.length = n := by
  induction cs generalizing s with
  | nil => exact absurd hm (List.not_mem_nil _)
  | cons c cs ih =>
    rw [readColumns_cons]
    rw [List.nodup_cons] at hnd
    by_cases hc : c2 = c
    · subst hc
      obtain ⟨buf, hb, hl⟩ := allocateAndRead_cols_wanted c2 n nb gid s hw ha
      refine ⟨buf, ?_, hl⟩
      rw [readColumns_cols_keep n nb gid cs _ c2 (Or.inl hnd.1)]
      exact hb
    · have hm2 : c2 ∈ cs := by
        rcases List.mem_cons.1 hm with h | h
        · exact absurd h hc
        · exact h
      exact ih hnd.2 _ hm2 ((allocateAndRead_wanted c c2 n nb gid s).2 hw)
        ((allocateAndRead_canAllocate c c2 n nb n gid s).trans ha)

/-- A wanted column of the list whose allocation fails ends up null. -/
theorem readColumns_cols_noalloc (n nb : Nat) (gid : Hid) (cs : List Column) (hnd : cs.Nodup)
    (s : St) (c2 : Column) (hm : c2 ∈ cs) (hw : s.2.1.wanted c2)
    (ha : s.2.2.canAllocate c2 n = false) :
    (readColumns n nb gid cs s).2.1.cols c2 = none := by
  induction cs generalizing s with
  | nil => exact absurd hm (List.not_mem_nil _)
  | cons c cs ih =>
    rw [readColumns_cons]
    rw [List.nodup_cons] at hnd
    by_cases hc : c2 = c
    · subst hc
      rw [readColumns_cols_keep n nb gid cs _ c2 (Or.inl hnd.1)]
      exact allocateAndRead_cols_noalloc c2 n nb gid s hw ha
    · have hm2 : c2 ∈ cs := by
        rcases List.mem_cons.1 hm with h | h
        · exact absurd h hc
        · exact h
      exact ih hnd.2 _ hm2 ((allocateAndRead_wanted c c2 n nb gid s).2 hw)
        ((allocateAndRead_canAllocate c c2 n nb n gid s).trans ha)

theorem Column.all_nodup : Column.all.Nodup := by decide

theorem Column.mem_all (c : Column) : c ∈ Column.all := by
  cases c <;> decide

/-! ## `readData` unfolded -/

@[simp] theorem deletePointers_cols (r : H5MicReader) (w : World) (c : Column) :
    (r.deletePointers w).1.cols c = none := rfl

theorem deletePointers_frame (r : H5MicReader) (w : World) :
    (r.deletePointers w).1.xDim = r.xDim ∧ (r.deletePointers w).1.yDim = r.yDim ∧
    (r.deletePointers w).1.readAllArrays = r.readAllArrays ∧
    (r.deletePointers w).1.arrayNames = r.arrayNames ∧
    (r.deletePointers w).1.phases = r.phases ∧
    (r.deletePointers w).1.numberOfElements = r.numberOfElements ∧
    (r.deletePointers w).2.handles = w.handles ∧
    (r.deletePointers w).2.trace = w.trace ∧
    (r.deletePointers w).2.nextId = w.nextId ∧
    (r.deletePointers w).2.allocOk = w.allocOk :=
  ⟨rfl, rfl, rfl, rfl, rfl, rfl, rfl, rfl, rfl, rfl⟩

/-- The failure exit of `readData` on the dimension test. -/
theorem readData_of_yDim_lt (r : H5MicReader) (w : World) (parId : Hid)
    (h : toSizeT r.yDim < 1) :
    r.readData w parId = (-200, (r.deletePointers w).1, (r.deletePointers w).2) := by
  unfold H5MicReader.readData
  simp only [(deletePointers_frame r w).2.1, if_pos h]

/-- The failure exit of `readData` on the `Data` group. -/
theorem readData_of_open_failed (r : H5MicReader) (w : World) (parId : Hid)
    (h : ¬ toSizeT r.yDim < 1)
    (ho : (H5Gopen (r.deletePointers w).2 parId Mic.H5Mic.Data).1 < 0) :
    r.readData w parId =
      (-1, (r.deletePointers w).1, (H5Gopen (r.deletePointers w).2 parId Mic.H5Mic.Data).2) := by
  unfold H5MicReader.readData
  simp only [(deletePointers_frame r w).2.1, if_neg h, if_pos ho]

/-- The path of `readData` through the seven column steps. -/
theorem readData_of_open (r : H5MicReader) (w : World) (parId : Hid)
    (h : ¬ toSizeT r.yDim < 1)
    (ho : ¬ (H5Gopen (r.deletePointers w).2 parId Mic.H5Mic.Data).1 < 0) :
    r.readData w parId =
      ((H5Gclose (readDataColumns r w parId).2.2
          (H5Gopen (r.deletePointers w).2 parId Mic.H5Mic.Data).1).1,
       (readDataColumns r w parId).2.1,
       (H5Gclose (readDataColumns r w parId).2.2
          (H5Gopen (r.deletePointers w).2 parId Mic.H5Mic.Data).1).2) := by
  unfold H5MicReader.readData
  simp only [(deletePointers_frame r w).2.1, (deletePointers_frame r w).1, if_neg h, if_neg ho]
  rfl


/-! ## Opening a group -/

theorem H5Gopen_of_hasGroup (w : World) (loc : Hid) (name : String)
    (h : w.hasGroup loc name = true) :
    (H5Gopen w loc name).1 = (w.nextId : Int) ∧
    (H5Gopen w loc name).2.trace = w.trace ++ [.groupOpened loc name (w.nextId : Int)] ∧
    (H5Gopen w loc name).2.nextId = w.nextId + 1 ∧
    (H5Gopen w loc name).2.allocOk = w.allocOk := by
  unfold World.hasGroup at h
  unfold H5Gopen
  cases hl : w.linksOf loc with
  | none => simp [hl] at h
  | some links =>
    simp only [hl, isGroupLink] at h
    cases ho : lookupLink links name with
    | none => simp [ho] at h
    | some o =>
      cases o <;> simp [ho] at h
      simp [ho, World.register, World.log]

theorem H5Gopen_of_not_hasGroup (w : World) (loc : Hid) (name : String)
    (h : w.hasGroup loc name = false) :
    H5Gopen w loc name = (-1, w.log (.groupOpenFailed loc name)) := by
  unfold World.hasGroup at h
  unfold H5Gopen
  cases hl : w.linksOf loc with
  | none => rfl
  | some links =>
    simp only [hl, isGroupLink] at h
    cases ho : lookupLink links name with
    | none => simp [ho]
    | some o => cases o <;> simp [ho] at h ⊢

theorem H5Gopen_nonneg_of_hasGroup (w : World) (loc : Hid) (name : String)
    (h : w.hasGroup loc name = true) : ¬ (H5Gopen w loc name).1 < 0 := by
  rw [(H5Gopen_of_hasGroup w loc name h).1]
  exact not_lt.2 (Int.ofNat_nonneg _)

theorem deletePointers_hasGroup (r : H5MicReader) (w : World) (loc : Hid) (name : String) :
    (r.deletePointers w).2.hasGroup loc name = w.hasGroup loc name := rfl

/-! ## `size_t` arithmetic on the dimensions -/

theorem toSizeT_of_nonneg (v : Int) (h0 : 0 ≤ v) (h : IsInt32 v) : toSizeT v = v.toNat := by
  unfold toSizeT
  unfold IsInt32 at h
  rw [Int.emod_eq_of_lt h0 (by omega)]

theorem toSizeT_pos (v : Int) (h1 : 1 ≤ v) (h : IsInt32 v) : ¬ toSizeT v < 1 := by
  rw [toSizeT_of_nonneg v (by omega) h]
  omega

theorem totalDataRows_eq (r : H5MicReader) (hx0 : 0 ≤ r.xDim) (hx : IsInt32 r.xDim)
    (hy1 : 1 ≤ r.yDim) (hy : IsInt32 r.yDim) :
    (r.totalDataRows : Int) = r.xDim * r.yDim := by
  unfold H5MicReader.totalDataRows
  rw [toSizeT_of_nonneg _ hx0 hx, toSizeT_of_nonneg _ (by omega) hy]
  unfold IsInt32 at hx hy
  have hxn : r.xDim.toNat < 2 ^ 31 := by omega
  have hyn : r.yDim.toNat < 2 ^ 31 := by omega
  have hlt : r.xDim.toNat * r.yDim.toNat < 2 ^ 64 := by
    calc r.xDim.toNat * r.yDim.toNat ≤ 2 ^ 31 * 2 ^ 31 :=
          Nat.mul_le_mul (Nat.le_of_lt hxn) (Nat.le_of_lt hyn)
      _ < 2 ^ 64 := by norm_num
  rw [Nat.mod_eq_of_lt hlt]
  push_cast
  rw [Int.toNat_of_nonneg hx0, Int.toNat_of_nonneg (by omega)]

/-! ## Claims C1 and C2 -/

/-- The columns after a `readData` that reaches the column steps. -/
theorem readData_cols (r : H5MicReader) (w : World) (parId : Hid)
    (hy : ¬ toSizeT r.yDim < 1) (hopen : w.hasGroup parId Mic.H5Mic.Data = true) (c : Column) :
    (¬ r.wanted c → (r.readData w parId).2.1.cols c = none) ∧
    (r.wanted c → w.canAllocate c r.totalDataRows = true →
      ∃ buf, (r.readData w parId).2.1.cols c = some buf ∧ buf.length = r.totalDataRows) ∧
    (r.wanted c → w.canAllocate c r.totalDataRows = false →
      (r.readData w parId).2.1.cols c = none) ∧
    (r.readData w parId).2.1.numberOfElements = r.totalDataRows := by
  have ho := H5Gopen_nonneg_of_hasGroup (r.deletePointers w).2 parId Mic.H5Mic.Data hopen
  have hok := (H5Gopen_of_hasGroup (r.deletePointers w).2 parId Mic.H5Mic.Data hopen).2.2.2
  rw [readData_of_open r w parId hy ho]
  simp only [readDataColumns]
  refine ⟨fun hw => ?_, fun hw ha => ?_, fun hw ha => ?_, ?_⟩
  · rw [readColumns_cols_keep _ _ _ _ _ c (Or.inr hw)]
    rfl
  · exact readColumns_cols_wanted _ _ _ _ Column.all_nodup _ c (Column.mem_all c) hw
      (by simpa only [World.canAllocate, hok] using ha)
  · exact readColumns_cols_noalloc _ _ _ _ Column.all_nodup _ c (Column.mem_all c) hw
      (by simpa only [World.canAllocate, hok] using ha)
  · exact (readColumns_frame _ _ _ _ _).1

/-- Claim C1. For a reader whose y-dimension is at least 1, on a store whose
`Data` group opens and with every allocation succeeding, after `readData` a
column is set exactly when the read-all flag is true or its name is in the
requested set, whatever datasets the store holds; with the requested set
{Confidence, Phase} and read-all false exactly those two columns are set. -/
theorem readData_sets_exactly_the_requested_columns (r : H5MicReader) (w : World)
    (parId : Hid) (hy32 : IsInt32 r.yDim) (hy : 1 ≤ r.yDim)
    (hopen : w.hasGroup parId Mic.H5Mic.Data = true)
    (halloc : ∀ c, w.canAllocate c r.totalDataRows = true) :
    (∀ c, (r.readData w parId).2.1.isSet c = true ↔
        (r.readAllArrays = true ∨ c.name ∈ r.arrayNames)) ∧
    (r.readAllArrays = false →
      (∀ n, n ∈ r.arrayNames ↔ (n = "Confidence" ∨ n = "Phase")) →
        (r.readData w parId).2.1.setColumns = [.Confidence, .Phase]) := by
  have key : ∀ c, (r.readData w parId).2.1.isSet c = true ↔
      (r.readAllArrays = true ∨ c.name ∈ r.arrayNames) := by
    intro c
    have h := readData_cols r w parId (toSizeT_pos _ hy hy32) hopen c
    unfold H5MicReader.isSet
    constructor
    · intro hs
      by_contra hn
      rw [h.1 hn] at hs
      simp at hs
    · intro hw
      obtain ⟨buf, hb, _⟩ := h.2.1 hw (halloc c)
      rw [hb]
      rfl
  refine ⟨key, fun hra hnames => ?_⟩
  have hset : ∀ c, (r.readData w parId).2.1.isSet c = decide (c.name = "Confidence" ∨ c.name = "Phase") := by
    intro c
    rw [Bool.eq_iff_iff, key c, hnames, hra]
    simp
  unfold H5MicReader.setColumns
  simp only [hset]
  decide


/-- Witness of claim C1: a 4 x 3 reader asking for Confidence and Phase on a
store whose `Data` group lacks four of the seven datasets. -/
theorem readData_sets_exactly_the_requested_columns_witness :
    ((sampleReader 4 3 false ["Confidence", "Phase"]).readData
        (sampleOpenWorld [("Data", sampleData 12)]) 1).2.1.setColumns =
      [.Confidence, .Phase] :=
  (readData_sets_exactly_the_requested_columns
      (sampleReader 4 3 false ["Confidence", "Phase"])
      (sampleOpenWorld [("Data", sampleData 12)]) 1
      (by decide) (by decide) (by decide) (by intro c; cases c <;> decide)).2 rfl
    (by intro n; simp [sampleReader, H5MicReader.fresh])

/-- Claim C2, counterexample: with `XDim = -1` and `YDim = 1` the `Data` group
opens and the number of elements the reader records is `2^64 - 1`, not the
product `-1` of the two dimensions. -/
theorem readData_numberOfElements_counterexample :
    IsInt32 (sampleReader (-1) 1 true []).xDim ∧ IsInt32 (sampleReader (-1) 1 true []).yDim ∧
    1 ≤ (sampleReader (-1) 1 true []).yDim ∧
    (sampleOpenWorld [("Data", sampleData 12)]).hasGroup 1 Mic.H5Mic.Data = true ∧
    ((sampleReader (-1) 1 true []).readData
        (sampleOpenWorld [("Data", sampleData 12)]) 1).2.1.numberOfElements
      = 18446744073709551615 ∧
    ((((sampleReader (-1) 1 true []).readData
        (sampleOpenWorld [("Data", sampleData 12)]) 1).2.1.numberOfElements : Nat) : Int)
      ≠ (sampleReader (-1) 1 true []).xDim * (sampleReader (-1) 1 true []).yDim := by
  have h := (readData_cols (sampleReader (-1) 1 true [])
    (sampleOpenWorld [("Data", sampleData 12)]) 1 (by decide) (by decide) .Euler1).2.2.2
  have ht : (sampleReader (-1) 1 true []).totalDataRows = 18446744073709551615 := by decide
  rw [ht] at h
  refine ⟨by decide, by decide, by decide, by decide, h, ?_⟩
  rw [h]
  decide

/-- Claim C2, amended. For a header with `0 ≤ xDimension` and `1 ≤ yDimension`
(both C `int`s) and every column selection, every column `readData` installs
has exactly `xDimension * yDimension` elements; when the `Data` group opens
the number of elements of the reader equals that product; with `XDim = 4`,
`YDim = 3`, all columns requested and every allocation succeeding, all seven
columns are installed, each of length 12. -/
theorem readData_installs_full_length_columns (r : H5MicReader) (w : World) (parId : Hid)
    (hx0 : 0 ≤ r.xDim) (hx : IsInt32 r.xDim) (hy1 : 1 ≤ r.yDim) (hy : IsInt32 r.yDim) :
    (∀ c buf, (r.readData w parId).2.1.cols c = some buf →
        (buf.length : Int) = r.xDim * r.yDim) ∧
    (w.hasGroup parId Mic.H5Mic.Data = true →
        ((r.readData w parId).2.1.numberOfElements : Int) = r.xDim * r.yDim) ∧
    (w.hasGroup parId Mic.H5Mic.Data = true → r.xDim = 4 → r.yDim = 3 →
      r.readAllArrays = true → (∀ c, w.canAllocate c 12 = true) →
        ∀ c, ∃ buf, (r.readData w parId).2.1.cols c = some buf ∧ buf.length = 12) := by
  have hyp := toSizeT_pos _ hy1 hy
  have htot := totalDataRows_eq r hx0 hx hy1 hy
  refine ⟨fun c buf hb => ?_, fun hopen => ?_, fun hopen h4 h3 hra halloc c => ?_⟩
  · cases hopen : w.hasGroup parId Mic.H5Mic.Data with
    | false =>
      have ho := H5Gopen_of_not_hasGroup (r.deletePointers w).2 parId Mic.H5Mic.Data hopen
      have hneg : (H5Gopen (r.deletePointers w).2 parId Mic.H5Mic.Data).1 < 0 := by
        rw [ho]; show (-1 : Int) < 0; decide
      rw [readData_of_open_failed r w parId hyp hneg] at hb
      simp at hb
    | true =>
      have h := readData_cols r w parId hyp hopen c
      by_cases hw : r.wanted c
      · cases ha : w.canAllocate c r.totalDataRows with
        | false => rw [h.2.2.1 hw ha] at hb; simp at hb
        | true =>
          obtain ⟨buf2, hb2, hl⟩ := h.2.1 hw ha
          rw [hb2] at hb
          cases hb
          rw [hl, htot]
      · rw [h.1 hw] at hb; simp at hb
  · rw [(readData_cols r w parId hyp hopen .Euler1).2.2.2, htot]
  · have h12 : r.totalDataRows = 12 := by
      have : (r.totalDataRows : Int) = 12 := by rw [htot, h4, h3]; rfl
      exact_mod_cast this
    have h := (readData_cols r w parId hyp hopen c).2.1 (Or.inl hra) (by rw [h12]; exact halloc c)
    rw [h12] at h
    exact h

/-- Witness of claim C2 (amended): the 4 x 3 reader with all columns requested
records twelve elements. -/
theorem readData_installs_full_length_columns_witness :
    (((sampleReader 4 3 true []).readData
        (sampleOpenWorld [("Data", sampleData 12)]) 1).2.1.numberOfElements : Int) =
      (sampleReader 4 3 true []).xDim * (sampleReader 4 3 true []).yDim :=
  (readData_installs_full_length_columns (sampleReader 4 3 true [])
      (sampleOpenWorld [("Data", sampleData 12)]) 1
      (by decide) (by decide) (by decide) (by decide)).2.1 (by decide)


/-! ## Claims C3 to C6 -/

set_option maxRecDepth 1000000 in
/-- Claim C3, the code at two failing inputs. (a) A reader that still holds
the dimensions 4 x 3 of an earlier read, on a file whose internal group has a
`Data` group but no `Header` group: the header stage returns -105, and
`readFile` goes on to open `Data` and to install all seven columns. (b) A
fresh reader on a file whose `Header` group lacks `Phases`: the header stage
returns -1, and `readFile` again opens `Data` and allocates the columns. -/
theorem readFile_runs_readData_after_failed_readHeader :
    ((sampleReader 4 3 true []).readHeader
        (H5Gopen (H5Utilities.openFile
          (sampleWorld (.group [("Scan", .group [("Data", sampleData 12)])])) "a.h5").2 0 "Scan").2
        1).1 = -105 ∧
    H5Event.groupOpened 1 "Data" 2 ∈
      ((sampleReader 4 3 true []).readFile
        (sampleWorld (.group [("Scan", .group [("Data", sampleData 12)])]))).2.2.trace ∧
    ((sampleReader 4 3 true []).readFile
        (sampleWorld (.group [("Scan", .group [("Data", sampleData 12)])]))).2.1.setColumns
      = Column.all ∧
    ((H5MicReader.fresh "a.h5" "Scan" true []).readHeader
        (H5Gopen (H5Utilities.openFile
          (sampleWorld (.group [("Scan", .group [("Header", sampleHeaderNoPhases 4 3),
            ("Data", sampleData 12)])])) "a.h5").2 0 "Scan").2
        1).1 = -1 ∧
    H5Event.groupOpened 1 "Data" 3 ∈
      ((H5MicReader.fresh "a.h5" "Scan" true []).readFile
        (sampleWorld (.group [("Scan", .group [("Header", sampleHeaderNoPhases 4 3),
            ("Data", sampleData 12)])]))).2.2.trace ∧
    ((H5MicReader.fresh "a.h5" "Scan" true []).readFile
        (sampleWorld (.group [("Scan", .group [("Header", sampleHeaderNoPhases 4 3),
            ("Data", sampleData 12)])]))).2.2.heapTrace
      = Column.all.map (fun c => HeapEvent.allocated c 12) := by
  decide

set_option maxRecDepth 1000000 in
/-- Claim C4, the code at a failing input: the file and the internal group
`Scan` open, `Scan` holds neither `Header` nor `Data`. The header stage
returns -105, the data stage returns -200, and `readFile` returns 0, the
result of closing the file. -/
theorem readFile_returns_zero_after_failed_stages :
    ((H5MicReader.fresh "a.h5" "Scan" true []).readHeader
        (H5Gopen (H5Utilities.openFile
          (sampleWorld (.group [("Scan", .group [])])) "a.h5").2 0 "Scan").2 1).1 = -105 ∧
    (((H5MicReader.fresh "a.h5" "Scan" true []).readHeader
        (H5Gopen (H5Utilities.openFile
          (sampleWorld (.group [("Scan", .group [])])) "a.h5").2 0 "Scan").2 1).2.1.readData
      ((H5MicReader.fresh "a.h5" "Scan" true []).readHeader
        (H5Gopen (H5Utilities.openFile
          (sampleWorld (.group [("Scan", .group [])])) "a.h5").2 0 "Scan").2 1).2.2 1).1 = -200 ∧
    ((H5MicReader.fresh "a.h5" "Scan" true []).readFile
        (sampleWorld (.group [("Scan", .group [])]))).1 = 0 := by
  decide

set_option maxRecDepth 1000000 in
/-- Claim C5, the code at a failing input: with `XDim = -1` and `YDim = -1`
the conversion to `size_t` turns the y-dimension into `2^64 - 1`, the test
`yDim < 1` passes, `readData` opens `Data`, installs a one-element `Euler1`
column and returns 0 instead of -200. -/
theorem readData_accepts_negative_yDim :
    toSizeT (sampleReader (-1) (-1) true []).yDim = 18446744073709551615 ∧
    ((sampleReader (-1) (-1) true []).readData
        (sampleOpenWorld [("Data", sampleData 12)]) 1).1 = 0 ∧
    H5Event.groupOpened 1 "Data" 2 ∈
      ((sampleReader (-1) (-1) true []).readData
        (sampleOpenWorld [("Data", sampleData 12)]) 1).2.2.trace ∧
    ((sampleReader (-1) (-1) true []).readData
        (sampleOpenWorld [("Data", sampleData 12)]) 1).2.1.cols .Euler1
      = some (.floats [5]) ∧
    ((sampleReader (-1) (-1) true []).readData
        (sampleOpenWorld [("Data", sampleData 12)]) 1).2.1.setColumns = Column.all := by
  decide

/-- Claim C6. For a reader whose y-dimension is 0, `readData` returns -200,
makes no call on the store (no group is opened, the table of identifiers is
untouched), leaves all seven columns unset and allocates nothing: the only
heap calls are the releases of the arrays held before. -/
theorem readData_zero_yDim_fails_without_allocating (r : H5MicReader) (w : World)
    (parId : Hid) (h : r.yDim = 0) :
    (r.readData w parId).1 = -200 ∧
    (r.readData w parId).2.2.trace = w.trace ∧
    (r.readData w parId).2.2.handles = w.handles ∧
    (r.readData w parId).2.2.nextId = w.nextId ∧
    (∀ c, (r.readData w parId).2.1.isSet c = false) ∧
    (r.readData w parId).2.2.heapTrace =
      w.heapTrace ++ r.setColumns.map (fun c => HeapEvent.freed c) := by
  have hlt : toSizeT r.yDim < 1 := by rw [h]; decide
  rw [readData_of_yDim_lt r w parId hlt]
  exact ⟨rfl, rfl, rfl, rfl, fun _ => rfl, rfl⟩

/-- Witness of claim C6: a reader fresh from its constructor, whose
y-dimension was never set. -/
theorem readData_zero_yDim_fails_without_allocating_witness :
    ((H5MicReader.fresh "a.h5" "Scan" true []).readData
        (sampleOpenWorld [("Data", sampleData 12)]) 1).1 = -200 ∧
    ((H5MicReader.fresh "a.h5" "Scan" true []).readData
        (sampleOpenWorld [("Data", sampleData 12)]) 1).2.2.trace = [] :=
  ⟨(readData_zero_yDim_fails_without_allocating (H5MicReader.fresh "a.h5" "Scan" true [])
      (sampleOpenWorld [("Data", sampleData 12)]) 1 rfl).1,
   (readData_zero_yDim_fails_without_allocating (H5MicReader.fresh "a.h5" "Scan" true [])
      (sampleOpenWorld [("Data", sampleData 12)]) 1 rfl).2.1⟩


/-! ## Scoped lists of calls -/

theorem freshIds_self (lo : Nat) : freshIds lo lo = [] := by
  simp [freshIds]

theorem freshIds_append (lo mid hi : Nat) (h1 : lo ≤ mid) (h2 : mid ≤ hi) :
    freshIds lo mid ++ freshIds mid hi = freshIds lo hi := by
  unfold freshIds
  rw [← List.map_append]
  have h : lo + (mid - lo) = mid := by omega
  have := List.range'_append_1 lo (mid - lo) (hi - mid)
  rw [h] at this
  rw [this]
  congr 2
  omega

theorem freshIds_cons (lo hi : Nat) (h : lo < hi) :
    freshIds lo hi = (lo : Int) :: freshIds (lo + 1) hi := by
  unfold freshIds
  have h1 : hi - lo = (hi - (lo + 1)) + 1 := by omega
  rw [h1, List.range'_succ]
  rfl

theorem freshIds_nodup (lo hi : Nat) : (freshIds lo hi).Nodup := by
  unfold freshIds
  exact (List.nodup_range' lo (hi - lo)).map (fun a b h => Int.ofNat.inj h)

theorem mem_freshIds {lo hi : Nat} {id : Hid} (h : id ∈ freshIds lo hi) : 0 ≤ id := by
  unfold freshIds at h
  obtain ⟨k, _, rfl⟩ := List.mem_map.1 h
  exact Int.ofNat_nonneg k

theorem validIds_append (a b : List Hid) : validIds (a ++ b) = validIds a ++ validIds b := by
  simp [validIds]

theorem Scoped.nil (lo : Nat) : Scoped lo lo [] := by
  refine ⟨le_refl _, ?_, ?_, ?_⟩ <;> simp [openedIds, closeCalls, closedIds, validIds, freshIds_self]

theorem Scoped.append {lo mid hi : Nat} {es1 es2 : List H5Event}
    (h1 : Scoped lo mid es1) (h2 : Scoped mid hi es2) : Scoped lo hi (es1 ++ es2) := by
  obtain ⟨a1, b1, c1, d1⟩ := h1
  obtain ⟨a2, b2, c2, d2⟩ := h2
  refine ⟨le_trans a1 a2, ?_, ?_, ?_⟩
  · rw [openedIds, List.filterMap_append, ← openedIds, ← openedIds, b1, b2,
      freshIds_append lo mid hi a1 a2]
  · rw [closeCalls, List.filterMap_append, ← closeCalls, ← closeCalls, validIds_append,
      ← freshIds_append lo mid hi a1 a2]
    exact c1.append c2
  · rw [closedIds, List.filterMap_append, ← closedIds, ← closedIds, validIds_append,
      ← freshIds_append lo mid hi a1 a2]
    exact d1.append d2

theorem Scoped.quiet (lo : Nat) (e : H5Event) (h : e.quiet) : Scoped lo lo [e] := by
  obtain ⟨h1, h2, h3⟩ := h
  refine ⟨le_refl _, ?_, ?_, ?_⟩ <;>
    simp [openedIds, closeCalls, closedIds, validIds, freshIds_self, h1, h2, h3]

/-- A close call on an identifier that is not valid leaves a scoped list scoped. -/
theorem Scoped.badClose (lo : Nat) (e : H5Event) (id : Hid) (hneg : id < 0)
    (h1 : e.openedId = none) (h2 : e.closeCallId = some id)
    (h3 : e.closedId = none ∨ e.closedId = some id) : Scoped lo lo [e] := by
  have hd : decide (0 ≤ id) = false := by simpa using hneg
  refine ⟨le_refl _, ?_, ?_, ?_⟩
  · simp [openedIds, h1, freshIds_self]
  · simp [closeCalls, validIds, h2, hd, freshIds_self]
  · rcases h3 with h3 | h3 <;> simp [closedIds, validIds, h3, hd, freshIds_self]

/-- An open of the next fresh identifier, a scoped list, and the successful
close of that identifier make a scoped list. -/
theorem Scoped.wrap {lo hi : Nat} {es : List H5Event} (eo ec : H5Event)
    (ho1 : eo.openedId = some (lo : Int)) (ho2 : eo.closeCallId = none)
    (ho3 : eo.closedId = none) (hc1 : ec.openedId = none)
    (hc2 : ec.closeCallId = some (lo : Int)) (hc3 : ec.closedId = some (lo : Int))
    (h : Scoped (lo + 1) hi es) : Scoped lo hi ([eo] ++ es ++ [ec]) := by
  obtain ⟨a, b, c, d⟩ := h
  have hlt : lo < hi := by omega
  have hv : decide (0 ≤ (lo : Int)) = true := by simp
  refine ⟨by omega, ?_, ?_, ?_⟩
  · simp [openedIds, ho1, hc1, freshIds_cons lo hi hlt] at b ⊢
    exact b
  · rw [freshIds_cons lo hi hlt]
    simp only [closeCalls, List.filterMap_append, List.filterMap_cons, List.filterMap_nil, ho2,
      hc2, validIds_append, List.nil_append]
    have : validIds [(lo : Int)] = [(lo : Int)] := by simp [validIds]
    rw [this]
    exact (List.perm_append_comm).trans (List.Perm.cons _ c)
  · rw [freshIds_cons lo hi hlt]
    simp only [closedIds, List.filterMap_append, List.filterMap_cons, List.filterMap_nil, ho3,
      hc3, validIds_append, List.nil_append]
    have : validIds [(lo : Int)] = [(lo : Int)] := by simp [validIds]
    rw [this]
    exact (List.perm_append_comm).trans (List.Perm.cons _ d)

/-- In a scoped list every identifier that was opened was opened once, had one
close call made on it, and that call succeeded. -/
theorem Scoped.closed_exactly_once {lo hi : Nat} {es : List H5Event} (h : Scoped lo hi es)
    (id : Hid) (hid : id ∈ openedIds es) :
    (openedIds es).count id = 1 ∧ (closeCalls es).count id = 1 ∧
    (closedIds es).count id = 1 := by
  obtain ⟨_, b, c, d⟩ := h
  rw [b] at hid
  have hv : decide (0 ≤ id) = true := by simpa using mem_freshIds hid
  have h1 : (freshIds lo hi).count id = 1 := List.count_eq_one_of_mem (freshIds_nodup lo hi) hid
  refine ⟨by rw [b]; exact h1, ?_, ?_⟩
  · rw [← h1, ← c.count_eq id]
    unfold validIds
    exact (List.count_filter (p := fun i => decide (0 ≤ i)) (l := _) hv).symm
  · rw [← h1, ← d.count_eq id]
    unfold validIds
    exact (List.count_filter (p := fun i => decide (0 ≤ i)) (l := _) hv).symm


/-! ## Balanced steps between worlds -/

theorem find_log (w : World) (e : H5Event) (id : Hid) : (w.log e).find id = w.find id := rfl

theorem find_release_ne (w : World) (id k : Hid) (h : k ≠ id) :
    (w.release id).find k = w.find k := by
  unfold World.release World.find
  simp only
  induction w.handles with
  | nil => rfl
  | cons a rest ih =>
    by_cases ha : a.id = id
    · have hk : ¬ a.id = k := fun hk => h (hk.symm.trans ha)
      simp [List.filter_cons, List.find?_cons, ha, hk, h.symm] at ih ⊢
      exact ih
    · by_cases hk : a.id = k
      · simp [List.filter_cons, List.find?_cons, ha, hk, h]
      · simp [List.filter_cons, List.find?_cons, ha, hk] at ih ⊢
        exact ih

theorem find_register_self (w : World) ( isFile : Bool) (o : H5Obj) :
    (w.register isFile o).2.find (w.nextId : Int) = some ⟨(w.nextId : Int), isFile, o⟩ := by
  simp [World.register, World.find]

theorem find_register_ne (w : World) ( isFile : Bool) (o : H5Obj) (k : Hid)
    (h : k ≠ (w.nextId : Int)) : (w.register isFile o).2.find k = w.find k := by
  simp [World.register, World.find, List.find?_cons, h.symm]

theorem Balanced.refl (w : World) : Balanced w w :=
  ⟨fun _ _ => rfl, [], (List.append_nil _).symm, Scoped.nil _⟩

theorem Balanced.trans {w w1 w2 : World} (h1 : Balanced w w1) (h2 : Balanced w1 w2) :
    Balanced w w2 := by
  obtain ⟨f1, es1, t1, s1⟩ := h1
  obtain ⟨f2, es2, t2, s2⟩ := h2
  refine ⟨fun k hk => ?_, es1 ++ es2, ?_, s1.append s2⟩
  · rw [f2 k (lt_of_lt_of_le hk s1.1), f1 k hk]
  · rw [t2, t1, List.append_assoc]

/-- A step that leaves the store, the counter and the record alone. -/
theorem Balanced.of_same {w w2 : World} (hh : w2.handles = w.handles)
    (hn : w2.nextId = w.nextId) (ht : w2.trace = w.trace) : Balanced w w2 := by
  refine ⟨fun k _ => ?_, [], ?_, ?_⟩
  · unfold World.find; rw [hh]
  · rw [ht, List.append_nil]
  · rw [hn]; exact Scoped.nil _

/-- Recording a call that neither opens nor closes. -/
theorem Balanced.log_quiet (w : World) (e : H5Event) (h : e.quiet) : Balanced w (w.log e) :=
  ⟨fun _ _ => rfl, [e], rfl, Scoped.quiet _ e h⟩

theorem readScalarInt_balanced (w : World) (loc : Hid) (name : String) :
    Balanced w (H5Lite.readScalarInt w loc name).2 := by
  unfold H5Lite.readScalarInt
  split <;> exact Balanced.log_quiet _ _ ⟨rfl, rfl, rfl⟩

theorem readScalarFloat_balanced (w : World) (loc : Hid) (name : String) :
    Balanced w (H5Lite.readScalarFloat w loc name).2 := by
  unfold H5Lite.readScalarFloat
  split <;> exact Balanced.log_quiet _ _ ⟨rfl, rfl, rfl⟩

theorem readStringDataset_balanced (w : World) (loc : Hid) (name s : String) :
    Balanced w (H5Lite.readStringDataset w loc name s).2 := by
  unfold H5Lite.readStringDataset
  split <;> exact Balanced.log_quiet _ _ ⟨rfl, rfl, rfl⟩

theorem readVectorFloat_balanced (w : World) (loc : Hid) (name : String) :
    Balanced w (H5Lite.readVectorFloat w loc name).2 := by
  unfold H5Lite.readVectorFloat
  split <;> exact Balanced.log_quiet _ _ ⟨rfl, rfl, rfl⟩

theorem readPointerDataset_balanced (w : World) (loc : Hid) (name : String) (buf : Buffer) :
    Balanced w (H5Lite.readPointerDataset w loc name buf).2 := by
  unfold H5Lite.readPointerDataset
  split <;> exact Balanced.log_quiet _ _ ⟨rfl, rfl, rfl⟩

theorem getGroupObjects_balanced (w : World) (loc : Hid) :
    Balanced w (H5Utilities.getGroupObjects w loc).2 := by
  unfold H5Utilities.getGroupObjects
  split <;> exact Balanced.log_quiet _ _ ⟨rfl, rfl, rfl⟩

theorem Balanced.open_failed (w : World) (loc : Hid) (name : String)
    (h : w.hasGroup loc name = false) : Balanced w (H5Gopen w loc name).2 := by
  rw [H5Gopen_of_not_hasGroup w loc name h]
  exact Balanced.log_quiet _ _ ⟨rfl, rfl, rfl⟩

/-- A close call on an identifier that is not valid. -/
theorem Balanced.close_invalid (w : World) (id : Hid) (h : id < 0) :
    Balanced w (H5Gclose w id).2 := by
  unfold H5Gclose
  cases hf : w.find id with
  | none =>
    exact ⟨fun _ _ => rfl, [_], rfl, Scoped.badClose _ _ id h rfl rfl (Or.inl rfl)⟩
  | some hd =>
    by_cases hfile : hd.isFile = true
    · simp only [hfile, if_true]
      exact ⟨fun _ _ => rfl, [_], rfl, Scoped.badClose _ _ id h rfl rfl (Or.inl rfl)⟩
    · simp only [hfile, if_false, Bool.false_eq_true]
      refine ⟨fun k _ => ?_, [_], rfl, Scoped.badClose _ _ id h rfl rfl (Or.inr rfl)⟩
      rw [find_log, find_release_ne]
      intro hk
      rw [← hk] at h
      exact absurd (Int.ofNat_nonneg k) (not_le.2 h)

/-- The explicit result of a successful `H5Gopen`. -/
theorem H5Gopen_eq_of_hasGroup (w : World) (loc : Hid) (name : String)
    (h : w.hasGroup loc name = true) :
    ∃ ls, H5Gopen w loc name =
      ((w.nextId : Int),
       (w.register false (.group ls)).2.log (.groupOpened loc name (w.nextId : Int))) := by
  unfold World.hasGroup at h
  unfold H5Gopen
  cases hl : w.linksOf loc with
  | none => simp [hl] at h
  | some links =>
    simp only [hl, isGroupLink] at h
    cases ho : lookupLink links name with
    | none => simp [ho] at h
    | some o =>
      cases o with
      | group ls => exact ⟨ls, by simp [ho, World.register]⟩
      | _ => simp [ho] at h

/-- A group opened with success, a balanced step, and `H5Gclose` on the
identifier: the close succeeds and the whole is balanced. -/
theorem Balanced.wrap_group (w : World) (loc : Hid) (name : String) (w2 : World)
    (hg : w.hasGroup loc name = true) (hb : Balanced (H5Gopen w loc name).2 w2) :
    (H5Gclose w2 (H5Gopen w loc name).1).1 = 0 ∧
    Balanced w (H5Gclose w2 (H5Gopen w loc name).1).2 := by
  obtain ⟨ls, ho⟩ := H5Gopen_eq_of_hasGroup w loc name hg
  rw [ho] at hb ⊢
  obtain ⟨f, es, t, sc⟩ := hb
  have hfind : w2.find (w.nextId : Int) = some ⟨(w.nextId : Int), false, .group ls⟩ := by
    rw [f w.nextId (by simp [World.log, World.register]), find_log, find_register_self]
  have hc : H5Gclose w2 (w.nextId : Int) =
      (0, (w2.release (w.nextId : Int)).log (.groupClosed (w.nextId : Int) true)) := by
    unfold H5Gclose
    simp [hfind]
  simp only [hc, true_and]
  refine ⟨fun k hk => ?_, [.groupOpened loc name (w.nextId : Int)] ++ es ++
    [.groupClosed (w.nextId : Int) true], ?_, ?_⟩
  · have hne : (k : Int) ≠ (w.nextId : Int) := by
      intro h; exact absurd (Int.ofNat_inj.1 h) (Nat.ne_of_lt hk)
    rw [find_log, find_release_ne _ _ _ hne,
      f k (by simp only [World.log, World.register]; omega), find_log,
      find_register_ne _ _ _ _ hne]
  · simp only [World.log, World.release, World.register] at t ⊢
    rw [t]
    simp [List.append_assoc]
  · exact Scoped.wrap _ _ rfl rfl rfl rfl rfl rfl sc

/-- The explicit result of a successful `openFile`. -/
theorem openFile_eq_of_some (w : World) (name : String) (root : H5Obj)
    (h : w.files name = some root) :
    H5Utilities.openFile w name =
      ((w.nextId : Int), (w.register true root).2.log (.fileOpened name (w.nextId : Int))) := by
  unfold H5Utilities.openFile
  simp [h, World.register]

theorem openFile_eq_of_none (w : World) (name : String) (h : w.files name = none) :
    H5Utilities.openFile w name = (-1, w.log (.fileOpenFailed name)) := by
  unfold H5Utilities.openFile
  simp [h]

/-- A file opened with success, a balanced step, and `closeFile` on the
identifier: the close succeeds and the whole is balanced. -/
theorem Balanced.wrap_file (w : World) (name : String) (root : H5Obj) (w2 : World)
    (hg : w.files name = some root) (hb : Balanced (H5Utilities.openFile w name).2 w2) :
    (H5Utilities.closeFile w2 (H5Utilities.openFile w name).1).1 = 0 ∧
    Balanced w (H5Utilities.closeFile w2 (H5Utilities.openFile w name).1).2 := by
  rw [openFile_eq_of_some w name root hg] at hb ⊢
  obtain ⟨f, es, t, sc⟩ := hb
  have hfind : w2.find (w.nextId : Int) = some ⟨(w.nextId : Int), true, root⟩ := by
    rw [f w.nextId (by simp [World.log, World.register]), find_log, find_register_self]
  have hc : H5Utilities.closeFile w2 (w.nextId : Int) =
      (0, (w2.release (w.nextId : Int)).log (.fileClosed (w.nextId : Int) true)) := by
    unfold H5Utilities.closeFile
    simp [hfind]
  simp only [hc, true_and]
  refine ⟨fun k hk => ?_, [.fileOpened name (w.nextId : Int)] ++ es ++
    [.fileClosed (w.nextId : Int) true], ?_, ?_⟩
  · have hne : (k : Int) ≠ (w.nextId : Int) := by
      intro h; exact absurd (Int.ofNat_inj.1 h) (Nat.ne_of_lt hk)
    rw [find_log, find_release_ne _ _ _ hne,
      f k (by simp only [World.log, World.register]; omega), find_log,
      find_register_ne _ _ _ _ hne]
  · simp only [World.log, World.release, World.register] at t ⊢
    rw [t]
    simp [List.append_assoc]
  · exact Scoped.wrap _ _ rfl rfl rfl rfl rfl rfl sc


/-! ## The operations of the reader are balanced -/

theorem H5Gopen_neg_iff (w : World) (loc : Hid) (name : String) :
    (H5Gopen w loc name).1 < 0 ↔ w.hasGroup loc name = false := by
  cases h : w.hasGroup loc name with
  | false =>
    rw [H5Gopen_of_not_hasGroup w loc name h]
    simp
  | true =>
    have := H5Gopen_nonneg_of_hasGroup w loc name h
    simp [this]

theorem readEbsdHeaderFloat_balanced (set : H5MicReader → F32 → H5MicReader) (key : String)
    (gid : Hid) (s : St) : Balanced s.2.2 (readEbsdHeaderFloat set key gid s).2.2 := by
  unfold readEbsdHeaderFloat
  simp only []
  split <;> exact readScalarFloat_balanced _ _ _

theorem readEbsdHeaderInt_balanced (set : H5MicReader → Int → H5MicReader) (key : String)
    (gid : Hid) (s : St) : Balanced s.2.2 (readEbsdHeaderInt set key gid s).2.2 := by
  unfold readEbsdHeaderInt
  simp only []
  split <;> exact readScalarInt_balanced _ _ _

theorem readPhaseHeaderData_balanced (w : World) (pid : Hid) (key : String) (ph : MicPhase) :
    Balanced w (readPhaseHeaderData w pid key ph).2.2 := by
  unfold readPhaseHeaderData
  simp only []
  split <;> exact readScalarInt_balanced _ _ _

theorem readPhaseHeaderArray_balanced (w : World) (pid : Hid) (key : String) (ph : MicPhase) :
    Balanced w (readPhaseHeaderArray w pid key ph).2.2 := by
  unfold readPhaseHeaderArray
  simp only []
  split <;> exact readVectorFloat_balanced _ _ _

theorem readPhaseStringData_balanced (set : MicPhase → String → MicPhase) (w : World)
    (pid : Hid) (key : String) (ph : MicPhase) :
    Balanced w (readPhaseStringData set w pid key ph).2.2 := by
  unfold readPhaseStringData
  simp only []
  split <;> exact readStringDataset_balanced _ _ _ _

/-- The four field reads of one phase group, from the world after the open. -/
theorem phaseFields_balanced (w : World) (pid : Hid) :
    Balanced w
      (readPhaseStringData (fun ph v => { ph with symmetry := v })
        (readPhaseStringData (fun ph v => { ph with basisAtoms := v })
          (readPhaseHeaderArray (readPhaseHeaderData w pid Mic.Phase MicPhase.New).2.2 pid
            Mic.LatticeConstants (readPhaseHeaderData w pid Mic.Phase MicPhase.New).2.1).2.2
          pid Mic.BasisAtoms
          (readPhaseHeaderArray (readPhaseHeaderData w pid Mic.Phase MicPhase.New).2.2 pid
            Mic.LatticeConstants (readPhaseHeaderData w pid Mic.Phase MicPhase.New).2.1).2.1).2.2
        pid Mic.Symmetry
        (readPhaseStringData (fun ph v => { ph with basisAtoms := v })
          (readPhaseHeaderArray (readPhaseHeaderData w pid Mic.Phase MicPhase.New).2.2 pid
            Mic.LatticeConstants (readPhaseHeaderData w pid Mic.Phase MicPhase.New).2.1).2.2
          pid Mic.BasisAtoms
          (readPhaseHeaderArray (readPhaseHeaderData w pid Mic.Phase MicPhase.New).2.2 pid
            Mic.LatticeConstants
            (readPhaseHeaderData w pid Mic.Phase MicPhase.New).2.1).2.1).2.1).2.2 :=
  ((readPhaseHeaderData_balanced _ _ _ _).trans (readPhaseHeaderArray_balanced _ _ _ _)).trans
    ((readPhaseStringData_balanced _ _ _ _ _).trans (readPhaseStringData_balanced _ _ _ _ _))

theorem readPhase_balanced (phasesGid : Hid) (n : String) (s : St) :
    Balanced s.2.2 (readPhase phasesGid n s).2.2 := by
  unfold readPhase
  simp only []
  cases hg : s.2.2.hasGroup phasesGid n with
  | true =>
    exact (Balanced.wrap_group s.2.2 phasesGid n _ hg (phaseFields_balanced _ _)).2
  | false =>
    refine ((Balanced.open_failed s.2.2 phasesGid n hg).trans
      (phaseFields_balanced _ _)).trans (Balanced.close_invalid _ _ ?_)
    exact (H5Gopen_neg_iff _ _ _).2 hg

theorem readPhases_balanced (phasesGid : Hid) (names : List String) (s : St) :
    Balanced s.2.2 (readPhases phasesGid names s).2.2 := by
  induction names generalizing s with
  | nil => exact Balanced.refl _
  | cons n rest ih => exact (readPhase_balanced phasesGid n s).trans (ih _)

theorem allocateAndRead_balanced (c : Column) (n nb : Nat) (gid : Hid) (s : St) :
    Balanced s.2.2 (allocateAndRead c n nb gid s).2.2 := by
  have ha : Balanced s.2.2 (allocateArray s.2.2 c n).2 := by
    unfold allocateArray
    split
    · exact Balanced.of_same rfl rfl rfl
    · exact Balanced.refl _
  unfold allocateAndRead
  split
  · cases hA : (allocateArray s.2.2 c n).1 with
    | none => simpa [hA] using ha
    | some buf =>
      simp only [hA]
      exact ha.trans (readPointerDataset_balanced _ _ _ _)
  · exact Balanced.refl _

theorem readColumns_balanced (n nb : Nat) (gid : Hid) (cs : List Column) (s : St) :
    Balanced s.2.2 (readColumns n nb gid cs s).2.2 := by
  induction cs generalizing s with
  | nil => exact Balanced.refl _
  | cons c rest ih =>
    rw [readColumns_cons]
    exact (allocateAndRead_balanced c n nb gid s).trans (ih _)

theorem deletePointers_balanced (r : H5MicReader) (w : World) :
    Balanced w (r.deletePointers w).2 :=
  Balanced.of_same rfl rfl rfl

/-- Operation `readData` closes what it opens. -/
theorem readData_balanced (r : H5MicReader) (w : World) (parId : Hid) :
    Balanced w (r.readData w parId).2.2 := by
  by_cases hy : toSizeT r.yDim < 1
  · rw [readData_of_yDim_lt r w parId hy]
    exact deletePointers_balanced r w
  · cases hg : (r.deletePointers w).2.hasGroup parId Mic.H5Mic.Data with
    | false =>
      rw [readData_of_open_failed r w parId hy ((H5Gopen_neg_iff _ _ _).2 hg)]
      exact (deletePointers_balanced r w).trans (Balanced.open_failed _ _ _ hg)
    | true =>
      rw [readData_of_open r w parId hy (H5Gopen_nonneg_of_hasGroup _ _ _ hg)]
      exact (deletePointers_balanced r w).trans
        (Balanced.wrap_group _ parId Mic.H5Mic.Data _ hg
          (readColumns_balanced r.totalDataRows ((r.totalDataRows * 4) % 2 ^ 64)
            (H5Gopen (r.deletePointers w).2 parId Mic.H5Mic.Data).1 Column.all
            (-1, { (r.deletePointers w).1 with numberOfElements := r.totalDataRows },
             (H5Gopen (r.deletePointers w).2 parId Mic.H5Mic.Data).2))).2

/-- Operation `readHeader` is its failure exit on `Header`, or the body. -/
theorem readHeader_eq (r : H5MicReader) (w : World) (parId : Hid) :
    r.readHeader w parId =
      if (H5Gopen w parId Mic.H5Mic.Header).1 < 0 then
        (-105,
         (r.setErrorMessage ("H5MicReader Error: Could not open \x27Header\x27 Group" ++
            r.hdf5Path)).setErrorCode (-105),
         (H5Gopen w parId Mic.H5Mic.Header).2)
      else readHeaderBody r (H5Gopen w parId Mic.H5Mic.Header).2
        (H5Gopen w parId Mic.H5Mic.Header).1 :=
  rfl

theorem readHeaderScalars_balanced (r : H5MicReader) (w : World) (gid : Hid) :
    Balanced w (readHeaderScalars r w gid).2.2 :=
  ((readEbsdHeaderFloat_balanced _ _ _ (-1, r, w)).trans
    (readEbsdHeaderFloat_balanced _ _ _ _)).trans
    ((readEbsdHeaderInt_balanced _ _ _ _).trans (readEbsdHeaderInt_balanced _ _ _ _))

/-- From the open of `Phases` on: once `Phases` is closed the step is balanced,
and the close of `Header` comes last. -/
theorem readHeaderPhases_world (r4 : H5MicReader) (w : World) (gid phasesGid : Hid) :
    ∃ w2, Balanced w w2 ∧
      (readHeaderPhases r4 w gid phasesGid).2.2 = (H5Gclose (H5Gclose w2 phasesGid).2 gid).2 := by
  unfold readHeaderPhases
  simp only []
  split
  · exact ⟨_, getGroupObjects_balanced _ _, rfl⟩
  · exact ⟨_, (getGroupObjects_balanced _ _).trans
      ((readPhases_balanced _ _ (_, _, _)).trans (readStringDataset_balanced _ _ _ _)), rfl⟩

/-- The body of `readHeader` between the open and the close of `Header`. -/
theorem readHeaderBody_world (r : H5MicReader) (w : World) (gid : Hid) :
    ∃ w2, Balanced w w2 ∧ (readHeaderBody r w gid).2.2 = (H5Gclose w2 gid).2 := by
  unfold readHeaderBody
  simp only []
  have hs := readHeaderScalars_balanced r w gid
  cases hP : (readHeaderScalars r w gid).2.2.hasGroup gid Mic.H5Mic.Phases with
  | false =>
    rw [if_pos ((H5Gopen_neg_iff _ _ _).2 hP)]
    exact ⟨_, hs.trans (Balanced.open_failed _ _ _ hP), rfl⟩
  | true =>
    rw [if_neg (H5Gopen_nonneg_of_hasGroup _ _ _ hP)]
    obtain ⟨w2, hb, he⟩ := readHeaderPhases_world (readHeaderScalars r w gid).2.1
      (H5Gopen (readHeaderScalars r w gid).2.2 gid Mic.H5Mic.Phases).2 gid
      (H5Gopen (readHeaderScalars r w gid).2.2 gid Mic.H5Mic.Phases).1
    exact ⟨_, hs.trans (Balanced.wrap_group _ gid Mic.H5Mic.Phases w2 hP hb).2, he⟩

/-- Operation `readHeader` closes what it opens, on every exit. -/
theorem readHeader_balanced (r : H5MicReader) (w : World) (parId : Hid) :
    Balanced w (r.readHeader w parId).2.2 := by
  rw [readHeader_eq]
  cases hH : w.hasGroup parId Mic.H5Mic.Header with
  | false =>
    rw [if_pos ((H5Gopen_neg_iff _ _ _).2 hH)]
    exact Balanced.open_failed _ _ _ hH
  | true =>
    rw [if_neg (H5Gopen_nonneg_of_hasGroup _ _ _ hH)]
    obtain ⟨w2, hb, he⟩ := readHeaderBody_world r (H5Gopen w parId Mic.H5Mic.Header).2
      (H5Gopen w parId Mic.H5Mic.Header).1
    rw [he]
    exact (Balanced.wrap_group w parId Mic.H5Mic.Header w2 hH hb).2


/-! ## `readFile` closes every identifier it opens (claim C9) -/

theorem openFile_nonneg (w : World) (name : String) (root : H5Obj)
    (hf : w.files name = some root) : ¬ (H5Utilities.openFile w name).1 < 0 := by
  rw [openFile_eq_of_some w _ root hf]
  exact not_lt.2 (Int.ofNat_nonneg _)

/-- Operation `readFile` is balanced on every path. -/
theorem readFile_balanced (r : H5MicReader) (w : World) :
    Balanced w (r.readFile w).2.2 := by
  unfold H5MicReader.readFile
  simp only []
  split
  · exact Balanced.refl _
  · cases hf : w.files r.fileName with
    | none =>
      rw [openFile_eq_of_none w _ hf]
      simp only [show ((-1 : Int) < 0) from by decide, if_true]
      exact Balanced.log_quiet _ _ ⟨rfl, rfl, rfl⟩
    | some root =>
      have hid : ¬ (H5Utilities.openFile w r.fileName).1 < 0 := by
        rw [openFile_eq_of_some w _ root hf]
        exact not_lt.2 (Int.ofNat_nonneg _)
      rw [if_neg hid]
      cases hg : (H5Utilities.openFile w r.fileName).2.hasGroup
          (H5Utilities.openFile w r.fileName).1 r.hdf5Path with
      | false =>
        rw [if_pos ((H5Gopen_neg_iff _ _ _).2 hg)]
        exact (Balanced.wrap_file w _ root _ hf (Balanced.open_failed _ _ _ hg)).2
      | true =>
        rw [if_neg (H5Gopen_nonneg_of_hasGroup _ _ _ hg)]
        exact (Balanced.wrap_file w _ root _ hf
          (Balanced.wrap_group _ _ _ _ hg
            ((readHeader_balanced _ _ _).trans (readData_balanced _ _ _))).2).2

/-- Once the file and the internal group are open, the code `readFile` returns
is the result of closing the file, which is 0 whatever the two stages return. -/
theorem readFile_code_of_opened (r : H5MicReader) (w : World) (root : H5Obj)
    (h : r.hdf5Path ≠ "") (hf : w.files r.fileName = some root)
    (hg : (H5Utilities.openFile w r.fileName).2.hasGroup (H5Utilities.openFile w r.fileName).1
      r.hdf5Path = true) : (r.readFile w).1 = 0 := by
  unfold H5MicReader.readFile
  simp only []
  rw [if_neg h, if_neg (openFile_nonneg w _ root hf),
    if_neg (H5Gopen_nonneg_of_hasGroup _ _ _ hg)]
  exact (Balanced.wrap_file w _ root _ hf
    (Balanced.wrap_group _ _ _ _ hg
      ((readHeader_balanced _ _ _).trans (readData_balanced _ _ _))).2).1

/-- Claim C9. Whatever the store and the configuration, of the calls `readFile`
adds to the record, every identifier that was opened (file, internal group,
`Header`, `Phases`, each phase group, `Data`) was handed out once, had exactly
one close call made on it, and that call succeeded; this covers the success
path and every failure exit. -/
theorem readFile_closes_every_handle_exactly_once (r : H5MicReader) (w : World) :
    ∃ es, (r.readFile w).2.2.trace = w.trace ++ es ∧
      ∀ id ∈ openedIds es,
        (openedIds es).count id = 1 ∧ (closeCalls es).count id = 1 ∧
        (closedIds es).count id = 1 := by
  obtain ⟨_, es, ht, hs⟩ := readFile_balanced r w
  exact ⟨es, ht, fun id hid => hs.closed_exactly_once id hid⟩

/-! ## `readHeaderOnly` leaves the internal group open (claim C8) -/

set_option maxRecDepth 1000000 in
/-- Claim C8, the code at a failing input: on the well-formed sample file
`readHeaderOnly` opens the internal group `Scan` as identifier 1, returns 0,
and makes no close call on identifier 1, which is still in the table of open
identifiers when it returns; `readFile` on the same input closes it once. -/
theorem readHeaderOnly_leaves_internal_group_open :
    ((H5MicReader.fresh "a.h5" "Scan" true []).readHeaderOnly (sampleWorld sampleRoot)).1 = 0 ∧
    H5Event.groupOpened 0 "Scan" 1 ∈
      ((H5MicReader.fresh "a.h5" "Scan" true []).readHeaderOnly
        (sampleWorld sampleRoot)).2.2.trace ∧
    (closeCalls ((H5MicReader.fresh "a.h5" "Scan" true []).readHeaderOnly
        (sampleWorld sampleRoot)).2.2.trace).count 1 = 0 ∧
    (((H5MicReader.fresh "a.h5" "Scan" true []).readHeaderOnly
        (sampleWorld sampleRoot)).2.2.handles.map (fun h => h.id)) = [1] ∧
    (closeCalls ((H5MicReader.fresh "a.h5" "Scan" true []).readFile
        (sampleWorld sampleRoot)).2.2.trace).count 1 = 1 := by
  decide


/-! ## Quiet steps -/

theorem Quiet.same (w : World) : Quiet w w :=
  ⟨rfl, rfl, [], (List.append_nil _).symm, fun _ h => absurd h (List.not_mem_nil _)⟩

theorem Quiet.andThen {w w1 w2 : World} (h1 : Quiet w w1) (h2 : Quiet w1 w2) : Quiet w w2 := by
  obtain ⟨a1, b1, es1, t1, q1⟩ := h1
  obtain ⟨a2, b2, es2, t2, q2⟩ := h2
  refine ⟨a2.trans a1, b2.trans b1, es1 ++ es2, ?_, fun e he => ?_⟩
  · rw [t2, t1, List.append_assoc]
  · rcases List.mem_append.1 he with h | h
    · exact q1 e h
    · exact q2 e h

theorem Quiet.log (w : World) (e : H5Event) (h : e.quiet) : Quiet w (w.log e) :=
  ⟨rfl, rfl, [e], rfl, fun e2 he => by rw [List.mem_singleton.1 he]; exact h⟩

theorem readScalarInt_quiet (w : World) (loc : Hid) (name : String) :
    Quiet w (H5Lite.readScalarInt w loc name).2 := by
  unfold H5Lite.readScalarInt
  split <;> exact Quiet.log _ _ ⟨rfl, rfl, rfl⟩

theorem readScalarFloat_quiet (w : World) (loc : Hid) (name : String) :
    Quiet w (H5Lite.readScalarFloat w loc name).2 := by
  unfold H5Lite.readScalarFloat
  split <;> exact Quiet.log _ _ ⟨rfl, rfl, rfl⟩

theorem readEbsdHeaderFloat_quiet (set : H5MicReader → F32 → H5MicReader) (key : String)
    (gid : Hid) (s : St) : Quiet s.2.2 (readEbsdHeaderFloat set key gid s).2.2 := by
  unfold readEbsdHeaderFloat
  simp only []
  split <;> exact readScalarFloat_quiet _ _ _

theorem readEbsdHeaderInt_quiet (set : H5MicReader → Int → H5MicReader) (key : String)
    (gid : Hid) (s : St) : Quiet s.2.2 (readEbsdHeaderInt set key gid s).2.2 := by
  unfold readEbsdHeaderInt
  simp only []
  split <;> exact readScalarInt_quiet _ _ _

theorem readHeaderScalars_quiet (r : H5MicReader) (w : World) (gid : Hid) :
    Quiet w (readHeaderScalars r w gid).2.2 :=
  ((readEbsdHeaderFloat_quiet _ _ _ (-1, r, w)).andThen
    (readEbsdHeaderFloat_quiet _ _ _ _)).andThen
    ((readEbsdHeaderInt_quiet _ _ _ _).andThen (readEbsdHeaderInt_quiet _ _ _ _))

theorem readEbsdHeaderFloat_frame (set : H5MicReader → F32 → H5MicReader) (key : String)
    (gid : Hid) (s : St) (hset : ∀ r v, (set r v).beyondScalars = r.beyondScalars) :
    (readEbsdHeaderFloat set key gid s).2.1.beyondScalars = s.2.1.beyondScalars := by
  unfold readEbsdHeaderFloat
  simp only []
  split
  · rfl
  · exact hset _ _

theorem readEbsdHeaderInt_frame (set : H5MicReader → Int → H5MicReader) (key : String)
    (gid : Hid) (s : St) (hset : ∀ r v, (set r v).beyondScalars = r.beyondScalars) :
    (readEbsdHeaderInt set key gid s).2.1.beyondScalars = s.2.1.beyondScalars := by
  unfold readEbsdHeaderInt
  simp only []
  split
  · rfl
  · exact hset _ _

/-- The four scalar reads write the resolutions and the dimensions only. -/
theorem readHeaderScalars_frame (r : H5MicReader) (w : World) (gid : Hid) :
    (readHeaderScalars r w gid).2.1.beyondScalars = r.beyondScalars := by
  unfold readHeaderScalars
  refine (readEbsdHeaderInt_frame _ _ _ _ ?_).trans
    ((readEbsdHeaderInt_frame _ _ _ _ ?_).trans
      ((readEbsdHeaderFloat_frame _ _ _ _ ?_).trans (readEbsdHeaderFloat_frame _ _ _ _ ?_)))
  all_goals intro _ _; rfl

theorem openedIds_of_quiet (es : List H5Event) (h : ∀ e ∈ es, H5Event.quiet e) :
    openedIds es = [] ∧ closeCalls es = [] ∧ closedIds es = [] := by
  induction es with
  | nil => exact ⟨rfl, rfl, rfl⟩
  | cons e rest ih =>
    obtain ⟨h1, h2, h3⟩ := h e (List.mem_cons_self _ _)
    obtain ⟨i1, i2, i3⟩ := ih (fun e2 he => h e2 (List.mem_cons_of_mem _ he))
    refine ⟨?_, ?_, ?_⟩
    · simp only [openedIds, List.filterMap_cons, h1]; exact i1
    · simp only [closeCalls, List.filterMap_cons, h2]; exact i2
    · simp only [closedIds, List.filterMap_cons, h3]; exact i3

/-! ## `readHeader` on a store without the `Phases` group (claim C7) -/

/-- The explicit result of `H5Gopen` on a name that resolves to a group. -/
theorem H5Gopen_eq_of_lookup (w : World) (loc : Hid) (name : String)
    (links ls : List (String × H5Obj)) (hl : w.linksOf loc = some links)
    (ho : lookupLink links name = some (.group ls)) :
    H5Gopen w loc name =
      ((w.nextId : Int),
       (w.register false (.group ls)).2.log (.groupOpened loc name (w.nextId : Int))) := by
  unfold H5Gopen
  simp [hl, ho, World.register]

theorem hasGroup_of_handles {w w2 : World} (h : w2.handles = w.handles) (loc : Hid)
    (name : String) : w2.hasGroup loc name = w.hasGroup loc name := by
  unfold World.hasGroup World.linksOf World.find
  rw [h]

theorem find_of_handles {w w2 : World} (h : w2.handles = w.handles) (id : Hid) :
    w2.find id = w.find id := by
  unfold World.find
  rw [h]

/-- Claim C7, counterexample: a reader that holds one phase record from an
earlier read, on a store whose `Header` group has no `Phases` group:
`readHeader` returns -1 and the phase list still holds that record. -/
theorem stale_phases_survive_failed_readHeader :
    (sampleOpenWorld [("Header", sampleHeaderNoPhases 4 3)]).hasGroup 1 Mic.H5Mic.Header = true ∧
    ({ H5MicReader.fresh "a.h5" "Scan" true [] with phases := [MicPhase.New] }.readHeader
        (sampleOpenWorld [("Header", sampleHeaderNoPhases 4 3)]) 1).1 = -1 ∧
    ({ H5MicReader.fresh "a.h5" "Scan" true [] with phases := [MicPhase.New] }.readHeader
        (sampleOpenWorld [("Header", sampleHeaderNoPhases 4 3)]) 1).2.1.phases
      = [MicPhase.New] ∧
    ({ H5MicReader.fresh "a.h5" "Scan" true [] with phases := [MicPhase.New] }.readHeader
        (sampleOpenWorld [("Header", sampleHeaderNoPhases 4 3)]) 1).2.1.phases ≠ [] := by
  decide

/-- The exit of `readHeader` on a `Header` group without `Phases`, in full. -/
theorem readHeaderExit_without_phases_group (r : H5MicReader) (w : World) (parId : Hid)
    (links ls : List (String × H5Obj)) (hl : w.linksOf parId = some links)
    (hh : lookupLink links Mic.H5Mic.Header = some (.group ls))
    (hp : isGroupLink ls Mic.H5Mic.Phases = false) :
    (r.readHeader w parId).1 = -1 ∧
    (r.readHeader w parId).2.1.phases = r.phases ∧
    (r.phases = [] → (r.readHeader w parId).2.1.phases = []) ∧
    ∃ es, (r.readHeader w parId).2.2.trace = w.trace ++ es ∧
      H5Event.groupOpened parId Mic.H5Mic.Header (w.nextId : Int) ∈ es ∧
      openedIds es = [(w.nextId : Int)] ∧ closeCalls es = [(w.nextId : Int)] ∧
      closedIds es = [(w.nextId : Int)] := by
  have ho := H5Gopen_eq_of_lookup w parId Mic.H5Mic.Header links ls hl hh
  have hnn : ¬ (H5Gopen w parId Mic.H5Mic.Header).1 < 0 := by
    rw [ho]; exact not_lt.2 (Int.ofNat_nonneg _)
  rw [readHeader_eq, if_neg hnn, ho]
  obtain ⟨qh, qn, es, qt, qq⟩ := readHeaderScalars_quiet r
    ((w.register false (.group ls)).2.log
      (.groupOpened parId Mic.H5Mic.Header (w.nextId : Int))) (w.nextId : Int)
  have hfr := readHeaderScalars_frame r
    ((w.register false (.group ls)).2.log
      (.groupOpened parId Mic.H5Mic.Header (w.nextId : Int))) (w.nextId : Int)
  have hfind : World.find (readHeaderScalars r ((w.register false (.group ls)).2.log
      (.groupOpened parId Mic.H5Mic.Header (w.nextId : Int))) (w.nextId : Int)).2.2
      (w.nextId : Int) = some ⟨(w.nextId : Int), false, .group ls⟩ := by
    rw [find_of_handles qh, find_log, find_register_self]
  have hnoP : World.hasGroup (readHeaderScalars r ((w.register false (.group ls)).2.log
      (.groupOpened parId Mic.H5Mic.Header (w.nextId : Int))) (w.nextId : Int)).2.2
      (w.nextId : Int) Mic.H5Mic.Phases = false := by
    unfold World.hasGroup World.linksOf
    rw [hfind]
    exact hp
  have hphases : (readHeaderScalars r ((w.register false (.group ls)).2.log
      (.groupOpened parId Mic.H5Mic.Header (w.nextId : Int))) (w.nextId : Int)).2.1.phases
      = r.phases := congrArg (fun t => t.1) hfr
  have hbody : readHeaderBody r ((w.register false (.group ls)).2.log
      (.groupOpened parId Mic.H5Mic.Header (w.nextId : Int))) (w.nextId : Int) =
      (-1, (readHeaderScalars r ((w.register false (.group ls)).2.log
        (.groupOpened parId Mic.H5Mic.Header (w.nextId : Int))) (w.nextId : Int)).2.1,
       (((readHeaderScalars r ((w.register false (.group ls)).2.log
        (.groupOpened parId Mic.H5Mic.Header (w.nextId : Int))) (w.nextId : Int)).2.2.log
          (.groupOpenFailed (w.nextId : Int) Mic.H5Mic.Phases)).release (w.nextId : Int)).log
          (.groupClosed (w.nextId : Int) true)) := by
    unfold readHeaderBody
    simp only []
    rw [H5Gopen_of_not_hasGroup _ _ _ hnoP]
    simp only [show ((-1 : Int) < 0) from by decide, if_true]
    unfold H5Gclose
    rw [find_log, hfind]
    rfl
  rw [hbody]
  obtain ⟨e1, e2, e3⟩ := openedIds_of_quiet es qq
  refine ⟨rfl, hphases, fun h0 => hphases.trans h0, ?_⟩
  refine ⟨[.groupOpened parId Mic.H5Mic.Header (w.nextId : Int)] ++ es ++
    [.groupOpenFailed (w.nextId : Int) Mic.H5Mic.Phases, .groupClosed (w.nextId : Int) true],
    ?_, by simp, ?_, ?_, ?_⟩
  · simp only [World.log, World.release, World.register] at qt ⊢
    rw [qt]
    simp [List.append_assoc]
  · simp only [openedIds, List.filterMap_append] at e1 ⊢
    rw [e1]
    rfl
  · simp only [closeCalls, List.filterMap_append] at e2 ⊢
    rw [e2]
    rfl
  · simp only [closedIds, List.filterMap_append] at e3 ⊢
    rw [e3]
    rfl

/-- Claim C7, amended. For every prior reader state and every store whose
`Header` group exists below `parId` but has no `Phases` group, `readHeader`
returns -1, the only identifier it opens is the one of `Header`, it makes
exactly one close call, on that identifier and with success, and the phase
list of the reader is left as it was before the call (so it is empty
afterwards whenever it was empty before). -/
theorem readHeader_without_phases_group (r : H5MicReader) (w : World) (parId : Hid)
    (links ls : List (String × H5Obj)) (hl : w.linksOf parId = some links)
    (hh : lookupLink links Mic.H5Mic.Header = some (.group ls))
    (hp : isGroupLink ls Mic.H5Mic.Phases = false) :
    (r.readHeader w parId).1 = -1 ∧
    (r.readHeader w parId).2.1.phases = r.phases ∧
    (r.phases = [] → (r.readHeader w parId).2.1.phases = []) ∧
    ∃ es, (r.readHeader w parId).2.2.trace = w.trace ++ es ∧
      H5Event.groupOpened parId Mic.H5Mic.Header (w.nextId : Int) ∈ es ∧
      openedIds es = [(w.nextId : Int)] ∧ closeCalls es = [(w.nextId : Int)] ∧
      closedIds es = [(w.nextId : Int)] :=
  readHeaderExit_without_phases_group r w parId links ls hl hh hp

set_option maxRecDepth 1000000 in
/-- Witness of claim C7 (amended): a fresh reader on the sample store whose
`Header` group lacks `Phases`. -/
theorem readHeader_without_phases_group_witness :
    ((H5MicReader.fresh "a.h5" "Scan" true []).readHeader
        (sampleOpenWorld [("Header", sampleHeaderNoPhases 4 3)]) 1).1 = -1 ∧
    ((H5MicReader.fresh "a.h5" "Scan" true []).readHeader
        (sampleOpenWorld [("Header", sampleHeaderNoPhases 4 3)]) 1).2.1.phases = [] :=
  ⟨(readHeader_without_phases_group (H5MicReader.fresh "a.h5" "Scan" true [])
      (sampleOpenWorld [("Header", sampleHeaderNoPhases 4 3)]) 1
      [("Header", sampleHeaderNoPhases 4 3)]
      [("XRes", .floatScalar 7), ("YRes", .floatScalar 8), ("XDim", .intScalar 4),
       ("YDim", .intScalar 3), ("OriginalHeader", .string "hdr")]
      rfl rfl rfl).1,
   (readHeader_without_phases_group (H5MicReader.fresh "a.h5" "Scan" true [])
      (sampleOpenWorld [("Header", sampleHeaderNoPhases 4 3)]) 1
      [("Header", sampleHeaderNoPhases 4 3)]
      [("XRes", .floatScalar 7), ("YRes", .floatScalar 8), ("XDim", .intScalar 4),
       ("YDim", .intScalar 3), ("OriginalHeader", .string "hdr")]
      rfl rfl rfl).2.2.1 rfl⟩


/-! ## The codes of the failure kinds (claim C10) -/

theorem readFile_empty_path (r : H5MicReader) (w : World) (h : r.hdf5Path = "") :
    r.readFile w = (-1, r, w) := by
  unfold H5MicReader.readFile
  rw [if_pos h]

theorem readHeaderOnly_empty_path (r : H5MicReader) (w : World) (h : r.hdf5Path = "") :
    (r.readHeaderOnly w).1 = -102 := by
  unfold H5MicReader.readHeaderOnly
  rw [if_pos h]

theorem readFile_no_file (r : H5MicReader) (w : World) (h : r.hdf5Path ≠ "")
    (hf : w.files r.fileName = none) : (r.readFile w).1 = -100 := by
  unfold H5MicReader.readFile
  simp only []
  rw [if_neg h, openFile_eq_of_none w _ hf]
  rfl

theorem readHeaderOnly_no_file (r : H5MicReader) (w : World) (h : r.hdf5Path ≠ "")
    (hf : w.files r.fileName = none) : (r.readHeaderOnly w).1 = -100 := by
  unfold H5MicReader.readHeaderOnly
  simp only []
  rw [if_neg h, openFile_eq_of_none w _ hf]
  rfl

theorem readFile_no_path (r : H5MicReader) (w : World) (root : H5Obj) (h : r.hdf5Path ≠ "")
    (hf : w.files r.fileName = some root)
    (hg : (H5Utilities.openFile w r.fileName).2.hasGroup (H5Utilities.openFile w r.fileName).1
      r.hdf5Path = false) : (r.readFile w).1 = -101 := by
  unfold H5MicReader.readFile
  simp only []
  rw [if_neg h, if_neg (openFile_nonneg w _ root hf), if_pos ((H5Gopen_neg_iff _ _ _).2 hg)]

theorem readHeaderOnly_no_path (r : H5MicReader) (w : World) (root : H5Obj)
    (h : r.hdf5Path ≠ "") (hf : w.files r.fileName = some root)
    (hg : (H5Utilities.openFile w r.fileName).2.hasGroup (H5Utilities.openFile w r.fileName).1
      r.hdf5Path = false) : (r.readHeaderOnly w).1 = -101 := by
  unfold H5MicReader.readHeaderOnly
  simp only []
  rw [if_neg h, if_neg (openFile_nonneg w _ root hf), if_pos ((H5Gopen_neg_iff _ _ _).2 hg)]

theorem readHeader_no_header (r : H5MicReader) (w : World) (parId : Hid)
    (h : w.hasGroup parId Mic.H5Mic.Header = false) : (r.readHeader w parId).1 = -105 := by
  rw [readHeader_eq, if_pos ((H5Gopen_neg_iff _ _ _).2 h)]

theorem linksOf_register_self (w : World) (ls : List (String × H5Obj)) :
    (w.register false (.group ls)).2.linksOf (w.nextId : Int) = some ls := by
  unfold World.linksOf
  rw [find_register_self]

theorem linksOf_of_handles {w w2 : World} (h : w2.handles = w.handles) (id : Hid) :
    w2.linksOf id = w.linksOf id := by
  unfold World.linksOf
  rw [find_of_handles h]

theorem readHeaderPhases_no_names (r4 : H5MicReader) (w : World) (gid phasesGid : Hid)
    (h : (H5Utilities.getGroupObjects w phasesGid).1.2 = []) :
    (readHeaderPhases r4 w gid phasesGid).1 = -1 := by
  unfold readHeaderPhases
  simp only []
  rw [if_pos (Or.inr h)]

/-- The body of `readHeader` on a `Phases` group that holds no group. -/
theorem readHeaderBody_no_phases (r : H5MicReader) (w : World) (gid : Hid)
    (ls pl : List (String × H5Obj)) (hl : w.linksOf gid = some ls)
    (hp : lookupLink ls Mic.H5Mic.Phases = some (.group pl))
    (he : pl.filter (fun p => isGroupLink pl p.1) = []) :
    (readHeaderBody r w gid).1 = -1 := by
  obtain ⟨qh, _, _⟩ := readHeaderScalars_quiet r w gid
  have hlinks : (readHeaderScalars r w gid).2.2.linksOf gid = some ls := by
    rw [linksOf_of_handles qh]
    exact hl
  unfold readHeaderBody
  simp only []
  generalize readHeaderScalars r w gid = s4 at hlinks ⊢
  rw [H5Gopen_eq_of_lookup _ gid Mic.H5Mic.Phases ls pl hlinks hp]
  simp only []
  rw [if_neg (not_lt.2 (Int.ofNat_nonneg _))]
  apply readHeaderPhases_no_names
  unfold H5Utilities.getGroupObjects
  rw [show World.linksOf ((s4.2.2.register false (.group pl)).2.log
      (.groupOpened gid Mic.H5Mic.Phases (s4.2.2.nextId : Int))) (s4.2.2.nextId : Int)
      = some pl from linksOf_register_self _ pl]
  simp only [he, List.map_nil]

/-- The exit of `readHeader` on a `Phases` group that holds no group. -/
theorem readHeader_no_phases (r : H5MicReader) (w : World) (parId : Hid)
    (links ls pl : List (String × H5Obj)) (hl : w.linksOf parId = some links)
    (hh : lookupLink links Mic.H5Mic.Header = some (.group ls))
    (hp : lookupLink ls Mic.H5Mic.Phases = some (.group pl))
    (he : pl.filter (fun p => isGroupLink pl p.1) = []) :
    (r.readHeader w parId).1 = -1 := by
  have ho := H5Gopen_eq_of_lookup w parId Mic.H5Mic.Header links ls hl hh
  have hnn : ¬ (H5Gopen w parId Mic.H5Mic.Header).1 < 0 := by
    rw [ho]; exact not_lt.2 (Int.ofNat_nonneg _)
  rw [readHeader_eq, if_neg hnn, ho]
  exact readHeaderBody_no_phases r _ _ ls pl (linksOf_register_self w ls) hp he

theorem readData_no_data (r : H5MicReader) (w : World) (parId : Hid)
    (hy : ¬ toSizeT r.yDim < 1) (hg : w.hasGroup parId Mic.H5Mic.Data = false) :
    (r.readData w parId).1 = -1 := by
  rw [readData_of_open_failed r w parId hy ((H5Gopen_neg_iff _ _ _).2 hg)]

/-- The code the source returns for each failure kind. -/
theorem Returns.code {k : FailureKind} {c : Int} (h : Returns k c) : k.sourceCode c := by
  cases h with
  | emptyPath_readFile r w h => exact Or.inl (by rw [readFile_empty_path r w h])
  | emptyPath_readHeaderOnly r w h => exact Or.inr (readHeaderOnly_empty_path r w h)
  | noFile_readFile r w h hf => exact readFile_no_file r w h hf
  | noFile_readHeaderOnly r w h hf => exact readHeaderOnly_no_file r w h hf
  | noPath_readFile r w root h hf hg => exact readFile_no_path r w root h hf hg
  | noPath_readHeaderOnly r w root h hf hg => exact readHeaderOnly_no_path r w root h hf hg
  | noHeader r w parId h => exact readHeader_no_header r w parId h
  | noPhasesGroup r w parId links ls hl hh hp =>
    exact (readHeaderExit_without_phases_group r w parId links ls hl hh hp).1
  | noPhases r w parId links ls pl hl hh hp he =>
    exact readHeader_no_phases r w parId links ls pl hl hh hp he
  | noData r w parId hy hg => exact readData_no_data r w parId hy hg
  | badDimensions r w parId hy =>
    show (r.readData w parId).1 = -200
    rw [readData_of_yDim_lt r w parId hy]

/-- Claim C10, counterexample: a `Header` group without `Phases` and a `Header`
group whose `Phases` group is empty are two different failure kinds, and
`readHeader` returns the same code -1 for both. -/
theorem missing_phases_and_no_phases_share_a_code :
    Returns .MissingPhasesGroup (-1) ∧ Returns .NoPhasesFound (-1) ∧
    FailureKind.MissingPhasesGroup ≠ FailureKind.NoPhasesFound := by
  refine ⟨?_, ?_, by decide⟩
  · have h := Returns.noPhasesGroup (H5MicReader.fresh "a.h5" "Scan" true [])
      (sampleOpenWorld [("Header", sampleHeaderNoPhases 4 3)]) 1
      [("Header", sampleHeaderNoPhases 4 3)]
      [("XRes", .floatScalar 7), ("YRes", .floatScalar 8), ("XDim", .intScalar 4),
       ("YDim", .intScalar 3), ("OriginalHeader", .string "hdr")] rfl rfl rfl
    have hc : _ = (-1 : Int) := Returns.code h
    rw [hc] at h
    exact h
  · have h := Returns.noPhases (H5MicReader.fresh "a.h5" "Scan" true [])
      (sampleOpenWorld [("Header", sampleHeader 4 3 [])]) 1
      [("Header", sampleHeader 4 3 [])]
      [("XRes", .floatScalar 7), ("YRes", .floatScalar 8), ("XDim", .intScalar 4),
       ("YDim", .intScalar 3), ("Phases", .group []), ("OriginalHeader", .string "hdr")]
      [] rfl rfl rfl rfl
    have hc : _ = (-1 : Int) := Returns.code h
    rw [hc] at h
    exact h

/-- Claim C10, amended. Every code the reader returns for a failure kind of the
taxonomy is negative. The codes of CannotOpenFile (-100), MissingInternalPath
(-101), MissingHeaderGroup (-105) and InvalidDimensions (-200) each differ
from the code of every other failure kind, so these four can be told from the
code; MissingPhasesGroup, NoPhasesFound and MissingDataGroup all return the
general code -1. -/
theorem failure_codes_negative_and_own_codes_distinct (k : FailureKind) (c : Int)
    (h : Returns k c) :
    c < 0 ∧
    (k.hasOwnCode = true → ∀ k2 c2, Returns k2 c2 → k2 ≠ k → c2 ≠ c) ∧
    (k = .MissingPhasesGroup ∨ k = .NoPhasesFound ∨ k = .MissingDataGroup → c = -1) := by
  have hc := Returns.code h
  refine ⟨?_, ?_, ?_⟩
  · cases k <;> simp only [FailureKind.sourceCode] at hc <;> omega
  · intro hown k2 c2 h2 hne
    have hc2 := Returns.code h2
    cases k <;> simp [FailureKind.hasOwnCode] at hown <;> cases k2 <;>
      simp only [FailureKind.sourceCode] at hc hc2 <;> first | exact absurd rfl hne | omega
  · intro hk
    rcases hk with hk | hk | hk <;> subst hk <;> exact hc

/-- Witness of claim C10 (amended): the reader without a `Header` group
returns -105, a negative code. -/
theorem failure_codes_negative_and_own_codes_distinct_witness :
    ((H5MicReader.fresh "a.h5" "Scan" true []).readHeader (sampleOpenWorld []) 1).1 < 0 :=
  (failure_codes_negative_and_own_codes_distinct .MissingHeaderGroup _
    (Returns.noHeader (H5MicReader.fresh "a.h5" "Scan" true []) (sampleOpenWorld []) 1
      rfl)).1


/-! ## The phase loop parses one record per child group (claims C11 and C12) -/

theorem dataset_of_links (w : World) (loc : Hid) (name : String) (gl : List (String × H5Obj))
    (h : w.linksOf loc = some gl) : w.dataset loc name = lookupLink gl name := by
  unfold World.dataset
  rw [h]

theorem linksOf_log (w : World) (e : H5Event) (loc : Hid) :
    (w.log e).linksOf loc = w.linksOf loc := rfl

theorem readPhaseHeaderData_of_links (w : World) (pid : Hid) (key : String) (ph : MicPhase)
    (gl : List (String × H5Obj)) (h : w.linksOf pid = some gl) :
    (readPhaseHeaderData w pid key ph).2.1 =
      (match lookupLink gl key with
       | some (.intScalar v) => { ph with phaseIndex := v }
       | _ => ph) ∧
    (readPhaseHeaderData w pid key ph).2.2.linksOf pid = some gl := by
  unfold readPhaseHeaderData H5Lite.readScalarInt
  rw [dataset_of_links w pid key gl h]
  cases ho : lookupLink gl key with
  | none => exact ⟨rfl, h⟩
  | some o => cases o <;> exact ⟨rfl, h⟩

theorem readPhaseHeaderArray_of_links (w : World) (pid : Hid) (key : String) (ph : MicPhase)
    (gl : List (String × H5Obj)) (h : w.linksOf pid = some gl) :
    (readPhaseHeaderArray w pid key ph).2.1 =
      (match lookupLink gl key with
       | some (.floatArray vs) => { ph with latticeConstants := vs }
       | _ => ph) ∧
    (readPhaseHeaderArray w pid key ph).2.2.linksOf pid = some gl := by
  unfold readPhaseHeaderArray H5Lite.readVectorFloat
  rw [dataset_of_links w pid key gl h]
  cases ho : lookupLink gl key with
  | none => exact ⟨rfl, h⟩
  | some o => cases o <;> exact ⟨rfl, h⟩

theorem readPhaseStringData_of_links (set : MicPhase → String → MicPhase) (w : World)
    (pid : Hid) (key : String) (ph : MicPhase) (gl : List (String × H5Obj))
    (h : w.linksOf pid = some gl) :
    (readPhaseStringData set w pid key ph).2.1 =
      (match lookupLink gl key with
       | some (.string v) => set ph v
       | _ => ph) ∧
    (readPhaseStringData set w pid key ph).2.2.linksOf pid = some gl := by
  unfold readPhaseStringData H5Lite.readStringDataset
  rw [dataset_of_links w pid key gl h]
  cases ho : lookupLink gl key with
  | none => exact ⟨rfl, h⟩
  | some o => cases o <;> exact ⟨rfl, h⟩

/-- One turn of the phase loop on a name that resolves to a group with links
`gl` appends the record of that group. -/
theorem readPhase_phases (phasesGid : Hid) (n : String) (s : St)
    (pl gl : List (String × H5Obj)) (hl : s.2.2.linksOf phasesGid = some pl)
    (hn : lookupLink pl n = some (.group gl)) :
    (readPhase phasesGid n s).2.1.phases = s.2.1.phases ++ [specPhaseRecord gl] := by
  have ho := H5Gopen_eq_of_lookup s.2.2 phasesGid n pl gl hl hn
  have h1 : World.linksOf ((s.2.2.register false (.group gl)).2.log
      (.groupOpened phasesGid n (s.2.2.nextId : Int))) (s.2.2.nextId : Int) = some gl :=
    linksOf_register_self _ gl
  unfold readPhase
  simp only []
  rw [ho]
  simp only []
  obtain ⟨a1, a2⟩ := readPhaseHeaderData_of_links _ (s.2.2.nextId : Int) Mic.Phase
    MicPhase.New gl h1
  obtain ⟨b1, b2⟩ := readPhaseHeaderArray_of_links _ (s.2.2.nextId : Int)
    Mic.LatticeConstants (readPhaseHeaderData ((s.2.2.register false (.group gl)).2.log
      (.groupOpened phasesGid n (s.2.2.nextId : Int))) (s.2.2.nextId : Int) Mic.Phase
      MicPhase.New).2.1 gl a2
  obtain ⟨c1, c2⟩ := readPhaseStringData_of_links (fun ph v => { ph with basisAtoms := v }) _
    (s.2.2.nextId : Int) Mic.BasisAtoms _ gl b2
  obtain ⟨d1, _⟩ := readPhaseStringData_of_links (fun ph v => { ph with symmetry := v }) _
    (s.2.2.nextId : Int) Mic.Symmetry _ gl c2
  rw [d1, c1, b1, a1]
  rfl

theorem linksOf_of_find {w w2 : World} (id : Hid) (h : w2.find id = w.find id) :
    w2.linksOf id = w.linksOf id := by
  unfold World.linksOf
  rw [h]

/-- A balanced step keeps the links of every identifier handed out before and
does not lower the counter. -/
theorem Balanced.linksOf_eq {w w2 : World} (h : Balanced w w2) (k : Nat) (hk : k < w.nextId) :
    w2.linksOf (k : Int) = w.linksOf (k : Int) ∧ k < w2.nextId := by
  obtain ⟨f, _, _, sc⟩ := h
  exact ⟨linksOf_of_find _ (f k hk), lt_of_lt_of_le hk sc.1⟩

/-- The phase loop over names that resolve to groups appends their records in
order. -/
theorem readPhases_phases (k : Nat) (pl : List (String × H5Obj))
    (gs : List (String × List (String × H5Obj)))
    (hg : ∀ g ∈ gs, lookupLink pl g.1 = some (.group g.2)) (s : St)
    (hl : s.2.2.linksOf (k : Int) = some pl) (hk : k < s.2.2.nextId) :
    (readPhases (k : Int) (gs.map (fun g => g.1)) s).2.1.phases =
      s.2.1.phases ++ gs.map (fun g => specPhaseRecord g.2) := by
  induction gs generalizing s with
  | nil => simp [readPhases]
  | cons g rest ih =>
    have hstep := readPhase_phases (k : Int) g.1 s pl g.2 hl (hg g (List.mem_cons_self _ _))
    obtain ⟨hl2, hk2⟩ := (readPhase_balanced (k : Int) g.1 s).linksOf_eq k hk
    have := ih (fun g2 h2 => hg g2 (List.mem_cons_of_mem _ h2)) (readPhase (k : Int) g.1 s)
      (hl2.trans hl) hk2
    simp only [List.map_cons, readPhases]
    rw [this, hstep, List.append_assoc]
    rfl

theorem childGroups_lookup (pl : List (String × H5Obj)) :
    ∀ g ∈ childGroups pl, lookupLink pl g.1 = some (.group g.2) := by
  intro g hg
  unfold childGroups at hg
  obtain ⟨p, _, hp⟩ := List.mem_filterMap.1 hg
  cases ho : lookupLink pl p.1 with
  | none => simp [ho] at hp
  | some o =>
    cases o with
    | group gl =>
      simp only [ho, Option.some.injEq] at hp
      rw [← hp]
      exact ho
    | _ => simp [ho] at hp

/-- The names `getGroupObjects` lists are the names of the child groups. -/
theorem groupNames_eq_childGroups (pl l : List (String × H5Obj)) :
    (l.filter (fun p => isGroupLink pl p.1)).map (fun p => p.1) =
      (l.filterMap (fun p =>
        match lookupLink pl p.1 with
        | some (.group gl) => some (p.1, gl)
        | _ => none)).map (fun g => g.1) := by
  induction l with
  | nil => rfl
  | cons p rest ih =>
    cases ho : lookupLink pl p.1 with
    | none =>
      have hig : isGroupLink pl p.1 = false := by simp [isGroupLink, ho]
      simp only [List.filter_cons, List.filterMap_cons, hig, ho]
      exact ih
    | some o =>
      cases o with
      | group gl =>
        have hig : isGroupLink pl p.1 = true := by simp [isGroupLink, ho]
        simp only [List.filter_cons, List.filterMap_cons, hig, ho, if_true, List.map_cons]
        rw [ih]
      | _ =>
        have hig : isGroupLink pl p.1 = false := by simp [isGroupLink, ho]
        simp only [List.filter_cons, List.filterMap_cons, hig, ho]
        exact ih

theorem getGroupObjects_of_links (w : World) (loc : Hid) (pl : List (String × H5Obj))
    (h : w.linksOf loc = some pl) :
    H5Utilities.getGroupObjects w loc =
      ((0, (childGroups pl).map (fun g => g.1)), w.log (.groupListed loc)) := by
  unfold H5Utilities.getGroupObjects
  rw [h]
  simp only []
  rw [groupNames_eq_childGroups pl pl]
  rfl

/-- The part of `readHeader` after the open of `Phases`, on a `Phases` group
with at least one child group: the phase list becomes the list of the store. -/
theorem readHeaderPhases_of_links (r4 : H5MicReader) (w : World) (gid : Hid) (k : Nat)
    (pl : List (String × H5Obj)) (hl : w.linksOf (k : Int) = some pl) (hk : k < w.nextId)
    (hne : childGroups pl ≠ []) :
    ∃ w2 r6, Balanced w w2 ∧ r6.phases = specPhaseList pl ∧
      readHeaderPhases r4 w gid (k : Int) =
        ((H5Gclose (H5Gclose w2 (k : Int)).2 gid).1, r6,
         (H5Gclose (H5Gclose w2 (k : Int)).2 gid).2) := by
  have hnames : ¬ ((0 : Int) < 0 ∨ (childGroups pl).map (fun g => g.1) = []) := by
    intro h
    rcases h with h | h
    · exact absurd h (by decide)
    · exact hne (List.map_eq_nil_iff.1 h)
  have hph := readPhases_phases k pl (childGroups pl) (childGroups_lookup pl)
    ((0 : Int), { r4 with phases := [] }, w.log (.groupListed (k : Int))) hl hk
  unfold readHeaderPhases
  simp only []
  rw [getGroupObjects_of_links w (k : Int) pl hl]
  simp only []
  rw [if_neg hnames]
  refine ⟨_, _, ?_, ?_, rfl⟩
  · exact (Balanced.log_quiet w (.groupListed (k : Int)) ⟨rfl, rfl, rfl⟩).trans
      ((readPhases_balanced _ _ (_, _, _)).trans (readStringDataset_balanced _ _ _ _))
  · show (readPhases (k : Int) _ _).2.1.phases = _
    rw [hph]
    rfl

/-- The body of `readHeader` on a `Header` group with links `ls` whose `Phases`
group has at least one child group. -/
theorem readHeaderBody_of_links (r : H5MicReader) (w : World) (gid : Hid)
    (ls pl : List (String × H5Obj)) (hl : w.linksOf gid = some ls)
    (hp : lookupLink ls Mic.H5Mic.Phases = some (.group pl)) (hne : childGroups pl ≠ []) :
    ∃ w3 r6, Balanced w w3 ∧ r6.phases = specPhaseList pl ∧
      readHeaderBody r w gid = ((H5Gclose w3 gid).1, r6, (H5Gclose w3 gid).2) := by
  obtain ⟨qh, _, _⟩ := readHeaderScalars_quiet r w gid
  have hlinks : (readHeaderScalars r w gid).2.2.linksOf gid = some ls := by
    rw [linksOf_of_handles qh]
    exact hl
  have hs := readHeaderScalars_balanced r w gid
  have hP : (readHeaderScalars r w gid).2.2.hasGroup gid Mic.H5Mic.Phases = true := by
    unfold World.hasGroup
    rw [hlinks]
    simp [isGroupLink, hp]
  have hop := H5Gopen_eq_of_lookup _ gid Mic.H5Mic.Phases ls pl hlinks hp
  unfold readHeaderBody
  simp only []
  generalize readHeaderScalars r w gid = s4 at hlinks hs hP hop ⊢
  have hwrap := fun w2 => Balanced.wrap_group s4.2.2 gid Mic.H5Mic.Phases w2 hP
  rw [hop] at hwrap ⊢
  simp only []
  rw [if_neg (not_lt.2 (Int.ofNat_nonneg _))]
  obtain ⟨w2, r6, hb, hph, he⟩ := readHeaderPhases_of_links s4.2.1
    ((s4.2.2.register false (.group pl)).2.log
      (.groupOpened gid Mic.H5Mic.Phases (s4.2.2.nextId : Int))) gid s4.2.2.nextId pl
    (linksOf_register_self _ pl) (Nat.lt_succ_self _) hne
  exact ⟨_, r6, hs.trans (hwrap w2 hb).2, hph, he⟩

/-- The full success path of `readHeader`, read off the store: the code is 0
and the phase list is the list of the store, whatever the reader held. -/
theorem readHeader_of_store (r : H5MicReader) (w : World) (parId : Hid)
    (links ls pl : List (String × H5Obj)) (hl : w.linksOf parId = some links)
    (hh : lookupLink links Mic.H5Mic.Header = some (.group ls))
    (hp : lookupLink ls Mic.H5Mic.Phases = some (.group pl)) (hne : childGroups pl ≠ []) :
    (r.readHeader w parId).1 = 0 ∧ (r.readHeader w parId).2.1.phases = specPhaseList pl := by
  have hH : w.hasGroup parId Mic.H5Mic.Header = true := by
    unfold World.hasGroup
    rw [hl]
    simp [isGroupLink, hh]
  have ho := H5Gopen_eq_of_lookup w parId Mic.H5Mic.Header links ls hl hh
  have hwrap := fun w2 => Balanced.wrap_group w parId Mic.H5Mic.Header w2 hH
  rw [readHeader_eq, if_neg (H5Gopen_nonneg_of_hasGroup _ _ _ hH)]
  rw [ho] at hwrap ⊢
  obtain ⟨w3, r6, hb, hph, he⟩ := readHeaderBody_of_links r
    ((w.register false (.group ls)).2.log
      (.groupOpened parId Mic.H5Mic.Header (w.nextId : Int))) (w.nextId : Int) ls pl
    (linksOf_register_self w ls) hp hne
  rw [he]
  exact ⟨(hwrap w3 hb).1, hph⟩

theorem hasGroup_true_iff (w : World) (loc : Hid) (name : String) :
    w.hasGroup loc name = true ↔
      ∃ links ls, w.linksOf loc = some links ∧ lookupLink links name = some (.group ls) := by
  unfold World.hasGroup
  cases hl : w.linksOf loc with
  | none => simp
  | some links =>
    simp only [isGroupLink]
    cases ho : lookupLink links name with
    | none => simp [ho]
    | some o => cases o <;> simp [ho]

theorem isGroupLink_true_iff (ls : List (String × H5Obj)) (name : String) :
    isGroupLink ls name = true ↔ ∃ pl, lookupLink ls name = some (.group pl) := by
  unfold isGroupLink
  cases ho : lookupLink ls name with
  | none => simp [ho]
  | some o => cases o <;> simp [ho]

theorem childGroups_nil_filter (pl : List (String × H5Obj)) (h : childGroups pl = []) :
    pl.filter (fun p => isGroupLink pl p.1) = [] := by
  have : (pl.filter (fun p => isGroupLink pl p.1)).map (fun p => p.1) =
      (childGroups pl).map (fun g => g.1) := groupNames_eq_childGroups pl pl
  rw [h] at this
  exact List.map_eq_nil_iff.1 this

/-- A `readHeader` that does not fail ran on a store with a `Header` group
whose `Phases` group has at least one child group. -/
theorem readHeader_success_store (r : H5MicReader) (w : World) (parId : Hid)
    (h : 0 ≤ (r.readHeader w parId).1) :
    ∃ links ls pl, w.linksOf parId = some links ∧
      lookupLink links Mic.H5Mic.Header = some (.group ls) ∧
      lookupLink ls Mic.H5Mic.Phases = some (.group pl) ∧ childGroups pl ≠ [] := by
  cases hH : w.hasGroup parId Mic.H5Mic.Header with
  | false =>
    rw [readHeader_no_header r w parId hH] at h
    exact absurd h (by decide)
  | true =>
    obtain ⟨links, ls, hl, hh⟩ := (hasGroup_true_iff _ _ _).1 hH
    cases hP : isGroupLink ls Mic.H5Mic.Phases with
    | false =>
      rw [(readHeaderExit_without_phases_group r w parId links ls hl hh hP).1] at h
      exact absurd h (by decide)
    | true =>
      obtain ⟨pl, hp⟩ := (isGroupLink_true_iff _ _).1 hP
      refine ⟨links, ls, pl, hl, hh, hp, fun hnil => ?_⟩
      rw [readHeader_no_phases r w parId links ls pl hl hh hp (childGroups_nil_filter pl hnil)]
        at h
      exact absurd h (by decide)

/-- Claim C11. For every store whose `Header` group has a `Phases` group that
enumerates N >= 1 child groups g_1, ..., g_N, `readHeader` succeeds (returns
0) and leaves a phase list of exactly N records, the k-th being the record
parsed from g_k: the list order is the enumeration order. -/
theorem readHeader_reads_one_record_per_phase_group (r : H5MicReader) (w : World)
    (parId : Hid) (links ls pl : List (String × H5Obj))
    (hl : w.linksOf parId = some links)
    (hh : lookupLink links Mic.H5Mic.Header = some (.group ls))
    (hp : lookupLink ls Mic.H5Mic.Phases = some (.group pl))
    (hN : 1 ≤ (childGroups pl).length) :
    (r.readHeader w parId).1 = 0 ∧
    (r.readHeader w parId).2.1.phases.length = (childGroups pl).length ∧
    ∀ k : Nat, (r.readHeader w parId).2.1.phases[k]? =
      ((childGroups pl)[k]?).map (fun g => specPhaseRecord g.2) := by
  have hne : childGroups pl ≠ [] := by
    intro h
    rw [h] at hN
    exact absurd hN (by decide)
  obtain ⟨h0, hph⟩ := readHeader_of_store r w parId links ls pl hl hh hp hne
  refine ⟨h0, ?_, fun k => ?_⟩
  · rw [hph, specPhaseList, List.length_map]
  · rw [hph, specPhaseList, List.getElem?_map]

/-- Witness of claim C11: the sample header with two phase groups. -/
theorem readHeader_reads_one_record_per_phase_group_witness :
    ((H5MicReader.fresh "a.h5" "Scan" true []).readHeader
        (sampleOpenWorld [("Header",
          sampleHeader 4 3 [("1", samplePhase 1), ("2", samplePhase 2)])]) 1).2.1.phases.length
      = (childGroups [("1", samplePhase 1), ("2", samplePhase 2)]).length :=
  (readHeader_reads_one_record_per_phase_group (H5MicReader.fresh "a.h5" "Scan" true [])
    (sampleOpenWorld [("Header", sampleHeader 4 3 [("1", samplePhase 1), ("2", samplePhase 2)])])
    1 [("Header", sampleHeader 4 3 [("1", samplePhase 1), ("2", samplePhase 2)])]
    [("XRes", .floatScalar 7), ("YRes", .floatScalar 8), ("XDim", .intScalar 4),
     ("YDim", .intScalar 3), ("Phases", .group [("1", samplePhase 1), ("2", samplePhase 2)]),
     ("OriginalHeader", .string "hdr")]
    [("1", samplePhase 1), ("2", samplePhase 2)] rfl rfl rfl (by decide)).2.1

/-- Claim C12. The phase list `readHeader` leaves on success does not depend
on the list the reader held before: two readers on the same store end with the
same list, and a second `readHeader` on the world the first one left (with
`parId` an identifier handed out before) ends with the list of the first, not
with that list twice. -/
theorem readHeader_clears_then_fills (r1 r2 : H5MicReader) (w : World) (parId : Hid)
    (h : 0 ≤ (r1.readHeader w parId).1) :
    (r2.readHeader w parId).2.1.phases = (r1.readHeader w parId).2.1.phases ∧
    (∀ k : Nat, parId = (k : Int) → k < w.nextId →
      ((r1.readHeader w parId).2.1.readHeader (r1.readHeader w parId).2.2 parId).2.1.phases =
        (r1.readHeader w parId).2.1.phases) := by
  obtain ⟨links, ls, pl, hl, hh, hp, hne⟩ := readHeader_success_store r1 w parId h
  have h1 := (readHeader_of_store r1 w parId links ls pl hl hh hp hne).2
  have h2 := (readHeader_of_store r2 w parId links ls pl hl hh hp hne).2
  refine ⟨h2.trans h1.symm, fun k hk hlt => ?_⟩
  subst hk
  have hl2 := ((readHeader_balanced r1 w (k : Int)).linksOf_eq k hlt).1
  rw [(readHeader_of_store _ _ (k : Int) links ls pl (hl2.trans hl) hh hp hne).2, h1]

set_option maxRecDepth 1000000 in
/-- Witness of claim C12: a reader that holds a stale phase record and a fresh
reader end with the same phase list on the sample header. -/
theorem readHeader_clears_then_fills_witness :
    ({ H5MicReader.fresh "a.h5" "Scan" true [] with phases := [MicPhase.New] }.readHeader
        (sampleOpenWorld [("Header",
          sampleHeader 4 3 [("1", samplePhase 1), ("2", samplePhase 2)])]) 1).2.1.phases =
    ((H5MicReader.fresh "a.h5" "Scan" true []).readHeader
        (sampleOpenWorld [("Header",
          sampleHeader 4 3 [("1", samplePhase 1), ("2", samplePhase 2)])]) 1).2.1.phases :=
  (readHeader_clears_then_fills (H5MicReader.fresh "a.h5" "Scan" true [])
    { H5MicReader.fresh "a.h5" "Scan" true [] with phases := [MicPhase.New] }
    (sampleOpenWorld [("Header", sampleHeader 4 3 [("1", samplePhase 1), ("2", samplePhase 2)])])
    1 (by decide)).1

/-! ## `readData` releases before it allocates (claim C13) -/

theorem liveArrays_append (a b : List HeapEvent) :
    liveArrays (a ++ b) = liveArrays a + liveArrays b := by
  simp [liveArrays]

theorem liveArrays_freed (l : List Column) :
    liveArrays (l.map (fun c => HeapEvent.freed c)) = -(l.length : Int) := by
  induction l with
  | nil => rfl
  | cons c rest ih =>
    have : liveArrays ((c :: rest).map (fun c => HeapEvent.freed c)) =
        -1 + liveArrays (rest.map (fun c => HeapEvent.freed c)) := by
      simp [liveArrays, HeapEvent.delta]
    rw [this, ih, List.length_cons]
    push_cast
    ring

theorem liveArrays_allocated (l : List Column) (n : Nat) :
    liveArrays (l.map (fun c => HeapEvent.allocated c n)) = (l.length : Int) := by
  induction l with
  | nil => rfl
  | cons c rest ih =>
    have : liveArrays ((c :: rest).map (fun c => HeapEvent.allocated c n)) =
        1 + liveArrays (rest.map (fun c => HeapEvent.allocated c n)) := by
      simp [liveArrays, HeapEvent.delta]
    rw [this, ih, List.length_cons]
    push_cast
    ring

theorem setColumns_length_le (r : H5MicReader) : r.setColumns.length ≤ 7 := by
  unfold H5MicReader.setColumns
  exact le_trans (List.length_filter_le _ _) (by decide)

theorem readPointerDataset_heapTrace (w : World) (loc : Hid) (name : String) (buf : Buffer) :
    (H5Lite.readPointerDataset w loc name buf).2.heapTrace = w.heapTrace := by
  unfold H5Lite.readPointerDataset
  split <;> rfl

theorem H5Gopen_heapTrace (w : World) (loc : Hid) (name : String) :
    (H5Gopen w loc name).2.heapTrace = w.heapTrace := by
  cases h : w.hasGroup loc name with
  | true =>
    obtain ⟨ls, ho⟩ := H5Gopen_eq_of_hasGroup w loc name h
    rw [ho]
    rfl
  | false =>
    rw [H5Gopen_of_not_hasGroup w loc name h]
    rfl

theorem H5Gclose_heapTrace (w : World) (id : Hid) :
    (H5Gclose w id).2.heapTrace = w.heapTrace := by
  unfold H5Gclose
  split
  · split <;> rfl
  · rfl

/-- One column step on a null column: the heap record gains the allocation of
the column exactly when the column ends up set. -/
theorem allocateAndRead_heapTrace (c : Column) (n nb : Nat) (gid : Hid) (s : St)
    (hnone : s.2.1.cols c = none) :
    (allocateAndRead c n nb gid s).2.2.heapTrace =
      s.2.2.heapTrace ++
        (if ((allocateAndRead c n nb gid s).2.1.cols c).isSome = true
          then [HeapEvent.allocated c n] else []) := by
  by_cases hw : s.2.1.wanted c
  · cases ha : s.2.2.canAllocate c n with
    | true =>
      obtain ⟨buf, hb, _⟩ := allocateAndRead_cols_wanted c n nb gid s hw ha
      rw [hb]
      obtain ⟨buf0, hb0, _⟩ := allocateArray_some s.2.2 c n ha
      unfold allocateAndRead
      rw [if_pos hw]
      simp only [hb0, readPointerDataset_heapTrace, Option.isSome_some, if_true]
      unfold allocateArray
      rw [if_pos ha]
    | false =>
      rw [allocateAndRead_cols_noalloc c n nb gid s hw ha]
      have hb0 := allocateArray_none s.2.2 c n ha
      unfold allocateAndRead
      rw [if_pos hw]
      simp only [hb0, Option.isSome_none, Bool.false_eq_true, if_false, List.append_nil]
      unfold allocateArray
      simp [ha]
  · rw [allocateAndRead_cols_unwanted c n nb gid s hw, hnone]
    unfold allocateAndRead
    rw [if_neg hw]
    simp

/-- The column steps on null columns: the heap record gains, in order, the
allocations of exactly the columns that end up set. -/
theorem readColumns_heapTrace (n nb : Nat) (gid : Hid) (cs : List Column) (hnd : cs.Nodup)
    (s : St) (hnone : ∀ c ∈ cs, s.2.1.cols c = none) :
    (readColumns n nb gid cs s).2.2.heapTrace =
      s.2.2.heapTrace ++
        (cs.filter (fun c => ((readColumns n nb gid cs s).2.1.cols c).isSome)).map
          (fun c => HeapEvent.allocated c n) := by
  induction cs generalizing s with
  | nil => simp [readColumns]
  | cons c rest ih =>
    rw [List.nodup_cons] at hnd
    have hstep := allocateAndRead_heapTrace c n nb gid s (hnone c (List.mem_cons_self _ _))
    have hrest : ∀ c2 ∈ rest, (allocateAndRead c n nb gid s).2.1.cols c2 = none := by
      intro c2 h2
      have hne : c2 ≠ c := fun h => hnd.1 (h ▸ h2)
      rw [allocateAndRead_cols_ne c c2 n nb gid s hne]
      exact hnone c2 (List.mem_cons_of_mem _ h2)
    have hkeep := readColumns_cols_keep n nb gid rest (allocateAndRead c n nb gid s) c
      (Or.inl hnd.1)
    rw [readColumns_cons, ih hnd.2 _ hrest, hstep, List.filter_cons, hkeep]
    by_cases hset : ((allocateAndRead c n nb gid s).2.1.cols c).isSome = true
    · simp [hset]
    · simp [hset]

theorem setColumns_of_null (r : H5MicReader) (h : ∀ c, r.cols c = none) : r.setColumns = [] := by
  unfold H5MicReader.setColumns H5MicReader.isSet
  simp [h]

/-- The heap calls of `readData`: first the releases of the columns held
before, then the allocations of exactly the columns set afterwards. -/
theorem readData_heapTrace (r : H5MicReader) (w : World) (parId : Hid) :
    (r.readData w parId).2.2.heapTrace =
      w.heapTrace ++ (r.setColumns.map (fun c => HeapEvent.freed c) ++
        (r.readData w parId).2.1.setColumns.map
          (fun c => HeapEvent.allocated c r.totalDataRows)) := by
  have hd : (r.deletePointers w).2.heapTrace =
      w.heapTrace ++ r.setColumns.map (fun c => HeapEvent.freed c) := rfl
  have hnull : (r.deletePointers w).1.setColumns = [] := setColumns_of_null _ (fun _ => rfl)
  by_cases hy : toSizeT r.yDim < 1
  · rw [readData_of_yDim_lt r w parId hy]
    simp only [hnull, hd, List.map_nil, List.append_nil]
  · by_cases ho : (H5Gopen (r.deletePointers w).2 parId Mic.H5Mic.Data).1 < 0
    · rw [readData_of_open_failed r w parId hy ho]
      simp only [hnull, H5Gopen_heapTrace, hd, List.map_nil, List.append_nil]
    · rw [readData_of_open r w parId hy ho]
      simp only [H5Gclose_heapTrace]
      unfold readDataColumns
      rw [readColumns_heapTrace _ _ _ _ Column.all_nodup _ (fun _ _ => rfl)]
      simp only [H5Gopen_heapTrace, hd, List.append_assoc]
      rfl

theorem liveArrays_take_freed_allocated (l1 l2 : List Column) (n k : Nat)
    (h1 : l1.length ≤ 7) (h2 : l2.length ≤ 7) :
    (l1.length : Int) + liveArrays ((l1.map (fun c => HeapEvent.freed c) ++
        l2.map (fun c => HeapEvent.allocated c n)).take k) ≤ 7 := by
  rw [List.take_append_eq_append_take, liveArrays_append, ← List.map_take, ← List.map_take,
    liveArrays_freed, liveArrays_allocated, List.length_map]
  simp only [List.length_take]
  omega

/-- Claim C13. `readData` first releases every array the reader held and only
then allocates: its heap calls are the releases of the columns set before,
followed by the allocations of exactly the columns set when it returns, on the
success path and on both failure exits. Hence, for a reader that owns the live
arrays, the reader again owns the live arrays afterwards, and at no point of
the run are more than seven arrays live. -/
theorem readData_releases_before_it_allocates (r : H5MicReader) (w : World) (parId : Hid)
    (hown : liveArrays w.heapTrace = (r.setColumns.length : Int)) :
    (r.readData w parId).2.2.heapTrace =
      w.heapTrace ++ (r.setColumns.map (fun c => HeapEvent.freed c) ++
        (r.readData w parId).2.1.setColumns.map
          (fun c => HeapEvent.allocated c r.totalDataRows)) ∧
    liveArrays (r.readData w parId).2.2.heapTrace =
      ((r.readData w parId).2.1.setColumns.length : Int) ∧
    ∀ k : Nat,
      liveArrays (w.heapTrace ++ (r.setColumns.map (fun c => HeapEvent.freed c) ++
        (r.readData w parId).2.1.setColumns.map
          (fun c => HeapEvent.allocated c r.totalDataRows)).take k) ≤ 7 := by
  have ht := readData_heapTrace r w parId
  refine ⟨ht, ?_, fun k => ?_⟩
  · rw [ht, liveArrays_append, liveArrays_append, liveArrays_freed, liveArrays_allocated, hown]
    ring
  · rw [liveArrays_append, hown]
    exact liveArrays_take_freed_allocated _ _ _ k (setColumns_length_le _)
      (setColumns_length_le _)

set_option maxRecDepth 1000000 in
/-- Witness of claim C13: a second `readData` on the reader and the world a
first `readData` left, started from a fresh reader and an empty heap record. -/
theorem readData_releases_before_it_allocates_witness :
    liveArrays
      ((((sampleReader 4 3 true []).readData
          (sampleOpenWorld [("Data", sampleData 12)]) 1).2.1).readData
        (((sampleReader 4 3 true []).readData
          (sampleOpenWorld [("Data", sampleData 12)]) 1).2.2) 1).2.2.heapTrace = 7 :=
  (readData_releases_before_it_allocates
    (((sampleReader 4 3 true []).readData (sampleOpenWorld [("Data", sampleData 12)]) 1).2.1)
    (((sampleReader 4 3 true []).readData (sampleOpenWorld [("Data", sampleData 12)]) 1).2.2)
    1 (by decide)).2.1.trans (by decide)

/-! ## `readHeaderOnly` never works below the internal group except to open
`Header` (claim C14) -/

theorem Above.nothingAdded (lo : Int) (w : World) : Above lo w w :=
  ⟨[], (List.append_nil _).symm, fun _ h => absurd h (List.not_mem_nil _)⟩

theorem Above.followedBy {lo : Int} {w w1 w2 : World} (h1 : Above lo w w1) (h2 : Above lo w1 w2) :
    Above lo w w2 := by
  obtain ⟨es1, t1, q1⟩ := h1
  obtain ⟨es2, t2, q2⟩ := h2
  refine ⟨es1 ++ es2, by rw [t2, t1, List.append_assoc], fun e he => ?_⟩
  rcases List.mem_append.1 he with h | h
  · exact q1 e h
  · exact q2 e h

theorem Above.logged (lo : Int) (w : World) (e : H5Event)
    (h : ∀ l, H5Event.loc e = some l → l < 0 ∨ lo ≤ l) : Above lo w (w.log e) :=
  ⟨[e], rfl, fun e2 he => by rw [List.mem_singleton.1 he]; exact h⟩

theorem Above.of_trace {lo : Int} {w w2 : World} (h : w2.trace = w.trace) : Above lo w w2 :=
  ⟨[], by rw [h, List.append_nil], fun _ h => absurd h (List.not_mem_nil _)⟩

theorem loc_at (lo l : Int) (h : l < 0 ∨ lo ≤ l) (l2 : Int) (e : some l = some l2) :
    l2 < 0 ∨ lo ≤ l2 := by
  cases e
  exact h

theorem readScalarInt_above (lo : Int) (w : World) (loc : Hid) (name : String)
    (h : loc < 0 ∨ lo ≤ loc) : Above lo w (H5Lite.readScalarInt w loc name).2 := by
  unfold H5Lite.readScalarInt
  split <;> exact Above.logged _ _ _ (loc_at lo loc h)

theorem readScalarFloat_above (lo : Int) (w : World) (loc : Hid) (name : String)
    (h : loc < 0 ∨ lo ≤ loc) : Above lo w (H5Lite.readScalarFloat w loc name).2 := by
  unfold H5Lite.readScalarFloat
  split <;> exact Above.logged _ _ _ (loc_at lo loc h)

theorem readStringDataset_above (lo : Int) (w : World) (loc : Hid) (name s : String)
    (h : loc < 0 ∨ lo ≤ loc) : Above lo w (H5Lite.readStringDataset w loc name s).2 := by
  unfold H5Lite.readStringDataset
  split <;> exact Above.logged _ _ _ (loc_at lo loc h)

theorem readVectorFloat_above (lo : Int) (w : World) (loc : Hid) (name : String)
    (h : loc < 0 ∨ lo ≤ loc) : Above lo w (H5Lite.readVectorFloat w loc name).2 := by
  unfold H5Lite.readVectorFloat
  split <;> exact Above.logged _ _ _ (loc_at lo loc h)

theorem getGroupObjects_above (lo : Int) (w : World) (loc : Hid)
    (h : loc < 0 ∨ lo ≤ loc) : Above lo w (H5Utilities.getGroupObjects w loc).2 := by
  unfold H5Utilities.getGroupObjects
  split <;> exact Above.logged _ _ _ (loc_at lo loc h)

theorem H5Gopen_above (lo : Int) (w : World) (loc : Hid) (name : String)
    (h : loc < 0 ∨ lo ≤ loc) : Above lo w (H5Gopen w loc name).2 := by
  cases hg : w.hasGroup loc name with
  | true =>
    obtain ⟨ls, ho⟩ := H5Gopen_eq_of_hasGroup w loc name hg
    rw [ho]
    exact ⟨[_], rfl, fun e2 he => by rw [List.mem_singleton.1 he]; exact loc_at lo loc h⟩
  | false =>
    rw [H5Gopen_of_not_hasGroup w loc name hg]
    exact Above.logged _ _ _ (loc_at lo loc h)

theorem H5Gclose_above (lo : Int) (w : World) (id : Hid) : Above lo w (H5Gclose w id).2 := by
  unfold H5Gclose
  split
  · split
    · exact Above.logged _ _ _ (fun _ h => absurd h (by simp [H5Event.loc]))
    · exact ⟨[_], rfl, fun e2 he => by
        rw [List.mem_singleton.1 he]; exact fun _ h => absurd h (by simp [H5Event.loc])⟩
  · exact Above.logged _ _ _ (fun _ h => absurd h (by simp [H5Event.loc]))

/-- The identifier `H5Gopen` returns is invalid or the next fresh one. -/
theorem H5Gopen_id (w : World) (loc : Hid) (name : String) :
    (H5Gopen w loc name).1 < 0 ∨ (H5Gopen w loc name).1 = (w.nextId : Int) := by
  cases hg : w.hasGroup loc name with
  | true => exact Or.inr (H5Gopen_of_hasGroup w loc name hg).1
  | false => exact Or.inl ((H5Gopen_neg_iff _ _ _).2 hg)

/-- The counter after `H5Gopen` is not below the counter before. -/
theorem H5Gopen_nextId_le (w : World) (loc : Hid) (name : String) :
    w.nextId ≤ (H5Gopen w loc name).2.nextId := by
  cases hg : w.hasGroup loc name with
  | true => rw [(H5Gopen_of_hasGroup w loc name hg).2.2.1]; exact Nat.le_succ _
  | false => rw [H5Gopen_of_not_hasGroup w loc name hg]; exact le_refl _

theorem readPhaseHeaderData_above (lo : Int) (w : World) (pid : Hid) (key : String)
    (ph : MicPhase) (h : pid < 0 ∨ lo ≤ pid) :
    Above lo w (readPhaseHeaderData w pid key ph).2.2 := by
  unfold readPhaseHeaderData
  simp only []
  split <;> exact readScalarInt_above lo _ _ _ h

theorem readPhaseHeaderArray_above (lo : Int) (w : World) (pid : Hid) (key : String)
    (ph : MicPhase) (h : pid < 0 ∨ lo ≤ pid) :
    Above lo w (readPhaseHeaderArray w pid key ph).2.2 := by
  unfold readPhaseHeaderArray
  simp only []
  split <;> exact readVectorFloat_above lo _ _ _ h

theorem readPhaseStringData_above (lo : Int) (set : MicPhase → String → MicPhase) (w : World)
    (pid : Hid) (key : String) (ph : MicPhase) (h : pid < 0 ∨ lo ≤ pid) :
    Above lo w (readPhaseStringData set w pid key ph).2.2 := by
  unfold readPhaseStringData
  simp only []
  split <;> exact readStringDataset_above lo _ _ _ _ h

theorem readPhase_above (lo : Int) (phasesGid : Hid) (n : String) (s : St)
    (hg : phasesGid < 0 ∨ lo ≤ phasesGid) (hn : lo ≤ (s.2.2.nextId : Int)) :
    Above lo s.2.2 (readPhase phasesGid n s).2.2 := by
  have hp : (H5Gopen s.2.2 phasesGid n).1 < 0 ∨ lo ≤ (H5Gopen s.2.2 phasesGid n).1 := by
    rcases H5Gopen_id s.2.2 phasesGid n with h | h
    · exact Or.inl h
    · exact Or.inr (h ▸ hn)
  unfold readPhase
  simp only []
  exact (H5Gopen_above lo _ _ _ hg).followedBy
    ((((readPhaseHeaderData_above lo _ _ _ _ hp).followedBy
      (readPhaseHeaderArray_above lo _ _ _ _ hp)).followedBy
      ((readPhaseStringData_above lo _ _ _ _ _ hp).followedBy
        (readPhaseStringData_above lo _ _ _ _ _ hp))).followedBy (H5Gclose_above lo _ _))

theorem readPhases_above (lo : Int) (phasesGid : Hid) (names : List String) (s : St)
    (hg : phasesGid < 0 ∨ lo ≤ phasesGid) (hn : lo ≤ (s.2.2.nextId : Int)) :
    Above lo s.2.2 (readPhases phasesGid names s).2.2 := by
  induction names generalizing s with
  | nil => exact Above.nothingAdded _ _
  | cons n rest ih =>
    have hb := (readPhase_balanced phasesGid n s).2
    obtain ⟨_, _, sc⟩ := hb
    have hle : s.2.2.nextId ≤ (readPhase phasesGid n s).2.2.nextId := sc.1
    exact (readPhase_above lo phasesGid n s hg hn).followedBy
      (ih _ (le_trans hn (Int.ofNat_le.2 hle)))

theorem readEbsdHeaderFloat_above (lo : Int) (set : H5MicReader → F32 → H5MicReader)
    (key : String) (gid : Hid) (s : St) (h : gid < 0 ∨ lo ≤ gid) :
    Above lo s.2.2 (readEbsdHeaderFloat set key gid s).2.2 := by
  unfold readEbsdHeaderFloat
  simp only []
  split <;> exact readScalarFloat_above lo _ _ _ h

theorem readEbsdHeaderInt_above (lo : Int) (set : H5MicReader → Int → H5MicReader)
    (key : String) (gid : Hid) (s : St) (h : gid < 0 ∨ lo ≤ gid) :
    Above lo s.2.2 (readEbsdHeaderInt set key gid s).2.2 := by
  unfold readEbsdHeaderInt
  simp only []
  split <;> exact readScalarInt_above lo _ _ _ h

theorem readHeaderScalars_above (lo : Int) (r : H5MicReader) (w : World) (gid : Hid)
    (h : gid < 0 ∨ lo ≤ gid) : Above lo w (readHeaderScalars r w gid).2.2 :=
  ((readEbsdHeaderFloat_above lo _ _ _ (-1, r, w) h).followedBy
    (readEbsdHeaderFloat_above lo _ _ _ _ h)).followedBy
    ((readEbsdHeaderInt_above lo _ _ _ _ h).followedBy (readEbsdHeaderInt_above lo _ _ _ _ h))

theorem readHeaderPhases_above (lo : Int) (r4 : H5MicReader) (w : World) (gid phasesGid : Hid)
    (hg : gid < 0 ∨ lo ≤ gid) (hp : phasesGid < 0 ∨ lo ≤ phasesGid)
    (hn : lo ≤ (w.nextId : Int)) :
    Above lo w (readHeaderPhases r4 w gid phasesGid).2.2 := by
  have hl := getGroupObjects_above lo w phasesGid hp
  have hn2 : lo ≤ ((H5Utilities.getGroupObjects w phasesGid).2.nextId : Int) := by
    have := (getGroupObjects_balanced w phasesGid).2
    obtain ⟨_, _, sc⟩ := this
    exact le_trans hn (Int.ofNat_le.2 sc.1)
  unfold readHeaderPhases
  simp only []
  split
  · exact hl.followedBy ((H5Gclose_above lo _ _).followedBy (H5Gclose_above lo _ _))
  · exact hl.followedBy (((readPhases_above lo phasesGid _ (_, _, _) hp hn2).followedBy
      (readStringDataset_above lo _ _ _ _ hg)).followedBy
      ((H5Gclose_above lo _ _).followedBy (H5Gclose_above lo _ _)))

theorem readHeaderBody_above (lo : Int) (r : H5MicReader) (w : World) (gid : Hid)
    (hg : gid < 0 ∨ lo ≤ gid) (hn : lo ≤ (w.nextId : Int)) :
    Above lo w (readHeaderBody r w gid).2.2 := by
  have hs := readHeaderScalars_above lo r w gid hg
  obtain ⟨_, qn, _⟩ := readHeaderScalars_quiet r w gid
  have hn4 : lo ≤ ((readHeaderScalars r w gid).2.2.nextId : Int) := by rw [qn]; exact hn
  have hop := H5Gopen_above lo (readHeaderScalars r w gid).2.2 gid Mic.H5Mic.Phases hg
  have hid := H5Gopen_id (readHeaderScalars r w gid).2.2 gid Mic.H5Mic.Phases
  have hle := H5Gopen_nextId_le (readHeaderScalars r w gid).2.2 gid Mic.H5Mic.Phases
  unfold readHeaderBody
  simp only []
  split
  · exact hs.followedBy (hop.followedBy (H5Gclose_above lo _ _))
  · refine hs.followedBy (hop.followedBy (readHeaderPhases_above lo _ _ _ _ hg ?_ ?_))
    · rcases hid with h | h
      · exact Or.inl h
      · exact Or.inr (h ▸ hn4)
    · exact le_trans hn4 (Int.ofNat_le.2 hle)

/-- The calls of `readHeader`: the open attempt on `Header` below `parId`, and
calls below identifiers that are invalid or were handed out by `readHeader`
itself. -/
theorem readHeader_calls (r : H5MicReader) (w : World) (parId : Hid) :
    ∃ es, (r.readHeader w parId).2.2.trace = w.trace ++ es ∧
      ∀ e ∈ es,
        (e = .groupOpened parId Mic.H5Mic.Header (w.nextId : Int) ∨
         e = .groupOpenFailed parId Mic.H5Mic.Header) ∨
        (∀ l, H5Event.loc e = some l → l < 0 ∨ (w.nextId : Int) ≤ l) := by
  rw [readHeader_eq]
  cases hH : w.hasGroup parId Mic.H5Mic.Header with
  | false =>
    rw [if_pos ((H5Gopen_neg_iff _ _ _).2 hH), H5Gopen_of_not_hasGroup w _ _ hH]
    exact ⟨[_], rfl, fun e he => Or.inl (Or.inr (List.mem_singleton.1 he))⟩
  | true =>
    rw [if_neg (H5Gopen_nonneg_of_hasGroup _ _ _ hH)]
    obtain ⟨ls, ho⟩ := H5Gopen_eq_of_hasGroup w parId Mic.H5Mic.Header hH
    rw [ho]
    obtain ⟨es, ht, hq⟩ := readHeaderBody_above (w.nextId : Int) r
      ((w.register false (.group ls)).2.log
        (.groupOpened parId Mic.H5Mic.Header (w.nextId : Int))) (w.nextId : Int)
      (Or.inr (le_refl _)) (Int.ofNat_le.2 (Nat.le_succ _))
    refine ⟨.groupOpened parId Mic.H5Mic.Header (w.nextId : Int) :: es, ?_, fun e he => ?_⟩
    · rw [ht]
      simp [World.log, World.register]
    · rcases List.mem_cons.1 he with h | h
      · exact Or.inl (Or.inl h)
      · exact Or.inr (hq e h)

/-! ### What `readHeader` leaves alone in the reader -/

theorem readPhase_frame (phasesGid : Hid) (n : String) (s : St) :
    (readPhase phasesGid n s).2.1.cols = s.2.1.cols ∧
    (readPhase phasesGid n s).2.1.numberOfElements = s.2.1.numberOfElements :=
  ⟨rfl, rfl⟩

theorem readPhases_frame (phasesGid : Hid) (names : List String) (s : St) :
    (readPhases phasesGid names s).2.1.cols = s.2.1.cols ∧
    (readPhases phasesGid names s).2.1.numberOfElements = s.2.1.numberOfElements := by
  induction names generalizing s with
  | nil => exact ⟨rfl, rfl⟩
  | cons n rest ih =>
    obtain ⟨h1, h2⟩ := ih (readPhase phasesGid n s)
    exact ⟨h1, h2⟩

theorem readHeaderPhases_frame (r4 : H5MicReader) (w : World) (gid phasesGid : Hid) :
    (readHeaderPhases r4 w gid phasesGid).2.1.cols = r4.cols ∧
    (readHeaderPhases r4 w gid phasesGid).2.1.numberOfElements = r4.numberOfElements := by
  unfold readHeaderPhases
  simp only []
  split
  · exact ⟨rfl, rfl⟩
  · exact readPhases_frame _ _ (_, _, _)

theorem readHeaderBody_frame (r : H5MicReader) (w : World) (gid : Hid) :
    (readHeaderBody r w gid).2.1.cols = r.cols ∧
    (readHeaderBody r w gid).2.1.numberOfElements = r.numberOfElements := by
  have hf := readHeaderScalars_frame r w gid
  have hc : (readHeaderScalars r w gid).2.1.cols = r.cols := congrArg (fun t => t.2.1) hf
  have hn : (readHeaderScalars r w gid).2.1.numberOfElements = r.numberOfElements :=
    congrArg (fun t => t.2.2.1) hf
  unfold readHeaderBody
  simp only []
  split
  · exact ⟨hc, hn⟩
  · obtain ⟨h1, h2⟩ := readHeaderPhases_frame (readHeaderScalars r w gid).2.1
      (H5Gopen (readHeaderScalars r w gid).2.2 gid Mic.H5Mic.Phases).2 gid
      (H5Gopen (readHeaderScalars r w gid).2.2 gid Mic.H5Mic.Phases).1
    exact ⟨h1.trans hc, h2.trans hn⟩

/-- Operation `readHeader` never writes a column or the number of elements. -/
theorem readHeader_frame (r : H5MicReader) (w : World) (parId : Hid) :
    (r.readHeader w parId).2.1.cols = r.cols ∧
    (r.readHeader w parId).2.1.numberOfElements = r.numberOfElements := by
  rw [readHeader_eq]
  split
  · exact ⟨rfl, rfl⟩
  · exact readHeaderBody_frame _ _ _

theorem closeFile_trace (w : World) (id : Hid) :
    ∃ ok, (H5Utilities.closeFile w id).2.trace = w.trace ++ [.fileClosed id ok] := by
  unfold H5Utilities.closeFile
  split
  · split
    · exact ⟨true, rfl⟩
    · exact ⟨false, rfl⟩
  · exact ⟨false, rfl⟩

/-- The calls and the frame of `readHeaderOnly`, in full. -/
theorem readHeaderOnly_calls (r : H5MicReader) (w : World) :
    (r.readHeaderOnly w).2.1.cols = r.cols ∧
    (r.readHeaderOnly w).2.1.numberOfElements = r.numberOfElements ∧
    ∃ es, (r.readHeaderOnly w).2.2.trace = w.trace ++ es ∧
      ∀ e ∈ es, H5Event.loc e = some ((w.nextId : Int) + 1) →
        e = .groupOpened ((w.nextId : Int) + 1) Mic.H5Mic.Header ((w.nextId : Int) + 2) ∨
        e = .groupOpenFailed ((w.nextId : Int) + 1) Mic.H5Mic.Header := by
  unfold H5MicReader.readHeaderOnly
  simp only []
  split
  · exact ⟨rfl, rfl, [], (List.append_nil _).symm, fun _ h => absurd h (List.not_mem_nil _)⟩
  · cases hf : w.files r.fileName with
    | none =>
      rw [openFile_eq_of_none w _ hf]
      simp only [show ((-1 : Int) < 0) from by decide, if_true]
      refine ⟨rfl, rfl, [_], rfl, fun e he hl => ?_⟩
      rw [List.mem_singleton.1 he] at hl
      simp [H5Event.loc] at hl
    | some root =>
      rw [if_neg (openFile_nonneg w _ root hf), openFile_eq_of_some w _ root hf]
      simp only []
      cases hg : World.hasGroup ((w.register true root).2.log
          (.fileOpened r.fileName (w.nextId : Int))) (w.nextId : Int) r.hdf5Path with
      | false =>
        rw [if_pos ((H5Gopen_neg_iff _ _ _).2 hg), H5Gopen_of_not_hasGroup _ _ _ hg]
        obtain ⟨ok, hc⟩ := closeFile_trace
          (((w.register true root).2.log (.fileOpened r.fileName (w.nextId : Int))).log
            (.groupOpenFailed (w.nextId : Int) r.hdf5Path)) (w.nextId : Int)
        refine ⟨rfl, rfl, [.fileOpened r.fileName (w.nextId : Int),
          .groupOpenFailed (w.nextId : Int) r.hdf5Path, .fileClosed (w.nextId : Int) ok],
          ?_, fun e he hl => ?_⟩
        · rw [hc]
          simp [World.log, World.register]
        · simp only [List.mem_cons, List.mem_singleton, List.not_mem_nil, or_false] at he
          rcases he with h | h | h <;> rw [h] at hl <;> simp [H5Event.loc] at hl
      | true =>
        rw [if_neg (H5Gopen_nonneg_of_hasGroup _ _ _ hg)]
        obtain ⟨ls, ho⟩ := H5Gopen_eq_of_hasGroup _ _ _ hg
        rw [ho]
        simp only []
        have hn1 : World.nextId ((w.register true root).2.log
            (.fileOpened r.fileName (w.nextId : Int))) = w.nextId + 1 := rfl
        generalize hW : (World.register ((w.register true root).2.log
            (.fileOpened r.fileName (w.nextId : Int))) false (.group ls)).2.log
            (.groupOpened (w.nextId : Int) r.hdf5Path
              ((World.nextId ((w.register true root).2.log
                (.fileOpened r.fileName (w.nextId : Int))) : Nat) : Int)) = W2
        have hW2t : W2.trace = w.trace ++ [.fileOpened r.fileName (w.nextId : Int),
            .groupOpened (w.nextId : Int) r.hdf5Path ((w.nextId : Int) + 1)] := by
          rw [← hW]
          simp [World.log, World.register]
        have hW2n : (W2.nextId : Int) = (w.nextId : Int) + 2 := by
          rw [← hW]
          simp only [World.log, World.register]
          push_cast
          ring
        rw [hn1]
        have hcast : (((w.nextId + 1 : Nat) : Int)) = (w.nextId : Int) + 1 := by push_cast; rfl
        rw [hcast]
        obtain ⟨esh, hth, hqh⟩ := readHeader_calls r W2 ((w.nextId : Int) + 1)
        obtain ⟨ok, hc⟩ := closeFile_trace
          (r.readHeader W2 ((w.nextId : Int) + 1)).2.2 (w.nextId : Int)
        obtain ⟨hfc, hfn⟩ := readHeader_frame r W2 ((w.nextId : Int) + 1)
        refine ⟨hfc, hfn, [.fileOpened r.fileName (w.nextId : Int),
          .groupOpened (w.nextId : Int) r.hdf5Path ((w.nextId : Int) + 1)] ++ esh ++
          [.fileClosed (w.nextId : Int) ok], ?_, fun e he hl => ?_⟩
        · rw [hc, hth, hW2t]
          simp [List.append_assoc]
        · simp only [List.mem_append, List.mem_cons, List.mem_singleton, List.not_mem_nil,
            or_false] at he
          rcases he with (h | h) | h
          · rcases h with h | h <;> rw [h] at hl <;> simp [H5Event.loc] at hl
          · rcases hqh e h with h2 | h2
            · rw [hW2n] at h2
              exact h2
            · rcases h2 _ hl with h3 | h3
              · have hnn : (0 : Int) ≤ (w.nextId : Int) + 1 := by
                  have := Int.ofNat_nonneg w.nextId
                  omega
                exact absurd h3 (not_lt.2 hnn)
              · rw [hW2n] at h3
                omega
          · rw [h] at hl
            simp [H5Event.loc] at hl

/-- Claim C14. For every store, configuration and prior reader state,
`readHeaderOnly` leaves all seven columns and the number of elements as they
were, and of the calls it adds to the record the only one made below the
identifier of the internal group (the second identifier handed out) is the
open of `Header`: no open of `Data` is attempted, with or without success, so
no identifier of the `Data` group ever exists to list or to read from. -/
theorem readHeaderOnly_never_touches_data (r : H5MicReader) (w : World) :
    (∀ c, (r.readHeaderOnly w).2.1.cols c = r.cols c) ∧
    (r.readHeaderOnly w).2.1.numberOfElements = r.numberOfElements ∧
    ∃ es, (r.readHeaderOnly w).2.2.trace = w.trace ++ es ∧
      (∀ e ∈ es, H5Event.loc e = some ((w.nextId : Int) + 1) →
        e = .groupOpened ((w.nextId : Int) + 1) Mic.H5Mic.Header ((w.nextId : Int) + 2) ∨
        e = .groupOpenFailed ((w.nextId : Int) + 1) Mic.H5Mic.Header) ∧
      (∀ id, H5Event.groupOpened ((w.nextId : Int) + 1) Mic.H5Mic.Data id ∉ es) ∧
      H5Event.groupOpenFailed ((w.nextId : Int) + 1) Mic.H5Mic.Data ∉ es := by
  obtain ⟨hc, hn, es, ht, hq⟩ := readHeaderOnly_calls r w
  refine ⟨fun c => congrFun hc c, hn, es, ht, hq, fun id hmem => ?_, fun hmem => ?_⟩
  · rcases hq _ hmem rfl with h | h
    · have : Mic.H5Mic.Data = Mic.H5Mic.Header := by injection h
      exact absurd this (by decide)
    · exact H5Event.noConfusion h
  · rcases hq _ hmem rfl with h | h
    · exact H5Event.noConfusion h
    · have : Mic.H5Mic.Data = Mic.H5Mic.Header := by injection h
      exact absurd this (by decide)

/-! ## The empty internal path (claims C15 and C16) -/

/-- Claim C15. With an empty internal group path both `readFile` and
`readHeaderOnly` return a negative code (-1 and -102), leave the world as it
is (no file is opened, no group is opened, no call is recorded) and leave the
header fields, the phase list and the columns of the reader unchanged. -/
theorem empty_path_fails_before_any_store_call (r : H5MicReader) (w : World)
    (h : r.hdf5Path = "") :
    ((r.readFile w).1 < 0 ∧ (r.readFile w).2.2 = w ∧
      (r.readFile w).2.1.xRes = r.xRes ∧ (r.readFile w).2.1.yRes = r.yRes ∧
      (r.readFile w).2.1.xDim = r.xDim ∧ (r.readFile w).2.1.yDim = r.yDim ∧
      (r.readFile w).2.1.originalHeader = r.originalHeader ∧
      (r.readFile w).2.1.phases = r.phases ∧ (r.readFile w).2.1.cols = r.cols) ∧
    ((r.readHeaderOnly w).1 < 0 ∧ (r.readHeaderOnly w).2.2 = w ∧
      (r.readHeaderOnly w).2.1.xRes = r.xRes ∧ (r.readHeaderOnly w).2.1.yRes = r.yRes ∧
      (r.readHeaderOnly w).2.1.xDim = r.xDim ∧ (r.readHeaderOnly w).2.1.yDim = r.yDim ∧
      (r.readHeaderOnly w).2.1.originalHeader = r.originalHeader ∧
      (r.readHeaderOnly w).2.1.phases = r.phases ∧ (r.readHeaderOnly w).2.1.cols = r.cols) := by
  constructor
  · rw [readFile_empty_path r w h]
    exact ⟨show (-1 : Int) < 0 by decide, rfl, rfl, rfl, rfl, rfl, rfl, rfl, rfl⟩
  · unfold H5MicReader.readHeaderOnly
    rw [if_pos h]
    exact ⟨show (-102 : Int) < 0 by decide, rfl, rfl, rfl, rfl, rfl, rfl, rfl, rfl⟩

/-- Witness of claim C15: a reader configured with the empty path. -/
theorem empty_path_fails_before_any_store_call_witness :
    ((H5MicReader.fresh "a.h5" "" true []).readFile (sampleWorld sampleRoot)).1 < 0 ∧
    ((H5MicReader.fresh "a.h5" "" true []).readHeaderOnly (sampleWorld sampleRoot)).1 < 0 :=
  ⟨(empty_path_fails_before_any_store_call (H5MicReader.fresh "a.h5" "" true [])
      (sampleWorld sampleRoot) rfl).1.1,
   (empty_path_fails_before_any_store_call (H5MicReader.fresh "a.h5" "" true [])
      (sampleWorld sampleRoot) rfl).2.1⟩

/-- When the file cannot be opened, or the internal group cannot, `readFile`
and `readHeaderOnly` return the same code and record the same error code. -/
theorem open_failures_agree (r : H5MicReader) (w : World) (h : r.hdf5Path ≠ "")
    (hf : w.files r.fileName = none ∨
      ∃ root, w.files r.fileName = some root ∧
        (H5Utilities.openFile w r.fileName).2.hasGroup (H5Utilities.openFile w r.fileName).1
          r.hdf5Path = false) :
    (r.readFile w).1 = (r.readHeaderOnly w).1 ∧
    (r.readFile w).2.1.errorCode = (r.readHeaderOnly w).2.1.errorCode := by
  unfold H5MicReader.readFile H5MicReader.readHeaderOnly
  simp only []
  rw [if_neg h, if_neg h]
  rcases hf with hf | ⟨root, hf, hg⟩
  · rw [openFile_eq_of_none w _ hf]
    exact ⟨rfl, rfl⟩
  · rw [if_neg (openFile_nonneg w _ root hf), if_neg (openFile_nonneg w _ root hf),
      if_pos ((H5Gopen_neg_iff _ _ _).2 hg), if_pos ((H5Gopen_neg_iff _ _ _).2 hg)]
    exact ⟨rfl, rfl⟩

/-- Claim C16, the code at a failing input: with the empty internal path
`readFile` returns -1 and records nothing (the error code of a fresh reader
stays 0), while `readHeaderOnly` returns -102 and records the error code -102. -/
theorem empty_path_codes_differ :
    ((H5MicReader.fresh "a.h5" "" true []).readFile (sampleWorld sampleRoot)).1 = -1 ∧
    ((H5MicReader.fresh "a.h5" "" true []).readHeaderOnly (sampleWorld sampleRoot)).1 = -102 ∧
    ((H5MicReader.fresh "a.h5" "" true []).readFile
        (sampleWorld sampleRoot)).2.1.errorCode = 0 ∧
    ((H5MicReader.fresh "a.h5" "" true []).readHeaderOnly
        (sampleWorld sampleRoot)).2.1.errorCode = -102 := by
  decide

/-! ## The content of the columns after `readData` (claims C17, C18 and C19) -/

theorem canAllocate_fits (w : World) (c : Column) (n : Nat) (h : w.canAllocate c n = true) :
    n * 4 < 2 ^ 64 := by
  unfold World.canAllocate at h
  simp only [Bool.and_eq_true, decide_eq_true_eq] at h
  exact h.2

theorem memsetZero_floats_replicate (n junk : Nat) :
    memsetZero (.floats (List.replicate n junk)) (n * 4) = .floats (List.replicate n 0) := by
  simp [memsetZero]

theorem memsetZero_ints_replicate (n : Nat) (junk : Int) :
    memsetZero (.ints (List.replicate n junk)) (n * 4) = .ints (List.replicate n 0) := by
  simp [memsetZero]

theorem allocateArray_eq (w : World) (c : Column) (n : Nat) (h : w.canAllocate c n = true) :
    allocateArray w c n =
      (some (if c.isInt then .ints (List.replicate n (w.junk : Int))
             else .floats (List.replicate n w.junk)),
       { w with heapTrace := w.heapTrace ++ [.allocated c n] }) := by
  unfold allocateArray
  rw [if_pos h]

/-- One column step on a wanted column whose allocation succeeds: the column
holds the content the `Data` group describes. -/
theorem allocateAndRead_content (c : Column) (n : Nat) (gid : Hid) (s : St)
    (dl : List (String × H5Obj)) (hw : s.2.1.wanted c) (ha : s.2.2.canAllocate c n = true)
    (hl : s.2.2.linksOf gid = some dl) :
    (allocateAndRead c n ((n * 4) % 2 ^ 64) gid s).2.1.cols c = some (columnContent dl c n) := by
  have hfit := canAllocate_fits _ _ _ ha
  have hd : World.dataset { s.2.2 with heapTrace := s.2.2.heapTrace ++ [.allocated c n] } gid
      c.name = lookupLink dl c.name := dataset_of_links _ gid c.name dl hl
  unfold allocateAndRead
  rw [if_pos hw, allocateArray_eq _ _ _ ha, Nat.mod_eq_of_lt hfit]
  simp only [H5MicReader.setPointer, if_true]
  unfold H5Lite.readPointerDataset columnContent
  rw [hd]
  cases hi : c.isInt with
  | true =>
    simp only [if_true, memsetZero_ints_replicate]
    cases ho : lookupLink dl c.name with
    | none => rfl
    | some o => cases o <;> rfl
  | false =>
    simp only [Bool.false_eq_true, if_false, memsetZero_floats_replicate]
    cases ho : lookupLink dl c.name with
    | none => rfl
    | some o => cases o <;> rfl

theorem readPointerDataset_handles (w : World) (loc : Hid) (name : String) (buf : Buffer) :
    (H5Lite.readPointerDataset w loc name buf).2.handles = w.handles := by
  unfold H5Lite.readPointerDataset
  split <;> rfl

theorem allocateArray_handles (w : World) (c : Column) (n : Nat) :
    (allocateArray w c n).2.handles = w.handles := by
  unfold allocateArray
  split <;> rfl

theorem allocateAndRead_handles (c : Column) (n nb : Nat) (gid : Hid) (s : St) :
    (allocateAndRead c n nb gid s).2.2.handles = s.2.2.handles := by
  unfold allocateAndRead
  split
  · cases hA : (allocateArray s.2.2 c n).1 <;>
      simp [hA, readPointerDataset_handles, allocateArray_handles]
  · rfl

/-- The column steps: a wanted column of the list whose allocation succeeds
ends with the content the `Data` group describes. -/
theorem readColumns_content (n : Nat) (gid : Hid) (cs : List Column) (hnd : cs.Nodup) (s : St)
    (dl : List (String × H5Obj)) (c : Column) (hm : c ∈ cs) (hw : s.2.1.wanted c)
    (ha : s.2.2.canAllocate c n = true) (hl : s.2.2.linksOf gid = some dl) :
    (readColumns n ((n * 4) % 2 ^ 64) gid cs s).2.1.cols c = some (columnContent dl c n) := by
  induction cs generalizing s with
  | nil => exact absurd hm (List.not_mem_nil _)
  | cons c0 rest ih =>
    rw [readColumns_cons]
    rw [List.nodup_cons] at hnd
    by_cases hc : c = c0
    · subst hc
      rw [readColumns_cols_keep n _ gid rest _ c (Or.inl hnd.1)]
      exact allocateAndRead_content c n gid s dl hw ha hl
    · have hm2 : c ∈ rest := by
        rcases List.mem_cons.1 hm with h | h
        · exact absurd h hc
        · exact h
      exact ih hnd.2 _ hm2 ((allocateAndRead_wanted c0 c n _ gid s).2 hw)
        ((allocateAndRead_canAllocate c0 c n _ n gid s).trans ha)
        ((linksOf_of_handles (allocateAndRead_handles c0 n _ gid s) gid).trans hl)

/-- The columns after `readData` on a store whose `Data` group has links `dl`:
a wanted column whose allocation succeeds holds the content `dl` describes. -/
theorem readData_content (r : H5MicReader) (w : World) (parId : Hid)
    (links dl : List (String × H5Obj)) (hy : ¬ toSizeT r.yDim < 1)
    (hl : w.linksOf parId = some links)
    (hd : lookupLink links Mic.H5Mic.Data = some (.group dl)) (c : Column)
    (hw : r.wanted c) (ha : w.canAllocate c r.totalDataRows = true) :
    (r.readData w parId).2.1.cols c = some (columnContent dl c r.totalDataRows) := by
  have hl2 : (r.deletePointers w).2.linksOf parId = some links := hl
  have ho := H5Gopen_eq_of_lookup (r.deletePointers w).2 parId Mic.H5Mic.Data links dl hl2 hd
  have hnn : ¬ (H5Gopen (r.deletePointers w).2 parId Mic.H5Mic.Data).1 < 0 := by
    rw [ho]; exact not_lt.2 (Int.ofNat_nonneg _)
  rw [readData_of_open r w parId hy hnn]
  simp only [readDataColumns]
  rw [ho]
  exact readColumns_content _ _ Column.all Column.all_nodup _ dl c (Column.mem_all c) hw ha
    (linksOf_register_self _ dl)

theorem columnContent_length (dl : List (String × H5Obj)) (c : Column) (n : Nat) :
    (columnContent dl c n).length = n := by
  unfold columnContent
  split <;> simp [Buffer.length, overlay_length]

/-- The content of a column whose dataset cannot be read is all zeros. -/
theorem columnContent_of_unreadable (dl : List (String × H5Obj)) (c : Column) (n : Nat)
    (h : columnReadable dl c = false) :
    columnContent dl c n =
      (if c.isInt then .ints (List.replicate n 0) else .floats (List.replicate n 0)) := by
  unfold columnReadable at h
  unfold columnContent
  cases hi : c.isInt <;> cases ho : lookupLink dl c.name with
  | none => simp
  | some o => cases o <;> simp [hi, ho] at h ⊢

theorem columnContent_allZero (dl : List (String × H5Obj)) (c : Column) (n : Nat)
    (h : columnReadable dl c = false) : (columnContent dl c n).allZero = true := by
  rw [columnContent_of_unreadable dl c n h]
  cases c.isInt <;> simp [Buffer.allZero]

theorem columnReadable_of_absent (dl : List (String × H5Obj)) (c : Column)
    (h : lookupLink dl c.name = none) : columnReadable dl c = false := by
  unfold columnReadable
  rw [h]

/-- The dataset read of a column into an array of its element type reports
failure exactly when the column is not readable. -/
theorem readPointerDataset_fails_iff (w : World) (gid : Hid) (dl : List (String × H5Obj))
    (c : Column) (n : Nat) (hl : w.linksOf gid = some dl) :
    (H5Lite.readPointerDataset w gid c.name
        (if c.isInt then .ints (List.replicate n 0) else .floats (List.replicate n 0))).1.1 < 0 ↔
      columnReadable dl c = false := by
  unfold H5Lite.readPointerDataset columnReadable
  rw [dataset_of_links w gid c.name dl hl]
  cases hi : c.isInt <;> cases ho : lookupLink dl c.name with
  | none => simp
  | some o => cases o <;> simp

/-- An array that can be allocated rules out a negative x-dimension. -/
theorem xDim_nonneg_of_fits (r : H5MicReader) (hx : IsInt32 r.xDim) (hy : IsInt32 r.yDim)
    (hy1 : 1 ≤ r.yDim) (hfit : r.totalDataRows * 4 < 2 ^ 64) : 0 ≤ r.xDim := by
  by_contra hneg
  unfold IsInt32 at hx hy
  unfold H5MicReader.totalDataRows toSizeT at hfit
  have h1 : (r.xDim % 2 ^ 64).toNat = 2 ^ 64 - (-r.xDim).toNat := by omega
  have h2 : (r.yDim % 2 ^ 64).toNat = r.yDim.toNat := by omega
  rw [h1, h2] at hfit
  have ha : 1 ≤ (-r.xDim).toNat ∧ (-r.xDim).toNat ≤ 2 ^ 31 := by omega
  have hb : 1 ≤ r.yDim.toNat ∧ r.yDim.toNat < 2 ^ 31 := by omega
  have hp : (-r.xDim).toNat * r.yDim.toNat ≤ 2 ^ 31 * 2 ^ 31 :=
    Nat.mul_le_mul ha.2 (le_of_lt hb.2)
  have hp1 : 1 ≤ (-r.xDim).toNat * r.yDim.toNat := Nat.mul_pos ha.1 hb.1
  rw [Nat.sub_mul] at hfit
  generalize (-r.xDim).toNat * r.yDim.toNat = p at hp hp1 hfit
  generalize r.yDim.toNat = b at hb hfit
  omega

/-- Past the dimension test and the open of `Data`, the code `readData` returns
is the result of `H5Gclose` on the `Data` group, which is 0. -/
theorem readData_code_of_open (r : H5MicReader) (w : World) (parId : Hid)
    (hy : ¬ toSizeT r.yDim < 1) (hopen : w.hasGroup parId Mic.H5Mic.Data = true) :
    (r.readData w parId).1 =
      (H5Gclose (readDataColumns r w parId).2.2
        (H5Gopen (r.deletePointers w).2 parId Mic.H5Mic.Data).1).1 ∧
    (r.readData w parId).1 = 0 := by
  have hg : (r.deletePointers w).2.hasGroup parId Mic.H5Mic.Data = true := hopen
  rw [readData_of_open r w parId hy (H5Gopen_nonneg_of_hasGroup _ _ _ hg)]
  refine ⟨rfl, ?_⟩
  exact (Balanced.wrap_group _ parId Mic.H5Mic.Data _ hg
    (readColumns_balanced r.totalDataRows ((r.totalDataRows * 4) % 2 ^ 64)
      (H5Gopen (r.deletePointers w).2 parId Mic.H5Mic.Data).1 Column.all
      (-1, { (r.deletePointers w).1 with numberOfElements := r.totalDataRows },
       (H5Gopen (r.deletePointers w).2 parId Mic.H5Mic.Data).2))).1

theorem hasGroup_of_lookup (w : World) (loc : Hid) (name : String)
    (links ls : List (String × H5Obj)) (hl : w.linksOf loc = some links)
    (ho : lookupLink links name = some (.group ls)) : w.hasGroup loc name = true :=
  (hasGroup_true_iff w loc name).2 ⟨links, ls, hl, ho⟩

/-- Claim C17, counterexample: the 4 x 3 reader asks for `Euler2` only; the
`Data` group holds no `Euler2` dataset; after `readData` the column `Euler2`
is set and holds twelve zeros. -/
theorem readData_sets_column_without_dataset :
    lookupLink (sampleDataLinks 12) Column.Euler2.name = none ∧
    ((sampleReader 4 3 false ["Euler2"]).readData
        (sampleOpenWorld [("Data", sampleData 12)]) 1).2.1.isSet .Euler2 = true ∧
    ((sampleReader 4 3 false ["Euler2"]).readData
        (sampleOpenWorld [("Data", sampleData 12)]) 1).2.1.cols .Euler2 =
      some (.floats (List.replicate 12 0)) := by
  have h := readData_content (sampleReader 4 3 false ["Euler2"])
    (sampleOpenWorld [("Data", sampleData 12)]) 1 [("Data", sampleData 12)]
    (sampleDataLinks 12) (by decide) rfl rfl .Euler2 (Or.inr (by decide)) (by decide)
  refine ⟨rfl, ?_, ?_⟩
  · unfold H5MicReader.isSet
    rw [h]
    rfl
  · rw [h]
    decide

/-- Claim C17, amended. After `readData` on a store whose `Data` group opens, a
column is set only if it was requested (or read-all was set); a requested
column whose dataset is absent from the `Data` group is set all the same when
its allocation succeeds, and holds a zero-filled array of `totalDataRows`
elements, not a null pointer. -/
theorem readData_sets_only_requested_and_zero_fills_absent (r : H5MicReader) (w : World)
    (parId : Hid) (links dl : List (String × H5Obj)) (hy32 : IsInt32 r.yDim) (hy : 1 ≤ r.yDim)
    (hl : w.linksOf parId = some links)
    (hd : lookupLink links Mic.H5Mic.Data = some (.group dl)) (c : Column) :
    ((r.readData w parId).2.1.isSet c = true →
      (r.readAllArrays = true ∨ c.name ∈ r.arrayNames)) ∧
    ((r.readAllArrays = true ∨ c.name ∈ r.arrayNames) → lookupLink dl c.name = none →
      w.canAllocate c r.totalDataRows = true →
      ∃ buf, (r.readData w parId).2.1.cols c = some buf ∧ buf.length = r.totalDataRows ∧
        buf.allZero = true) := by
  have hyp := toSizeT_pos _ hy hy32
  have hopen := hasGroup_of_lookup w parId Mic.H5Mic.Data links dl hl hd
  refine ⟨fun hs => ?_, fun hw habs ha => ?_⟩
  · by_contra hn
    have := (readData_cols r w parId hyp hopen c).1 hn
    unfold H5MicReader.isSet at hs
    rw [this] at hs
    simp at hs
  · exact ⟨_, readData_content r w parId links dl hyp hl hd c hw ha,
      columnContent_length dl c _,
      columnContent_allZero dl c _ (columnReadable_of_absent dl c habs)⟩

/-- Witness of claim C17 (amended): the reader that asks for `Euler2` only. -/
theorem readData_sets_only_requested_and_zero_fills_absent_witness :
    (((sampleReader 4 3 false ["Euler2"]).readData
        (sampleOpenWorld [("Data", sampleData 12)]) 1).2.1.cols .Euler2).isSome = true :=
  match (readData_sets_only_requested_and_zero_fills_absent (sampleReader 4 3 false ["Euler2"])
    (sampleOpenWorld [("Data", sampleData 12)]) 1 [("Data", sampleData 12)]
    (sampleDataLinks 12) (by decide) (by decide) rfl rfl .Euler2).2 (Or.inr (by decide)) rfl
    (by decide) with
  | ⟨_, hb, _, _⟩ => by rw [hb]; rfl

/-- Claim C18. For every requested column, float or int, whose allocation
succeeds and whose dataset read reports failure (the dataset is absent or not
an array of the type of the column), `readData` still installs the column: it
is set, has `totalDataRows = xDimension * yDimension` elements, all of them
zero; every other requested column whose allocation succeeds is installed with
the content read from its dataset; and `readData` runs to its end and returns
0, the result of closing `Data`. -/
theorem readData_installs_zero_column_on_failed_read (r : H5MicReader) (w : World)
    (parId : Hid) (links dl : List (String × H5Obj)) (hx : IsInt32 r.xDim)
    (hy32 : IsInt32 r.yDim) (hy : 1 ≤ r.yDim) (hl : w.linksOf parId = some links)
    (hd : lookupLink links Mic.H5Mic.Data = some (.group dl)) (c : Column)
    (hw : r.readAllArrays = true ∨ c.name ∈ r.arrayNames)
    (ha : w.canAllocate c r.totalDataRows = true) (hfail : columnReadable dl c = false) :
    (∃ buf, (r.readData w parId).2.1.cols c = some buf ∧ buf.length = r.totalDataRows ∧
      (buf.length : Int) = r.xDim * r.yDim ∧ buf.allZero = true) ∧
    (∀ c2, (r.readAllArrays = true ∨ c2.name ∈ r.arrayNames) →
      w.canAllocate c2 r.totalDataRows = true →
      (r.readData w parId).2.1.cols c2 = some (columnContent dl c2 r.totalDataRows)) ∧
    (r.readData w parId).1 = 0 := by
  have hyp := toSizeT_pos _ hy hy32
  have hopen := hasGroup_of_lookup w parId Mic.H5Mic.Data links dl hl hd
  have hx0 := xDim_nonneg_of_fits r hx hy32 hy (canAllocate_fits _ _ _ ha)
  refine ⟨⟨_, readData_content r w parId links dl hyp hl hd c hw ha,
    columnContent_length dl c _, ?_, columnContent_allZero dl c _ hfail⟩,
    fun c2 hw2 ha2 => readData_content r w parId links dl hyp hl hd c2 hw2 ha2,
    (readData_code_of_open r w parId hyp hopen).2⟩
  rw [columnContent_length, totalDataRows_eq r hx0 hx hy hy32]

/-- Witness of claim C18: all columns requested on the sample `Data` group,
which lacks the `Y` dataset; `readData` returns 0. -/
theorem readData_installs_zero_column_on_failed_read_witness :
    ((sampleReader 4 3 true []).readData (sampleOpenWorld [("Data", sampleData 12)]) 1).1 = 0 :=
  (readData_installs_zero_column_on_failed_read (sampleReader 4 3 true [])
    (sampleOpenWorld [("Data", sampleData 12)]) 1 [("Data", sampleData 12)]
    (sampleDataLinks 12) (by decide) (by decide) (by decide) rfl rfl .Y (Or.inl rfl)
    (by decide) (by decide)).2.2

/-- Claim C19. For every run of `readData` that gets past the dimension test
and the open of `Data`, the code returned is the result of `H5Gclose` on the
`Data` group; it is 0 and the same for any two such runs, whatever the dataset
reads of the seven columns reported. -/
theorem readData_code_ignores_column_reads (r : H5MicReader) (w : World) (parId : Hid)
    (hy : ¬ toSizeT r.yDim < 1) (hopen : w.hasGroup parId Mic.H5Mic.Data = true) :
    (r.readData w parId).1 =
      (H5Gclose (readDataColumns r w parId).2.2
        (H5Gopen (r.deletePointers w).2 parId Mic.H5Mic.Data).1).1 ∧
    (r.readData w parId).1 = 0 ∧
    ∀ (r2 : H5MicReader) (w2 : World) (parId2 : Hid), ¬ toSizeT r2.yDim < 1 →
      w2.hasGroup parId2 Mic.H5Mic.Data = true →
      (r2.readData w2 parId2).1 = (r.readData w parId).1 := by
  obtain ⟨h1, h2⟩ := readData_code_of_open r w parId hy hopen
  exact ⟨h1, h2, fun r2 w2 p2 hy2 ho2 => by
    rw [h2, (readData_code_of_open r2 w2 p2 hy2 ho2).2]⟩

/-- Witness of claim C19: on an empty `Data` group every read fails, on the
sample `Data` group three reads succeed; both runs return the same code. -/
theorem readData_code_ignores_column_reads_witness :
    ((sampleReader 4 3 true []).readData (sampleOpenWorld [("Data", .group [])]) 1).1 =
    ((sampleReader 4 3 true []).readData (sampleOpenWorld [("Data", sampleData 12)]) 1).1 :=
  (readData_code_ignores_column_reads (sampleReader 4 3 true [])
    (sampleOpenWorld [("Data", sampleData 12)]) 1 (by decide) (by decide)).2.2
    (sampleReader 4 3 true []) (sampleOpenWorld [("Data", .group [])]) 1 (by decide)
    (by decide)

end H5Mic

namespace FindSurfaceRoughness

/-! ## The line of `linear_regression_slope` is the least-squares line (claim C20) -/

theorem accumulate_eq (l : List ℚ) (init : ℚ) : accumulate l init = init + l.sum := by
  unfold accumulate
  induction l generalizing init with
  | nil => simp
  | cons v rest ih =>
    simp only [List.foldl_cons, List.sum_cons]
    rw [ih]
    ring

theorem accumulate_zero (l : List ℚ) : accumulate l 0 = l.sum := by
  rw [accumulate_eq, zero_add]

theorem transformMultiplies_xx (pts : List (ℚ × ℚ)) :
    transformMultiplies (xsOf pts) (xsOf pts) = pts.map (fun p => p.1 * p.1) := by
  unfold transformMultiplies xsOf
  induction pts with
  | nil => rfl
  | cons p rest ih => simp only [List.map_cons, List.zipWith_cons_cons, ih]

theorem transformMultiplies_xy (pts : List (ℚ × ℚ)) :
    transformMultiplies (xsOf pts) (ysOf pts) = pts.map (fun p => p.1 * p.2) := by
  unfold transformMultiplies xsOf ysOf
  induction pts with
  | nil => rfl
  | cons p rest ih => simp only [List.map_cons, List.zipWith_cons_cons, ih]

/-- The sum of squared residuals in terms of the six sums over the points. -/
theorem sumSquaredResiduals_expand (pts : List (ℚ × ℚ)) (a b : ℚ) :
    sumSquaredResiduals pts a b =
      (pts.map (fun p => p.2 * p.2)).sum - 2 * a * (ysOf pts).sum
        - 2 * b * (pts.map (fun p => p.1 * p.2)).sum + (pts.length : ℚ) * a ^ 2
        + 2 * a * b * (xsOf pts).sum + b ^ 2 * (pts.map (fun p => p.1 * p.1)).sum := by
  unfold sumSquaredResiduals xsOf ysOf
  induction pts with
  | nil => simp
  | cons p rest ih =>
    simp only [List.map_cons, List.sum_cons, List.length_cons]
    rw [ih]
    push_cast
    ring

/-- The sum of the squares of `u + v * x` over the points. -/
theorem sum_sq_affine (pts : List (ℚ × ℚ)) (u v : ℚ) :
    (pts.map (fun p => (u + v * p.1) ^ 2)).sum =
      (pts.length : ℚ) * u ^ 2 + 2 * u * v * (xsOf pts).sum
        + v ^ 2 * (pts.map (fun p => p.1 * p.1)).sum := by
  unfold xsOf
  induction pts with
  | nil => simp
  | cons p rest ih =>
    simp only [List.map_cons, List.sum_cons, List.length_cons]
    rw [ih]
    push_cast
    ring

theorem sum_sq_affine_nonneg (pts : List (ℚ × ℚ)) (u v : ℚ) :
    0 ≤ (pts.map (fun p => (u + v * p.1) ^ 2)).sum := by
  apply List.sum_nonneg
  intro x hx
  obtain ⟨p, _, rfl⟩ := List.mem_map.1 hx
  exact sq_nonneg _

/-- The divisor of the slope is the sum of the squared deviations of the
x-coordinates from their mean. -/
theorem ssxx_eq_sum_sq_dev (pts : List (ℚ × ℚ)) (hn : pts ≠ []) :
    (pts.map (fun p => p.1 * p.1)).sum
        - (pts.length : ℚ) * mean (xsOf pts) * mean (xsOf pts) =
      (pts.map (fun p => (-(mean (xsOf pts)) + 1 * p.1) ^ 2)).sum := by
  have hlen : ((xsOf pts).length : ℚ) = (pts.length : ℚ) := by simp [xsOf]
  have hn0 : (pts.length : ℚ) ≠ 0 := by
    simpa using hn
  have hm : (pts.length : ℚ) * mean (xsOf pts) = (xsOf pts).sum := by
    unfold mean
    rw [hlen]
    field_simp
  rw [sum_sq_affine, ← hm]
  ring

/-- With two distinct x-coordinates among the points the divisor of the slope
is not zero. -/
theorem ssxx_ne_zero (pts : List (ℚ × ℚ)) (hx : ∃ p ∈ pts, ∃ q ∈ pts, p.1 ≠ q.1) :
    (pts.map (fun p => p.1 * p.1)).sum
        - (pts.length : ℚ) * mean (xsOf pts) * mean (xsOf pts) ≠ 0 := by
  obtain ⟨p, hp, q, hq, hpq⟩ := hx
  have hn : pts ≠ [] := List.ne_nil_of_mem hp
  rw [ssxx_eq_sum_sq_dev pts hn]
  intro h0
  have hall : ∀ v ∈ pts.map (fun p => (-(mean (xsOf pts)) + 1 * p.1) ^ 2), v = 0 := by
    intro v hv
    refine List.all_zero_of_le_zero_le_of_sum_eq_zero (fun x hx => ?_) h0 hv
    obtain ⟨p2, _, rfl⟩ := List.mem_map.1 hx
    exact sq_nonneg _
  have hat : ∀ t ∈ pts, t.1 = mean (xsOf pts) := by
    intro t ht
    have := hall _ (List.mem_map.2 ⟨t, ht, rfl⟩)
    have h2 : -(mean (xsOf pts)) + 1 * t.1 = 0 := pow_eq_zero_iff (two_ne_zero) |>.1 this
    linarith
  exact hpq ((hat p hp).trans (hat q hq).symm)

/-- The value of `linear_regression_slope` on the coordinates of a list of
points, in terms of sums and means. -/
theorem linear_regression_slope_eq (pts : List (ℚ × ℚ)) :
    linear_regression_slope (xsOf pts) (ysOf pts) =
      (mean (ysOf pts) -
        ((pts.map (fun p => p.1 * p.2)).sum
            - (pts.length : ℚ) * mean (xsOf pts) * mean (ysOf pts)) /
          ((pts.map (fun p => p.1 * p.1)).sum
            - (pts.length : ℚ) * mean (xsOf pts) * mean (xsOf pts)) * mean (xsOf pts),
       ((pts.map (fun p => p.1 * p.2)).sum
            - (pts.length : ℚ) * mean (xsOf pts) * mean (ysOf pts)) /
          ((pts.map (fun p => p.1 * p.1)).sum
            - (pts.length : ℚ) * mean (xsOf pts) * mean (xsOf pts))) := by
  unfold linear_regression_slope
  simp only [accumulate_zero, transformMultiplies_xx, transformMultiplies_xy, List.length_map,
    mean]

/-- The two normal equations of least squares, from the way the means, the
slope and the intercept are computed. -/
theorem normal_equations (n sx sy sxx sxy m my b : ℚ) (hsx : n * m = sx) (hsy : n * my = sy)
    (hb : b * (sxx - n * m * m) = sxy - n * m * my) :
    sy = n * (my - b * m) + b * sx ∧ sxy = (my - b * m) * sx + b * sxx := by
  constructor
  · linear_combination (-1) * hsy + b * hsx
  · linear_combination (-1) * hb + (my - b * m) * hsx

/-- The line of `linear_regression_slope` is the least-squares line, in full. -/
theorem linear_regression_slope_optimal (pts : List (ℚ × ℚ))
    (hx : ∃ p ∈ pts, ∃ q ∈ pts, p.1 ≠ q.1) (a2 b2 : ℚ) :
    sumSquaredResiduals pts (linear_regression_slope (xsOf pts) (ysOf pts)).1
        (linear_regression_slope (xsOf pts) (ysOf pts)).2 ≤
      sumSquaredResiduals pts a2 b2 ∧
    (linear_regression_slope (xsOf pts) (ysOf pts)).1 +
        (linear_regression_slope (xsOf pts) (ysOf pts)).2 * mean (xsOf pts) =
      mean (ysOf pts) := by
  have hss := ssxx_ne_zero pts hx
  obtain ⟨p, hp, _⟩ := hx
  have hn : pts ≠ [] := List.ne_nil_of_mem hp
  have hn0 : (pts.length : ℚ) ≠ 0 := by simpa using hn
  have hlx : ((xsOf pts).length : ℚ) = (pts.length : ℚ) := by simp [xsOf]
  have hly : ((ysOf pts).length : ℚ) = (pts.length : ℚ) := by simp [ysOf]
  rw [linear_regression_slope_eq]
  simp only []
  refine ⟨?_, by ring⟩
  unfold mean at hss ⊢
  rw [hlx] at hss ⊢
  rw [hly]
  have hsx : (pts.length : ℚ) * ((xsOf pts).sum / (pts.length : ℚ)) = (xsOf pts).sum :=
    mul_div_cancel₀ _ hn0
  have hsy : (pts.length : ℚ) * ((ysOf pts).sum / (pts.length : ℚ)) = (ysOf pts).sum :=
    mul_div_cancel₀ _ hn0
  have hbd := div_mul_cancel₀ ((pts.map (fun p => p.1 * p.2)).sum
      - (pts.length : ℚ) * ((xsOf pts).sum / (pts.length : ℚ))
        * ((ysOf pts).sum / (pts.length : ℚ))) hss
  obtain ⟨n1, n2⟩ := normal_equations (pts.length : ℚ) (xsOf pts).sum (ysOf pts).sum
    (pts.map (fun p => p.1 * p.1)).sum (pts.map (fun p => p.1 * p.2)).sum
    ((xsOf pts).sum / (pts.length : ℚ)) ((ysOf pts).sum / (pts.length : ℚ)) _ hsx hsy hbd
  generalize ((pts.map (fun p => p.1 * p.2)).sum
      - (pts.length : ℚ) * ((xsOf pts).sum / (pts.length : ℚ))
        * ((ysOf pts).sum / (pts.length : ℚ))) /
      ((pts.map (fun p => p.1 * p.1)).sum
      - (pts.length : ℚ) * ((xsOf pts).sum / (pts.length : ℚ))
        * ((xsOf pts).sum / (pts.length : ℚ))) = b at n1 n2 ⊢
  generalize (ysOf pts).sum / (pts.length : ℚ) - b * ((xsOf pts).sum / (pts.length : ℚ))
    = a at n1 n2 ⊢
  have hq := sum_sq_affine_nonneg pts (a2 - a) (b2 - b)
  rw [sum_sq_affine] at hq
  have key : sumSquaredResiduals pts a2 b2 = sumSquaredResiduals pts a b +
      ((pts.length : ℚ) * (a2 - a) ^ 2 + 2 * (a2 - a) * (b2 - b) * (xsOf pts).sum
        + (b2 - b) ^ 2 * (pts.map (fun p => p.1 * p.1)).sum) := by
    rw [sumSquaredResiduals_expand, sumSquaredResiduals_expand]
    linear_combination (-2 * (a2 - a)) * n1 + (-2 * (b2 - b)) * n2
  rw [key]
  linarith

/-- Claim C20. Over exact arithmetic, for every list of selected points that
holds two distinct x-coordinates (and is therefore not empty), the pair
(intercept `a`, slope `b`) that `linear_regression_slope` computes from their
coordinates is the least-squares line: its sum of squared residuals is not
larger than that of any other line `y = a2 + b2 * x`, and it passes through
the centroid, `a + b * mean x = mean y`. -/
theorem linear_regression_slope_is_least_squares (pts : List (ℚ × ℚ))
    (hx : ∃ p ∈ pts, ∃ q ∈ pts, p.1 ≠ q.1) :
    (∀ a2 b2 : ℚ,
      sumSquaredResiduals pts (linear_regression_slope (xsOf pts) (ysOf pts)).1
          (linear_regression_slope (xsOf pts) (ysOf pts)).2 ≤
        sumSquaredResiduals pts a2 b2) ∧
    (linear_regression_slope (xsOf pts) (ysOf pts)).1 +
        (linear_regression_slope (xsOf pts) (ysOf pts)).2 * mean (xsOf pts) =
      mean (ysOf pts) :=
  ⟨fun a2 b2 => (linear_regression_slope_optimal pts hx a2 b2).1,
   (linear_regression_slope_optimal pts hx 0 0).2⟩

/-- Witness of claim C20: the points (0, 1), (1, 3), (2, 4); the line found
does at least as well as the line `y = 1 + 1 * x`. -/
theorem linear_regression_slope_is_least_squares_witness :
    sumSquaredResiduals [(0, 1), (1, 3), (2, 4)]
        (linear_regression_slope (xsOf [(0, 1), (1, 3), (2, 4)])
          (ysOf [(0, 1), (1, 3), (2, 4)])).1
        (linear_regression_slope (xsOf [(0, 1), (1, 3), (2, 4)])
          (ysOf [(0, 1), (1, 3), (2, 4)])).2 ≤
      sumSquaredResiduals [(0, 1), (1, 3), (2, 4)] 1 1 :=
  (linear_regression_slope_is_least_squares [(0, 1), (1, 3), (2, 4)]
    ⟨(0, 1), by simp, (1, 3), by simp, by norm_num⟩).1 1 1

/-! ## The divisors of `FindSurfaceRoughness::execute` (claim C21) -/

/-- The state after the cells of a list of indices have been visited. -/
theorem foldl_visitCell (f : Nat → Int) (g : Nat → ℚ × ℚ × ℚ) (l : List Nat)
    (st : List ℚ × List ℚ) :
    l.foldl (fun st i => visitCell f g i st) st =
      (st.1 ++ (l.filter (fun i => decide (0 < f i))).map (fun i => (g i).1),
       st.2 ++ (l.filter (fun i => decide (0 < f i))).map (fun i => (g i).2.1)) := by
  induction l generalizing st with
  | nil => simp
  | cons i rest ih =>
    rw [List.foldl_cons, ih]
    by_cases h : 0 < f i
    · simp [visitCell, h, List.filter_cons]
    · simp [visitCell, h, List.filter_cons]

/-- A loop whose body visits the cells of a list of indices visits the cells of
the concatenation of those lists. -/
theorem foldl_visit_flatMap {α : Type} (f : Nat → Int) (g : Nat → ℚ × ℚ × ℚ)
    (F : List ℚ × List ℚ → α → List ℚ × List ℚ) (L : α → List Nat)
    (hF : ∀ st a, F st a = (L a).foldl (fun st i => visitCell f g i st) st)
    (l : List α) (st : List ℚ × List ℚ) :
    l.foldl F st = (l.flatMap L).foldl (fun st i => visitCell f g i st) st := by
  induction l generalizing st with
  | nil => simp
  | cons a rest ih =>
    rw [List.foldl_cons, ih, hF, List.flatMap_cons, List.foldl_append]

/-- The indices of the cells in the order the three loops visit them. -/
theorem collectBoundaryPoints_eq_foldl (dims : SizeVec3Type) (f : Nat → Int)
    (g : Nat → ℚ × ℚ × ℚ) :
    collectBoundaryPoints dims f g =
      ((List.range dims.d2).flatMap (fun z => (List.range dims.d1).flatMap (fun y =>
        (List.range dims.d0).map (fun x => cellIndex dims z y x)))).foldl
          (fun st i => visitCell f g i st) ([], []) := by
  unfold collectBoundaryPoints
  refine foldl_visit_flatMap f g _ _ (fun st z => ?_) _ _
  refine foldl_visit_flatMap f g _ _ (fun st y => ?_) _ _
  rw [List.foldl_map]

theorem collectBoundaryPoints_eq (dims : SizeVec3Type) (f : Nat → Int)
    (g : Nat → ℚ × ℚ × ℚ) :
    collectBoundaryPoints dims f g =
      (((visitedIndices dims).filter (fun i => decide (0 < f i))).map (fun i => (g i).1),
       ((visitedIndices dims).filter (fun i => decide (0 < f i))).map (fun i => (g i).2.1)) := by
  rw [collectBoundaryPoints_eq_foldl, foldl_visitCell]
  simp [visitedIndices]

theorem mem_visitedIndices (dims : SizeVec3Type) (i : Nat) :
    i ∈ visitedIndices dims ↔
      ∃ z, z < dims.d2 ∧ ∃ y, y < dims.d1 ∧ ∃ x, x < dims.d0 ∧ cellIndex dims z y x = i := by
  simp [visitedIndices, List.mem_flatMap, List.mem_map, List.mem_range]

/-- The x-coordinates pushed are those of the visited cells with a flag above
zero. -/
theorem mem_collected_xs (dims : SizeVec3Type) (f : Nat → Int) (g : Nat → ℚ × ℚ × ℚ)
    (u : ℚ) :
    u ∈ (collectBoundaryPoints dims f g).1 ↔
      ∃ z, z < dims.d2 ∧ ∃ y, y < dims.d1 ∧ ∃ x, x < dims.d0 ∧
        0 < f (cellIndex dims z y x) ∧ (g (cellIndex dims z y x)).1 = u := by
  rw [collectBoundaryPoints_eq]
  simp only [List.mem_map, List.mem_filter, mem_visitedIndices, decide_eq_true_eq]
  constructor
  · rintro ⟨i, ⟨⟨z, hz, y, hy, x, hx, rfl⟩, hf⟩, rfl⟩
    exact ⟨z, hz, y, hy, x, hx, hf, rfl⟩
  · rintro ⟨z, hz, y, hy, x, hx, hf, rfl⟩
    exact ⟨_, ⟨⟨z, hz, y, hy, x, hx, rfl⟩, hf⟩, rfl⟩

theorem collected_length_eq (dims : SizeVec3Type) (f : Nat → Int) (g : Nat → ℚ × ℚ × ℚ) :
    (collectBoundaryPoints dims f g).2.length = (collectBoundaryPoints dims f g).1.length := by
  rw [collectBoundaryPoints_eq]
  simp

/-- The number of points pushed is zero exactly when no visited cell has a flag
above zero. -/
theorem collected_length_ne_zero (dims : SizeVec3Type) (f : Nat → Int)
    (g : Nat → ℚ × ℚ × ℚ) :
    ((collectBoundaryPoints dims f g).1.length : ℚ) ≠ 0 ↔
      ∃ z, z < dims.d2 ∧ ∃ y, y < dims.d1 ∧ ∃ x, x < dims.d0 ∧
        0 < f (cellIndex dims z y x) := by
  rw [collectBoundaryPoints_eq]
  simp only [List.length_map, ne_eq, Nat.cast_eq_zero, List.length_eq_zero,
    List.filter_eq_nil_iff, mem_visitedIndices, decide_eq_true_eq]
  constructor
  · intro h
    by_contra hne
    apply h
    rintro i ⟨z, hz, y, hy, x, hx, rfl⟩ hf
    exact hne ⟨z, hz, y, hy, x, hx, hf⟩
  · rintro ⟨z, hz, y, hy, x, hx, hf⟩ h
    exact h _ ⟨z, hz, y, hy, x, hx, rfl⟩ hf

/-- Without overflow the index of a cell is `z * d1 * d0 + y * d0 + x`, below
the number of cells. -/
theorem cellIndex_of_fits (dims : SizeVec3Type) (hfit : dims.d0 * dims.d1 * dims.d2 < 2 ^ 64)
    (z y x : Nat) (hz : z < dims.d2) (hy : y < dims.d1) (hx : x < dims.d0) :
    cellIndex dims z y x = z * dims.d1 * dims.d0 + y * dims.d0 + x ∧
      z * dims.d1 * dims.d0 + y * dims.d0 + x < dims.d0 * dims.d1 * dims.d2 := by
  have h1 : y * dims.d0 + x < dims.d1 * dims.d0 := by
    calc y * dims.d0 + x < y * dims.d0 + dims.d0 := by omega
      _ = (y + 1) * dims.d0 := by ring
      _ ≤ dims.d1 * dims.d0 := Nat.mul_le_mul_right _ hy
  have h2 : z * dims.d1 * dims.d0 + y * dims.d0 + x < dims.d0 * dims.d1 * dims.d2 := by
    calc z * dims.d1 * dims.d0 + y * dims.d0 + x
        = z * (dims.d1 * dims.d0) + (y * dims.d0 + x) := by ring
      _ < z * (dims.d1 * dims.d0) + dims.d1 * dims.d0 := by omega
      _ = (z + 1) * (dims.d1 * dims.d0) := by ring
      _ ≤ dims.d2 * (dims.d1 * dims.d0) := Nat.mul_le_mul_right _ hz
      _ = dims.d0 * dims.d1 * dims.d2 := by ring
  have h3 : z * dims.d1 * dims.d0 ≤ z * dims.d1 * dims.d0 + y * dims.d0 + x := by omega
  have h0 : 0 < dims.d0 := by omega
  have h4 : z * dims.d1 ≤ z * dims.d1 * dims.d0 := Nat.le_mul_of_pos_right _ h0
  have h5 : y * dims.d0 ≤ z * dims.d1 * dims.d0 + y * dims.d0 + x := by omega
  refine ⟨?_, h2⟩
  unfold cellIndex
  simp only []
  rw [Nat.mod_eq_of_lt (show z * dims.d1 < 2 ^ 64 by omega),
    Nat.mod_eq_of_lt (show z * dims.d1 * dims.d0 < 2 ^ 64 by omega),
    Nat.mod_eq_of_lt (show y * dims.d0 < 2 ^ 64 by omega),
    Nat.mod_eq_of_lt (show z * dims.d1 * dims.d0 + y * dims.d0 < 2 ^ 64 by omega),
    Nat.mod_eq_of_lt (show z * dims.d1 * dims.d0 + y * dims.d0 + x < 2 ^ 64 by omega)]

/-- Without overflow every index below the number of cells is the index of a
cell of the grid. -/
theorem exists_cell_of_lt (dims : SizeVec3Type) (i : Nat)
    (hi : i < dims.d0 * dims.d1 * dims.d2) :
    ∃ z, z < dims.d2 ∧ ∃ y, y < dims.d1 ∧ ∃ x, x < dims.d0 ∧
      z * dims.d1 * dims.d0 + y * dims.d0 + x = i := by
  have h0 : 0 < dims.d0 := by
    rcases Nat.eq_zero_or_pos dims.d0 with h | h
    · rw [h] at hi; simp at hi
    · exact h
  have h1 : 0 < dims.d1 := by
    rcases Nat.eq_zero_or_pos dims.d1 with h | h
    · rw [h] at hi; simp at hi
    · exact h
  refine ⟨i / dims.d0 / dims.d1, ?_, i / dims.d0 % dims.d1, Nat.mod_lt _ h1, i % dims.d0,
    Nat.mod_lt _ h0, ?_⟩
  · rw [Nat.div_div_eq_div_mul]
    exact Nat.div_lt_of_lt_mul hi
  · have e1 := Nat.div_add_mod (i / dims.d0) dims.d1
    have e2 := Nat.div_add_mod i dims.d0
    calc i / dims.d0 / dims.d1 * dims.d1 * dims.d0 + i / dims.d0 % dims.d1 * dims.d0
          + i % dims.d0
        = dims.d0 * (dims.d1 * (i / dims.d0 / dims.d1) + i / dims.d0 % dims.d1)
          + i % dims.d0 := by ring
      _ = i := by rw [e1, e2]

/-- Without overflow the cells the loops visit are the cells of the flag
array. -/
theorem exists_cell_iff_of_fits (dims : SizeVec3Type) (f : Nat → Int)
    (hfit : dims.d0 * dims.d1 * dims.d2 < 2 ^ 64) :
    (∃ z, z < dims.d2 ∧ ∃ y, y < dims.d1 ∧ ∃ x, x < dims.d0 ∧ 0 < f (cellIndex dims z y x)) ↔
      ∃ i, i < dims.d0 * dims.d1 * dims.d2 ∧ 0 < f i := by
  constructor
  · rintro ⟨z, hz, y, hy, x, hx, hf⟩
    obtain ⟨e, hlt⟩ := cellIndex_of_fits dims hfit z y x hz hy hx
    exact ⟨_, hlt, e ▸ hf⟩
  · rintro ⟨i, hi, hf⟩
    obtain ⟨z, hz, y, hy, x, hx, e⟩ := exists_cell_of_lt dims i hi
    refine ⟨z, hz, y, hy, x, hx, ?_⟩
    rw [(cellIndex_of_fits dims hfit z y x hz hy hx).1, e]
    exact hf

/-- The divisor `ssxx` in terms of the sum of the squares and the mean. -/
theorem ssxx_eq (xs : List ℚ) :
    ssxx xs = (xs.map (fun x => x * x)).sum - (xs.length : ℚ) * mean xs * mean xs := by
  have hx : xsOf (xs.map (fun x => (x, (0 : ℚ)))) = xs := by
    simp [xsOf, List.map_map, Function.comp_def]
  have hxx := transformMultiplies_xx (xs.map (fun x => (x, (0 : ℚ))))
  rw [hx] at hxx
  simp only [ssxx, accumulate_zero, hxx, List.length_map, List.map_map, Function.comp_def, mean]

/-- The divisor `ssxx` is the sum of the squared deviations from the mean. -/
theorem ssxx_eq_sum_sq (xs : List ℚ) :
    ssxx xs = (xs.map (fun x => (x - mean xs) ^ 2)).sum := by
  rw [ssxx_eq]
  by_cases hn : xs = []
  · subst hn
    simp
  · have hx : xsOf (xs.map (fun x => (x, (0 : ℚ)))) = xs := by
      simp [xsOf, List.map_map, Function.comp_def]
    have h := ssxx_eq_sum_sq_dev (xs.map (fun x => (x, (0 : ℚ)))) (by simpa using hn)
    rw [hx] at h
    simp only [List.map_map, Function.comp_def, List.length_map] at h
    rw [h]
    congr 1
    refine List.map_congr_left (fun x _ => ?_)
    ring

/-- The sum of a list all of whose entries are `c`. -/
theorem sum_of_all_eq (xs : List ℚ) (c : ℚ) (h : ∀ u ∈ xs, u = c) :
    xs.sum = (xs.length : ℚ) * c := by
  induction xs with
  | nil => simp
  | cons v rest ih =>
    rw [List.sum_cons, ih (fun u hu => h u (List.mem_cons_of_mem _ hu)),
      h v (List.mem_cons_self _ _), List.length_cons]
    push_cast
    ring

/-- The divisor `ssxx` is not zero exactly when two of the x-coordinates
differ. -/
theorem ssxx_ne_zero_iff (xs : List ℚ) :
    ssxx xs ≠ 0 ↔ ∃ u ∈ xs, ∃ v ∈ xs, u ≠ v := by
  constructor
  · intro hne
    by_contra hall
    apply hne
    rw [ssxx_eq_sum_sq]
    cases xs with
    | nil => simp
    | cons c rest =>
      have hc : ∀ u ∈ c :: rest, u = c := by
        intro u hu
        by_contra huc
        exact hall ⟨u, hu, c, List.mem_cons_self _ _, huc⟩
      have hm : mean (c :: rest) = c := by
        unfold mean
        rw [sum_of_all_eq _ c hc]
        have : ((c :: rest).length : ℚ) ≠ 0 := by
          rw [List.length_cons]
          push_cast
          positivity
        field_simp
      rw [hm]
      apply List.sum_eq_zero
      intro t ht
      obtain ⟨u, hu, rfl⟩ := List.mem_map.1 ht
      rw [hc u hu]
      ring
  · rintro ⟨u, hu, v, hv, huv⟩
    have hx : xsOf (xs.map (fun x => (x, (0 : ℚ)))) = xs := by
      simp [xsOf, List.map_map, Function.comp_def]
    have h := ssxx_ne_zero (xs.map (fun x => (x, (0 : ℚ))))
      ⟨(u, 0), List.mem_map.2 ⟨u, hu, rfl⟩, (v, 0), List.mem_map.2 ⟨v, hv, rfl⟩, huv⟩
    rw [hx] at h
    simp only [List.map_map, Function.comp_def, List.length_map] at h
    rw [ssxx_eq]
    exact h

/-- The slope returned by `linear_regression_slope` is the quotient of `ssxy`
by `ssxx`. -/
theorem slope_eq_quotient (xs ys : List ℚ) :
    (linear_regression_slope xs ys).2 = ssxy xs ys / ssxx xs := rfl

/-- Claim C21. In `FindSurfaceRoughness::execute`, over exact arithmetic, for
the vectors `xs` and `ys` that the three loops build from the cells with a flag
above zero: the slope stored is `ssxy / ssxx`; its divisor `ssxx`, computed as
the sum of the squares less `n * mean * mean`, equals the sum of the squared
deviations from the mean (for no point at all both are zero, the quotient by
zero being taken as zero), and is not zero exactly when two of the pushed
x-coordinates differ; an x-coordinate is pushed exactly for the cells of the
grid with a flag above zero; `ys` is as long as `xs`; and the number of points,
the divisor of both means and of the average distance, is not zero exactly when
some cell of the grid has a flag above zero, which, when the number of cells
fits `size_t`, is some entry below `d0 * d1 * d2` of the flag array. -/
theorem execute_divisors_nonzero_iff (sqrt : ℚ → ℚ) (dims : SizeVec3Type)
    (boundaryCells : Nat → Int) (getCoords : Nat → ℚ × ℚ × ℚ) :
    (execute sqrt dims boundaryCells getCoords).2.2 =
        ssxy (collectBoundaryPoints dims boundaryCells getCoords).1
            (collectBoundaryPoints dims boundaryCells getCoords).2 /
          ssxx (collectBoundaryPoints dims boundaryCells getCoords).1 ∧
    ssxx (collectBoundaryPoints dims boundaryCells getCoords).1 =
        ((collectBoundaryPoints dims boundaryCells getCoords).1.map (fun x => x * x)).sum -
          ((collectBoundaryPoints dims boundaryCells getCoords).1.length : ℚ) *
            mean (collectBoundaryPoints dims boundaryCells getCoords).1 *
            mean (collectBoundaryPoints dims boundaryCells getCoords).1 ∧
    ssxx (collectBoundaryPoints dims boundaryCells getCoords).1 =
        ((collectBoundaryPoints dims boundaryCells getCoords).1.map
          (fun x => (x - mean (collectBoundaryPoints dims boundaryCells getCoords).1) ^ 2)).sum ∧
    (ssxx (collectBoundaryPoints dims boundaryCells getCoords).1 ≠ 0 ↔
      ∃ u ∈ (collectBoundaryPoints dims boundaryCells getCoords).1,
        ∃ v ∈ (collectBoundaryPoints dims boundaryCells getCoords).1, u ≠ v) ∧
    (∀ u : ℚ, u ∈ (collectBoundaryPoints dims boundaryCells getCoords).1 ↔
      ∃ z, z < dims.d2 ∧ ∃ y, y < dims.d1 ∧ ∃ x, x < dims.d0 ∧
        0 < boundaryCells (cellIndex dims z y x) ∧ (getCoords (cellIndex dims z y x)).1 = u) ∧
    (collectBoundaryPoints dims boundaryCells getCoords).2.length =
        (collectBoundaryPoints dims boundaryCells getCoords).1.length ∧
    (((collectBoundaryPoints dims boundaryCells getCoords).1.length : ℚ) ≠ 0 ↔
      ∃ z, z < dims.d2 ∧ ∃ y, y < dims.d1 ∧ ∃ x, x < dims.d0 ∧
        0 < boundaryCells (cellIndex dims z y x)) ∧
    (dims.d0 * dims.d1 * dims.d2 < 2 ^ 64 →
      (((collectBoundaryPoints dims boundaryCells getCoords).1.length : ℚ) ≠ 0 ↔
        ∃ i, i < dims.d0 * dims.d1 * dims.d2 ∧ 0 < boundaryCells i)) :=
  ⟨rfl, ssxx_eq _, ssxx_eq_sum_sq _, ssxx_ne_zero_iff _,
   mem_collected_xs dims boundaryCells getCoords,
   collected_length_eq dims boundaryCells getCoords,
   collected_length_ne_zero dims boundaryCells getCoords,
   fun hfit => (collected_length_ne_zero dims boundaryCells getCoords).trans
     (exists_cell_iff_of_fits dims boundaryCells hfit)⟩

/-- Witness of claim C21: an image of two by two by one cells whose cells 0, 1
and 3 are boundary cells; the number of cells fits, the number of points is not
zero and, the cells 0 and 1 having different x-coordinates, neither is the
divisor of the slope. -/
theorem execute_divisors_nonzero_iff_witness :
    sampleDims.d0 * sampleDims.d1 * sampleDims.d2 < 2 ^ 64 ∧
    ((collectBoundaryPoints sampleDims sampleBoundaryCells sampleGetCoords).1.length : ℚ) ≠ 0 ∧
    ssxx (collectBoundaryPoints sampleDims sampleBoundaryCells sampleGetCoords).1 ≠ 0 :=
  ⟨by decide,
   ((execute_divisors_nonzero_iff (fun x => x) sampleDims sampleBoundaryCells
      sampleGetCoords).2.2.2.2.2.2.2 (by decide)).2 ⟨0, by decide, by decide⟩,
   (execute_divisors_nonzero_iff (fun x => x) sampleDims sampleBoundaryCells
      sampleGetCoords).2.2.2.1.2
     ⟨1 / 2,
      ((execute_divisors_nonzero_iff (fun x => x) sampleDims sampleBoundaryCells
        sampleGetCoords).2.2.2.2.1 (1 / 2)).2
        ⟨0, by decide, 0, by decide, 0, by decide, by decide,
          by norm_num [sampleGetCoords, cellIndex]⟩,
      3 / 2,
      ((execute_divisors_nonzero_iff (fun x => x) sampleDims sampleBoundaryCells
        sampleGetCoords).2.2.2.2.1 (3 / 2)).2
        ⟨0, by decide, 0, by decide, 1, by decide, by decide,
          by norm_num [sampleGetCoords, cellIndex, sampleDims]⟩,
      by norm_num⟩⟩

end FindSurfaceRoughness

namespace FindNorm

/-! ## The p-space values that `FindNorm::dataCheck` accepts (claim C22) -/

theorem Float32.exponent_lt (a : Float32) : a.exponent < 256 := Nat.mod_lt _ (by decide)

theorem Float32.signBit_lt (a : Float32) : a.signBit < 2 := Nat.mod_lt _ (by decide)

/-- The comparison with `+0.0f`: below it are the patterns that are no NaN, have
the sign bit set and are no zero. -/
theorem Float32.lt_zero_iff (a : Float32) :
    Float32.lt a Float32.zero = true ↔
      a.isNaN = false ∧ a.signBit ≠ 0 ∧ (a.exponent ≠ 0 ∨ a.fraction ≠ 0) := by
  have hz : Float32.zero.isNaN = false := by decide
  have hk : Float32.zero.key = 0 := by decide
  unfold Float32.lt
  rw [hz, hk]
  unfold Float32.key
  by_cases hs : a.signBit = 0
  · simp only [hs, if_true]
    have hd : decide (((a.exponent * 2 ^ 23 + a.fraction : Nat) : Int) < 0) = false :=
      decide_eq_false (not_lt.2 (Int.ofNat_nonneg _))
    rw [hd]
    simp [hs]
  · simp only [hs, if_false]
    cases hn : a.isNaN
    · simp only [Bool.not_false, Bool.true_and, decide_eq_true_eq, ne_eq, not_false_eq_true,
        true_and]
      constructor
      · intro h
        by_contra hc
        have he : a.exponent = 0 := by omega
        have hf : a.fraction = 0 := by omega
        rw [he, hf] at h
        simp at h
      · intro h
        have : 0 < a.exponent * 2 ^ 23 + a.fraction := by omega
        omega
    · simp

/-- For a finite pattern the comparison with `+0.0f` is that of the rational it
stands for with 0. -/
theorem Float32.lt_zero_iff_toRat (a : Float32) (hfin : a.exponent ≠ 255) :
    ∃ q, a.toRat = some q ∧ (Float32.lt a Float32.zero = true ↔ q < 0) := by
  have hnan : a.isNaN = false := by simp [Float32.isNaN, hfin]
  rw [Float32.lt_zero_iff, hnan]
  unfold Float32.toRat
  simp only [hfin, if_false]
  refine ⟨_, rfl, ?_⟩
  by_cases hs : a.signBit = 0
  · simp only [hs, if_true, ne_eq, not_true_eq_false, false_and, and_false, false_iff, not_lt]
    split
    · positivity
    · positivity
  · simp only [hs, if_false, ne_eq, not_false_eq_true, true_and, Left.neg_neg_iff]
    by_cases he : a.exponent = 0
    · simp only [he, if_true, not_true_eq_false, false_or]
      constructor
      · intro hf
        have : (0 : ℚ) < (a.fraction : ℚ) := by exact_mod_cast Nat.pos_of_ne_zero hf
        positivity
      · intro h hf
        rw [hf] at h
        simp at h
    · simp only [he, if_false, not_false_eq_true, true_or, true_iff]
      have : (0 : ℚ) < ((2 ^ 23 + a.fraction : Nat) : ℚ) := by
        exact_mod_cast Nat.add_pos_left (by decide) _
      positivity

/-- A pattern not below `+0.0f` is a NaN, plus infinity, or stands for a
rational that is at least 0. -/
theorem Float32.not_lt_zero_cases (a : Float32) (h : Float32.lt a Float32.zero = false) :
    a.isNaN = true ∨ a.isPosInf = true ∨ ∃ q, a.toRat = some q ∧ 0 ≤ q := by
  by_cases hfin : a.exponent = 255
  · by_cases hf : a.fraction = 0
    · right; left
      have hnan : a.isNaN = false := by simp [Float32.isNaN, hf]
      have hs : a.signBit = 0 := by
        by_contra hs
        have : Float32.lt a Float32.zero = true :=
          (Float32.lt_zero_iff a).2 ⟨hnan, hs, Or.inl (by omega)⟩
        rw [h] at this
        exact Bool.false_ne_true this
      simp [Float32.isPosInf, hfin, hf, hs]
    · left
      simp [Float32.isNaN, hfin, hf]
  · right; right
    obtain ⟨q, hq, hiff⟩ := Float32.lt_zero_iff_toRat a hfin
    refine ⟨q, hq, ?_⟩
    by_contra hneg
    have := hiff.2 (not_le.1 hneg)
    rw [h] at this
    exact Bool.false_ne_true this

/-- A call into the data container array keeps what was recorded before it. -/
theorem containerCall_errors (e : Option (Int × String)) (f : Filter) :
    (containerCall e f).errors = f.errors ++ e.toList := by
  cases e with
  | none => simp [containerCall]
  | some c => simp [containerCall, Filter.setErrorCondition]

/-- What one run of `dataCheck` records: error -11002 when the p-space value is
below zero, then what the two calls into the data container array record. -/
theorem recordedBy_eq (inArray normArray : Option (Int × String)) (f : Filter) :
    recordedBy inArray normArray f =
      (if Float32.lt f.pSpace Float32.zero then
          [((-11002 : Int), "p-space value must be greater than or equal to 0")]
        else []) ++ inArray.toList ++ normArray.toList := by
  unfold recordedBy dataCheck
  simp only [containerCall_errors]
  cases hlt : Float32.lt f.pSpace Float32.zero
  · simp [hlt, Filter.getPSpace, Filter.clearErrorCode, Filter.clearWarningCode]
  · simp [hlt, Filter.getPSpace, Filter.setErrorCondition, Filter.clearErrorCode,
      Filter.clearWarningCode]

/-- An accepted p-space value is not below zero. -/
theorem not_lt_of_accepts (inArray normArray : Option (Int × String)) (f : Filter)
    (h : accepts inArray normArray f) : Float32.lt f.pSpace Float32.zero = false := by
  cases hlt : Float32.lt f.pSpace Float32.zero
  · rfl
  · exfalso
    apply h
    rw [recordedBy_eq, hlt]
    simp

/-- When the calls into the data container array record nothing, the accepted
p-space values are exactly those not below zero. -/
theorem accepts_iff_not_lt (f : Filter) :
    accepts none none f ↔ Float32.lt f.pSpace Float32.zero = false := by
  refine ⟨not_lt_of_accepts none none f, fun h => ?_⟩
  unfold accepts
  rw [recordedBy_eq, h]
  simp

/-- The divisors of `findPthNorm`: the p-space value, once for each tuple. -/
theorem findPthNorm_divisors (pow add div : Float32 → Float32 → Float32)
    (inData : Nat → Float32) (nDims nTuples : Nat) (p : Float32) :
    (findPthNorm pow add div inData nDims nTuples p).2 = List.replicate nTuples p := by
  unfold findPthNorm
  have key : ∀ (l : List Nat) (st : List Float32 × List Float32),
      (l.foldl (fun st i =>
        (st.1 ++ [pow (innerSum pow add inData nDims i p) (div Float32.one p)], st.2 ++ [p]))
        st).2 = st.2 ++ List.replicate l.length p := by
    intro l
    induction l with
    | nil => intro st; simp
    | cons i rest ih =>
      intro st
      rw [List.foldl_cons, ih]
      simp [List.replicate_succ]
  rw [key]
  simp

/-- The p-space value NaN is accepted: the comparison `NaN < 0` is false. -/
theorem dataCheck_accepts_nan :
    sampleNaN.isNaN = true ∧ accepts none none (sampleFilter sampleNaN) ∧
      sampleNaN.toRat = none := by
  refine ⟨by decide, by decide, ?_⟩
  have he : sampleNaN.exponent = 255 := by decide
  simp [Float32.toRat, he]

/-- Claim C22, as stated, fails at the p-space value `+0.0f`: it is a zero,
`dataCheck` records nothing for it (so no error -11002) and leaves the error
code 0, and `execute` goes on to `findPthNorm`, where every quotient `1 / p` has
that zero as its divisor. -/
theorem dataCheck_accepts_zero :
    (sampleFilter Float32.zero).pSpace.isZero = true ∧
    recordedBy none none (sampleFilter Float32.zero) = [] ∧
    accepts none none (sampleFilter Float32.zero) ∧
    (dataCheck none none (sampleFilter Float32.zero)).getErrorCode = 0 ∧
    execute sampleOp sampleOp sampleOp none none sampleInData 2 2 (sampleFilter Float32.zero) =
      Outcome.done (sampleFilter Float32.zero) [Float32.zero, Float32.zero]
        [Float32.zero, Float32.zero] := by
  refine ⟨by decide, by decide, by decide, by decide, by decide⟩

/-- Claim C22, amended. Every p-space value that `FindNorm::dataCheck` accepts
(records no error -11002 for) is not below 0: the comparison `p < 0` is false
for it, so it is a NaN, plus infinity, or a number greater than or equal to 0,
as the message of that error says. The divisors of the quotients `1 / p` in
`findPthNorm` are that value, once for each tuple, and for an accepted value
that is no zero none of them is a zero. -/
theorem dataCheck_accepts_only_not_below_zero (inArray normArray : Option (Int × String))
    (f : Filter) (h : accepts inArray normArray f) :
    Float32.lt f.pSpace Float32.zero = false ∧
    (f.pSpace.isNaN = true ∨ f.pSpace.isPosInf = true ∨
      ∃ q, f.pSpace.toRat = some q ∧ 0 ≤ q) ∧
    (∀ (pow add div : Float32 → Float32 → Float32) (inData : Nat → Float32)
        (nDims nTuples : Nat),
      (findPthNorm pow add div inData nDims nTuples f.pSpace).2 =
        List.replicate nTuples f.pSpace) ∧
    (f.pSpace.isZero = false →
      ∀ (pow add div : Float32 → Float32 → Float32) (inData : Nat → Float32)
        (nDims nTuples : Nat),
        ∀ d ∈ (findPthNorm pow add div inData nDims nTuples f.pSpace).2, d.isZero = false) := by
  have h0 := not_lt_of_accepts inArray normArray f h
  refine ⟨h0, Float32.not_lt_zero_cases _ h0, ?_, ?_⟩
  · intro pow add div inData nDims nTuples
    exact findPthNorm_divisors pow add div inData nDims nTuples f.pSpace
  · intro hz pow add div inData nDims nTuples d hd
    rw [findPthNorm_divisors] at hd
    rw [(List.mem_replicate.1 hd).2]
    exact hz

/-- Witness of the amended claim C22: the p-space value `2.0f` is accepted, is
not below zero, and is the non-zero divisor of both quotients for two tuples. -/
theorem dataCheck_accepts_only_not_below_zero_witness :
    accepts none none (sampleFilter sampleTwo) ∧
    Float32.lt (sampleFilter sampleTwo).pSpace Float32.zero = false ∧
    (findPthNorm sampleOp sampleOp sampleOp sampleInData 2 2 (sampleFilter sampleTwo).pSpace).2 =
      List.replicate 2 (sampleFilter sampleTwo).pSpace :=
  ⟨by decide,
   (dataCheck_accepts_only_not_below_zero none none (sampleFilter sampleTwo) (by decide)).1,
   (dataCheck_accepts_only_not_below_zero none none (sampleFilter sampleTwo)
     (by decide)).2.2.1 sampleOp sampleOp sampleOp sampleInData 2 2⟩

end FindNorm
